import Mathlib

/-!
# Cosmic Light Weaver: level generation and reachability

A shallow embedding of the level-generation core of `Cosmic_light_weaver.cpp`
(the pathfinder, the map generator, exit and collectible placement, the
connectivity verifier, the guaranteed-path constructor and the orchestrator),
followed by theorems about it.

Conventions of the embedding.

* The global `spaceMap[GRID_HEIGHT][GRID_WIDTH]` only ever receives the values
  `0` and `1`; a cell is a `Bool`, `true` meaning blocked (`== 1`) and `false`
  meaning open (`== 0`).  It is indexed `spaceMap y x` as in the source.
* `rand()` is a stream of naturals with a cursor (`World.rand`, `World.randPos`).
* `exitX`, `exitY`, `coins[i].x`, `coins[i].y` are stored by the source as
  `cell + 0.5f` and only read back through `(int)`; the embedding stores the cell.
* Euclidean distances of integer cells are compared with small integer
  thresholds (`sqrt(n) > m`, `sqrt(n) < m`); these comparisons are exact and are
  written on the squared distance (`n > m*m`, `n < m*m`).
* The costs `g`, `h`, `f` of the A* search are `float`s whose sums round; the
  embedding is parametric in a `FloatModel`, so every theorem about the
  pathfinder holds for whatever the float arithmetic does.  `float32` is the
  instance that rounds as IEEE 754 binary32 does (to nearest, ties to even);
  `exactCost` is the instance that does not round.
* A read of `spaceMap[y][x]` outside the array is undefined behaviour; where
  the order of the bounds tests and the reads matters, the read is `readCell`,
  which stops with `Fault.bufferOverflow` on an index outside the array.
* A write past the end of a fixed-size local buffer is undefined behaviour; the
  embedding stops with `Fault.bufferOverflow` there.
-/

namespace CosmicLightWeaver

set_option maxRecDepth 100000

/-! ## Constants -/

def GRID_WIDTH : Int := 15
def GRID_HEIGHT : Int := 15
def MAX_COINS : Nat := 10
def MAX_PATH_LENGTH : Nat := 100

/-- Direction vectors `dx`, `dy` (four cardinal moves). -/
def dx : List Int := [0, 1, 0, -1]
def dy : List Int := [-1, 0, 1, 0]

/-- Direction vectors `dx_path`, `dy_path` (four cardinal moves, then four diagonals). -/
def dx_path : List Int := [0, 1, 0, -1, 1, 1, -1, -1]
def dy_path : List Int := [-1, 0, 1, 0, -1, 1, 1, -1]

/-! ## Data model -/

/-- The occupancy grid `spaceMap`, indexed `[y][x]`; `true` is blocked. -/
abbrev Grid := Int → Int → Bool

/-- The assignment `a[y][x] = v` on a two-dimensional array. -/
def setCell (a : Grid) (y x : Int) (v : Bool) : Grid :=
  fun y1 x1 => if y1 = y ∧ x1 = x then v else a y1 x1

/-- The array after `memset(spaceMap, 0, ...)`, also `closedSet = { {false} }`. -/
def clearGrid : Grid := fun _ _ => false

inductive DifficultyLevel where
  | DIFFICULTY_EASY
  | DIFFICULTY_MEDIUM
  | DIFFICULTY_HARD
  deriving DecidableEq, Repr

open DifficultyLevel

/-- The arithmetic of `float` as far as the pathfinder uses it.  `ofScaled k` is the
float for the value `k / 100000` (the literals `0.0f`, `1.0f`, `1.414f` and the
conversion of an `int`), `add` is float addition, `lt` the comparison `<`. -/
structure FloatModel where
  F : Type
  ofScaled : Int → F
  add : F → F → F
  lt : F → F → Bool

/-- Exact arithmetic in units of `1 / 100000`: a float model without rounding. -/
def exactCost : FloatModel where
  F := Int
  ofScaled := fun k => k
  add := fun a b => a + b
  lt := fun a b => decide (a < b)

/-- The struct `Node` of the source: `{ Point pos; int parent; float g, h, f; }`. -/
structure Node (F : Type) where
  posX : Int
  posY : Int
  parent : Int
  g : F
  h : F
  f : F

/-- The struct `Coin` of the source; `x`, `y` hold the cell `(int)coins[i].x`, `(int)coins[i].y`. -/
structure Coin where
  x : Int
  y : Int
  active : Bool
  deriving DecidableEq, Repr

/-! ## Pathfinder -/

/-- The function `heuristic`: `(float)(abs(x1 - x2) + abs(y1 - y2))`, in scaled units. -/
def heuristic (M : FloatModel) (x1 y1 x2 y2 : Int) : M.F :=
  M.ofScaled (100000 * ((Int.natAbs (x1 - x2) : Int) + (Int.natAbs (y1 - y2) : Int)))

/-- The constant added to `g` for direction `i`: `(i < 4 ? 1.0f : 1.414f)`, in units of
`1 / 100000`. -/
def moveCost (i : Nat) : Int := if i < 4 then 100000 else 141400

/-- The scan for the node with the lowest `f`, from index `i` on: `cur` is `currentIndex`
and `curF` is `openSet[currentIndex].f`. -/
def lowestFrom (M : FloatModel) : List (Node M.F) → Nat → Nat → M.F → Nat
  | [], _, cur, _ => cur
  | n :: rest, i, cur, curF =>
    if M.lt n.f curF = true then lowestFrom M rest (i + 1) i n.f
    else lowestFrom M rest (i + 1) cur curF

/-- The index chosen by `for (i = 1; i < openSetSize; i++) if (openSet[i].f <
openSet[currentIndex].f) currentIndex = i;` starting from `currentIndex = 0`. -/
def lowestIndex (M : FloatModel) : List (Node M.F) → Nat
  | [] => 0
  | n :: rest => lowestFrom M rest 1 0 n.f

/-- The removal `openSet[currentIndex] = openSet[--openSetSize]`. -/
def removeAt {α : Type} (openSet : List α) (idx : Nat) : List α :=
  match openSet.getLast? with
  | none => []
  | some last => (openSet.set idx last).dropLast

/-- The search `for (j = 0; j < openSetSize; j++) if (openSet[j].pos == (nx, ny)) ... break`:
the first index holding the position, if any. -/
def openIndexOf {F : Type} (nx ny : Int) : List (Node F) → Option Nat
  | [] => none
  | n :: rest =>
    if n.posX = nx ∧ n.posY = ny then some 0
    else (openIndexOf nx ny rest).map (fun j => j + 1)

/-- The test that makes the neighbour loop `continue` before the diagonal check:
out of the grid, blocked, or closed. -/
def neighborSkipped (grid closedSet : Grid) (nx ny : Int) : Bool :=
  decide (nx < 0 ∨ nx ≥ GRID_WIDTH ∨ ny < 0 ∨ ny ≥ GRID_HEIGHT ∨
    grid ny nx = true ∨ closedSet ny nx = true)

/-- The diagonal test of the neighbour loop: for `i >= 4` the move is dropped when
`spaceMap[ay1][ax1] == 1 || spaceMap[ay2][ax2] == 1` with
`ax1 = x + dx_path[i - 4]`, `ay1 = y`, `ax2 = x`, `ay2 = y + dy_path[i - 4]`. -/
def diagonalRejected (grid : Grid) (x y : Int) (i : Nat) : Bool :=
  decide (4 ≤ i ∧
    (grid y (x + dx_path.getD (i - 4) 0) = true ∨ grid (y + dy_path.getD (i - 4) 0) x = true))

/-- One pass of the body of `for (int i = 0; i < 8; i++)` for the node `current`. -/
def expandNeighbor (M : FloatModel) (grid closedSet : Grid) (goalX goalY : Int)
    (current : Node M.F) (openSet : List (Node M.F)) (i : Nat) : List (Node M.F) :=
  let nx := current.posX + dx_path.getD i 0
  let ny := current.posY + dy_path.getD i 0
  if neighborSkipped grid closedSet nx ny = true then openSet
  else if diagonalRejected grid current.posX current.posY i = true then openSet
  else
    let g := M.add current.g (M.ofScaled (moveCost i))
    match openIndexOf nx ny openSet with
    | some openIndex =>
      match openSet.get? openIndex with
      | some old =>
        if M.lt g old.g = true then
          openSet.set openIndex
            { old with g := g, f := M.add g old.h,
                       parent := current.posY * GRID_WIDTH + current.posX }
        else openSet
      | none => openSet
    | none =>
      if (openSet.length : Int) < GRID_WIDTH * GRID_HEIGHT then
        let h := heuristic M nx ny goalX goalY
        openSet ++ [{ posX := nx, posY := ny,
                      parent := current.posY * GRID_WIDTH + current.posX,
                      g := g, h := h, f := M.add g h }]
      else openSet

/-- The whole neighbour loop for the node `current`. -/
def expandAll (M : FloatModel) (grid closedSet : Grid) (goalX goalY : Int)
    (current : Node M.F) (openSet : List (Node M.F)) : List (Node M.F) :=
  (List.range 8).foldl (expandNeighbor M grid closedSet goalX goalY current) openSet

/-- The loop `while (openSetSize > 0)` of `pathfindAStar`, run for at most `fuel`
iterations; `none` when the fuel runs out. -/
def aStarLoop (M : FloatModel) (grid : Grid) (goalX goalY : Int) :
    Nat → List (Node M.F) → Grid → Option Bool
  | 0, _, _ => none
  | fuel + 1, openSet, closedSet =>
    match openSet with
    | [] => some false
    | first :: _ =>
      let currentIndex := lowestIndex M openSet
      let current := openSet.getD currentIndex first
      let openSet1 := removeAt openSet currentIndex
      if current.posX = goalX ∧ current.posY = goalY then some true
      else
        let closedSet1 := setCell closedSet current.posY current.posX true
        aStarLoop M grid goalX goalY fuel
          (expandAll M grid closedSet1 goalX goalY current openSet1) closedSet1

/-- The input validation at the head of `pathfindAStar`. -/
def endpointsInvalid (grid : Grid) (startX startY goalX goalY : Int) : Bool :=
  decide (startX < 0 ∨ startX ≥ GRID_WIDTH ∨ startY < 0 ∨ startY ≥ GRID_HEIGHT ∨
    goalX < 0 ∨ goalX ≥ GRID_WIDTH ∨ goalY < 0 ∨ goalY ≥ GRID_HEIGHT ∨
    grid startY startX = true ∨ grid goalY goalX = true)

/-- The start node `{ {startX, startY}, -1, 0.0f, heuristic(...) }` with `f = g + h`. -/
def startNode (M : FloatModel) (startX startY goalX goalY : Int) : Node M.F :=
  { posX := startX, posY := startY, parent := -1, g := M.ofScaled 0,
    h := heuristic M startX startY goalX goalY,
    f := M.add (M.ofScaled 0) (heuristic M startX startY goalX goalY) }

/-- The function `pathfindAStar` with its main loop bounded by `fuel` iterations. -/
def pathfindAStarFuel (M : FloatModel) (fuel : Nat) (grid : Grid)
    (startX startY goalX goalY : Int) : Option Bool :=
  if endpointsInvalid grid startX startY goalX goalY = true then some false
  else aStarLoop M grid goalX goalY fuel [startNode M startX startY goalX goalY] clearGrid

/-- The number of loop iterations that `pathfindAStar` can need: every iteration but
the last closes a cell of the grid that was not closed. -/
def searchFuel : Nat := 226

/-- The function `pathfindAStar`. -/
def pathfindAStar (M : FloatModel) (grid : Grid) (startX startY goalX goalY : Int) : Bool :=
  (pathfindAStarFuel M searchFuel grid startX startY goalX goalY).getD false

/-! ## Program state -/

/-- What stops a run of the embedding short of a result. -/
inductive Fault where
  /-- An access past the end of a fixed-size local buffer. -/
  | bufferOverflow
  /-- The iteration bound of a modelled loop was used up. -/
  | outOfFuel
  deriving DecidableEq, Repr

/-- The globals of the source that the level generator reads and writes, and the
stream read by `rand()`. -/
structure World where
  spaceMap : Grid
  exitX : Int
  exitY : Int
  coins : Nat → Coin
  totalCoins : Nat
  pathExists : Bool
  currentDifficulty : DifficultyLevel
  rand : Nat → Nat
  randPos : Nat

/-- One call of `rand()`. -/
def World.nextRand (w : World) : Nat × World :=
  (w.rand w.randPos, { w with randPos := w.randPos + 1 })

/-- The assignment `spaceMap[y][x] = v`. -/
def World.setMap (w : World) (y x : Int) (v : Bool) : World :=
  { w with spaceMap := setCell w.spaceMap y x v }

/-- The assignments `coins[i].x = x + 0.5f; coins[i].y = y + 0.5f; coins[i].active = true`. -/
def World.putCoin (w : World) (i : Nat) (x y : Int) : World :=
  { w with coins := fun j => if j = i then { x := x, y := y, active := true } else w.coins j }

/-- The loop `for (int i = 0; i < MAX_COINS; i++) coins[i].active = false`. -/
def World.resetCoins (w : World) : World :=
  { w with coins := fun j => if j < MAX_COINS then { w.coins j with active := false } else w.coins j }

/-- The loop `for (i = lo; i < hi; i++) body`. -/
def forLoop {σ : Type} (lo hi : Int) (body : Int → σ → σ) (s : σ) : σ :=
  (List.range (hi - lo).toNat).foldl (fun s (k : Nat) => body (lo + (k : Int)) s) s

/-- The test `x >= 0 && x < GRID_WIDTH && y >= 0 && y < GRID_HEIGHT`. -/
def inGrid (x y : Int) : Bool :=
  decide (x ≥ 0 ∧ x < GRID_WIDTH ∧ y ≥ 0 ∧ y < GRID_HEIGHT)

/-- The test `!(x <= 3 && y <= 3) && !(x >= GRID_WIDTH - 4 && y >= GRID_HEIGHT - 4)`. -/
def outsideProtectedZones (x y : Int) : Bool :=
  decide (¬ (x ≤ 3 ∧ y ≤ 3) ∧ ¬ (x ≥ GRID_WIDTH - 4 ∧ y ≥ GRID_HEIGHT - 4))

/-! ## Map generator -/

/-- The value of `numAsteroidFields` chosen by the `switch` on the difficulty. -/
def numAsteroidFields : DifficultyLevel → Int
  | DIFFICULTY_EASY => GRID_WIDTH * GRID_HEIGHT / 8
  | DIFFICULTY_MEDIUM => GRID_WIDTH * GRID_HEIGHT / 6
  | DIFFICULTY_HARD => GRID_WIDTH * GRID_HEIGHT / 4

/-- The innermost body of the cluster phase, for the cell `(x, y)`. -/
def clusterCell (y x : Int) (w : World) : World :=
  if inGrid x y = true then
    if outsideProtectedZones x y = true then
      let (r, w1) := w.nextRand
      if (r : Int) % 100 < 60 then w1.setMap y x true else w1
    else w
  else w

/-- One asteroid cluster: the body of the first loop of `generateRandomMap`. -/
def placeCluster (w : World) : World :=
  let (r1, w1) := w.nextRand
  let centerX : Int := 3 + (r1 : Int) % (GRID_WIDTH - 6)
  let (r2, w2) := w1.nextRand
  let centerY : Int := 3 + (r2 : Int) % (GRID_HEIGHT - 6)
  let (r3, w3) := w2.nextRand
  let radius : Int := 1 + (r3 : Int) % 2
  forLoop (centerY - radius) (centerY + radius + 1)
    (fun y => forLoop (centerX - radius) (centerX + radius + 1) (fun x => clusterCell y x)) w3

/-- One scattered asteroid: the body of the second loop of `generateRandomMap`. -/
def placeScattered (w : World) : World :=
  let (r1, w1) := w.nextRand
  let x : Int := (r1 : Int) % GRID_WIDTH
  let (r2, w2) := w1.nextRand
  let y : Int := (r2 : Int) % GRID_HEIGHT
  if outsideProtectedZones x y = true then w2.setMap y x true else w2

/-- The last loops of `generateRandomMap`: `spaceMap[y][x] = 0` for `x, y` in `0..3`. -/
def clearStartArea (w : World) : World :=
  forLoop 0 4 (fun y => forLoop 0 4 (fun x w1 => w1.setMap y x false)) w

/-- The first loop of `generateRandomMap`: `numAsteroidFields / 4` clusters. -/
def clusterPhase (w : World) : World :=
  forLoop 0 (numAsteroidFields w.currentDifficulty / 4) (fun _ => placeCluster) w

/-- The second loop of `generateRandomMap`: `numAsteroidFields * 3 / 4` single cells. -/
def scatterPhase (w : World) : World :=
  forLoop 0 (numAsteroidFields w.currentDifficulty * 3 / 4) (fun _ => placeScattered) w

/-- The function `generateRandomMap`. -/
def generateRandomMap (w : World) : World :=
  clearStartArea (scatterPhase (clusterPhase { w with spaceMap := clearGrid }))

/-! ## Exit placement -/

/-- The value of `minDistance` chosen by the `switch` on the difficulty:
`GRID_WIDTH / 3` and `GRID_WIDTH / 2` are integer divisions (5 and 7) and
`GRID_WIDTH / 2.5` is exactly 6. -/
def minDistance : DifficultyLevel → Int
  | DIFFICULTY_EASY => GRID_WIDTH / 3
  | DIFFICULTY_MEDIUM => GRID_WIDTH * 2 / 5
  | DIFFICULTY_HARD => GRID_WIDTH / 2

/-- The squared Euclidean distance of two cells, `pow(x - a, 2) + pow(y - b, 2)`. -/
def distSq (x y a b : Int) : Int := (x - a) ^ 2 + (y - b) ^ 2

/-- The loop `while (attempts < maxAttempts)` of `findValidExit`, with `remaining =
maxAttempts - attempts`; it gives the accepted candidate, if any, and the state of
the random stream afterwards. -/
def findExitLoop (minD : Int) : Nat → World → Option (Int × Int) × World
  | 0, w => (none, w)
  | remaining + 1, w =>
    let (r1, w1) := w.nextRand
    let x : Int := GRID_WIDTH / 2 + (r1 : Int) % (GRID_WIDTH / 2 - 2)
    let (r2, w2) := w1.nextRand
    let y : Int := GRID_HEIGHT / 2 + (r2 : Int) % (GRID_HEIGHT / 2 - 2)
    if w2.spaceMap y x = false ∧ distSq x y 1 1 > minD ^ 2 then (some (x, y), w2)
    else findExitLoop minD remaining w2

/-- The loops that reset the 3×3 neighbourhood of `(cx, cy)`, inside the grid, to open. -/
def clearAround (cx cy : Int) (w : World) : World :=
  forLoop (cy - 1) (cy + 2) (fun y => forLoop (cx - 1) (cx + 2)
    (fun x w1 => if inGrid x y = true then w1.setMap y x false else w1)) w

/-- The function `findValidExit`. -/
def findValidExit (w : World) : World :=
  match findExitLoop (minDistance w.currentDifficulty) 100 w with
  | (some (x, y), w1) => { w1 with exitX := x, exitY := y }
  | (none, w1) =>
    let w2 := { w1 with exitX := GRID_WIDTH - 3, exitY := GRID_HEIGHT - 3 }
    clearAround w2.exitX w2.exitY w2

/-! ## Collectible placement -/

/-- The target count set by the `switch` at the head of `placeCoins`. -/
def targetCoins : DifficultyLevel → Nat
  | DIFFICULTY_EASY => MAX_COINS - 3
  | DIFFICULTY_MEDIUM => MAX_COINS - 1
  | DIFFICULTY_HARD => MAX_COINS

/-- The scan `for (j = 0; j < coinsPlaced; j++) if (coins[j].active) { ... if (dist < 3)
{ tooClose = true; break; } }`. -/
def tooClose (coins : Nat → Coin) (coinsPlaced : Nat) (x y : Int) : Bool :=
  (List.range coinsPlaced).any
    (fun j => (coins j).active && decide (distSq x y (coins j).x (coins j).y < 3 ^ 2))

/-- The loop `while (coinsPlaced < totalCoins && attempts < maxAttempts)` of `placeCoins`,
with `remaining = maxAttempts - attempts`; it gives the state and `coinsPlaced`. -/
def randomCoinLoop (M : FloatModel) : Nat → World → Nat → World × Nat
  | 0, w, coinsPlaced => (w, coinsPlaced)
  | remaining + 1, w, coinsPlaced =>
    if coinsPlaced < w.totalCoins then
      let (r1, w1) := w.nextRand
      let x : Int := (r1 : Int) % GRID_WIDTH
      let (r2, w2) := w1.nextRand
      let y : Int := (r2 : Int) % GRID_HEIGHT
      if w2.spaceMap y x = false ∧
          (distSq x y 1 1 > 2 ^ 2 ∧ distSq x y w2.exitX w2.exitY > 2 ^ 2) ∧
          (pathfindAStar M w2.spaceMap 1 1 x y = true ∧
            pathfindAStar M w2.spaceMap x y w2.exitX w2.exitY = true) ∧
          tooClose w2.coins coinsPlaced x y = false then
        randomCoinLoop M remaining (w2.putCoin coinsPlaced x y) (coinsPlaced + 1)
      else randomCoinLoop M remaining w2 coinsPlaced
    else (w, coinsPlaced)

/-- The state of the breadth-first search of `placeCoins`: the array `queue` (entries
`{x, y, parent}`, `queueBack` is its length) and the array `visited`. -/
structure BfsState where
  queue : List (Int × Int × Int)
  visited : Grid

/-- The body of `for (int i = 0; i < 4; i++)` in the breadth-first search, for the cell
`(x, y)` taken from index `queueFront - 1 = parentIdx`; the queue has room for
`GRID_WIDTH * GRID_HEIGHT` entries. -/
def bfsNeighbor (grid : Grid) (x y : Int) (parentIdx : Int) (s : BfsState) (i : Nat) :
    Except Fault BfsState :=
  let nx := x + dx.getD i 0
  let ny := y + dy.getD i 0
  if inGrid nx ny = true ∧ grid ny nx = false ∧ s.visited ny nx = false then
    if (s.queue.length : Int) < GRID_WIDTH * GRID_HEIGHT then
      .ok { queue := s.queue ++ [(nx, ny, parentIdx)], visited := setCell s.visited ny nx true }
    else .error Fault.bufferOverflow
  else .ok s

/-- The loop `while (current != -1)` that copies the parent chain of `queue[current]`
into `path`, which has room for `GRID_WIDTH * GRID_HEIGHT` entries. -/
def reconstructPath (queue : List (Int × Int × Int)) :
    Nat → Int → List (Int × Int) → Except Fault (List (Int × Int))
  | 0, _, _ => .error Fault.outOfFuel
  | fuel + 1, current, path =>
    if current = -1 then .ok path
    else if ¬ ((path.length : Int) < GRID_WIDTH * GRID_HEIGHT) then .error Fault.bufferOverflow
    else if current < 0 then .error Fault.bufferOverflow
    else
      match queue.get? current.toNat with
      | none => .error Fault.bufferOverflow
      | some (x, y, parent) => reconstructPath queue fuel parent (path ++ [(x, y)])

/-- The loop `while (queueFront < queueBack && !foundPath)` of `placeCoins`; it gives
`path` (in goal-to-start order) when the exit is found and `none` when the queue runs
empty. -/
def bfsLoop (grid : Grid) (exitX exitY : Int) :
    Nat → BfsState → Nat → Except Fault (Option (List (Int × Int)))
  | 0, _, _ => .error Fault.outOfFuel
  | fuel + 1, s, queueFront =>
    if queueFront < s.queue.length then
      match s.queue.get? queueFront with
      | none => .error Fault.bufferOverflow
      | some (x, y, _) =>
        if x = exitX ∧ y = exitY then
          (reconstructPath s.queue (s.queue.length + 1) (queueFront : Int) []).map some
        else
          match (List.range 4).foldlM (bfsNeighbor grid x y (queueFront : Int)) s with
          | .error e => .error e
          | .ok s1 => bfsLoop grid exitX exitY fuel s1 (queueFront + 1)
    else .ok none

/-- The in-place reversal `for (i = 0; i < pathLength / 2; i++) swap(path[i],
path[pathLength - i - 1])`. -/
def reversePath (path : List (Int × Int)) : List (Int × Int) :=
  forLoop 0 ((path.length / 2 : Nat) : Int)
    (fun i p =>
      let a := p.getD i.toNat (0, 0)
      let b := p.getD (path.length - i.toNat - 1) (0, 0)
      (p.set i.toNat b).set (path.length - i.toNat - 1) a) path

/-- The scan `for (j = 0; j < coinsPlaced; j++) if (coins[j].active && (int)coins[j].x == x
&& (int)coins[j].y == y) { isFree = false; break; }`. -/
def isFree (coins : Nat → Coin) (coinsPlaced : Nat) (x y : Int) : Bool :=
  !(List.range coinsPlaced).any
    (fun j => (coins j).active && decide ((coins j).x = x ∧ (coins j).y = y))

/-- The body of `for (i = 1; i <= coinsLeft && coinsPlaced < totalCoins; i++)`: once
`coinsPlaced < totalCoins` fails the loop is left, and the remaining passes do nothing. -/
def placeOnPath (path : List (Int × Int)) (interval : Nat) (i : Int) (s : World × Nat) :
    World × Nat :=
  let (w, coinsPlaced) := s
  if coinsPlaced < w.totalCoins then
    let pathIndex := i.toNat * interval
    if pathIndex < path.length then
      let (x, y) := path.getD pathIndex (0, 0)
      if isFree w.coins coinsPlaced x y = true then (w.putCoin coinsPlaced x y, coinsPlaced + 1)
      else (w, coinsPlaced)
    else (w, coinsPlaced)
  else (w, coinsPlaced)

/-- The block `if (foundPath && pathLength > 0) { ... }` of `placeCoins`, for the path
`path` found by the search. -/
def placeAlongPath (path : List (Int × Int)) (w : World) (coinsPlaced : Nat) : World × Nat :=
  if path.length > 0 then
    let path1 := reversePath path
    let coinsLeft := w.totalCoins - coinsPlaced
    if coinsLeft > 0 ∧ path1.length > 4 then
      let interval0 := path1.length / (coinsLeft + 1)
      let interval := if interval0 < 1 then 1 else interval0
      forLoop 1 ((coinsLeft : Int) + 1) (placeOnPath path1 interval) (w, coinsPlaced)
    else (w, coinsPlaced)
  else (w, coinsPlaced)

/-- The number of iterations the breadth-first loop can need: each takes a distinct
entry of the queue. -/
def bfsFuel : Nat := 226

/-- The function `placeCoins`. -/
def placeCoins (M : FloatModel) (w : World) : Except Fault World :=
  let w0 := { w with totalCoins := targetCoins w.currentDifficulty }
  let w1 := w0.resetCoins
  let (w2, coinsPlaced) := randomCoinLoop M 200 w1 0
  if coinsPlaced < w2.totalCoins then
    match bfsLoop w2.spaceMap w2.exitX w2.exitY bfsFuel
        { queue := [(1, 1, -1)], visited := setCell clearGrid 1 1 true } 0 with
    | .error e => .error e
    | .ok none => .ok { w2 with totalCoins := coinsPlaced }
    | .ok (some path) =>
      let (w3, coinsPlaced1) := placeAlongPath path w2 coinsPlaced
      .ok { w3 with totalCoins := coinsPlaced1 }
  else .ok { w2 with totalCoins := coinsPlaced }

/-! ## Guaranteed-path constructor -/

/-- The statement `if (current < exitGrid) current += 1 + rand() % 2`. -/
def advance (current exitGrid : Int) (w : World) : Int × World :=
  if current < exitGrid then
    let (r, w1) := w.nextRand
    (current + (1 + (r : Int) % 2), w1)
  else (current, w)

/-- The macro `min(a,b) ((a) < (b) ? (a) : (b))`. -/
def cmin (a b : Int) : Int := if a < b then a else b

/-- The innermost body of the obstacle scatter of `createGuaranteedPath`, for the
cell `(x, y)` near the waypoint `(currentX, currentY)`. -/
def scatterCell (currentX currentY y x : Int) (w : World) : World :=
  if inGrid x y = true then
    if Int.natAbs (x - currentX) > 1 ∨ Int.natAbs (y - currentY) > 1 then
      let (r, w1) := w.nextRand
      if (r : Int) % 100 < 30 then w1.setMap y x true else w1
    else w
  else w

/-- The block `if (rand() % 3 == 0) { ... }` of `createGuaranteedPath`. -/
def scatterNear (currentX currentY : Int) (w : World) : World :=
  let (r, w1) := w.nextRand
  if r % 3 = 0 then
    forLoop (currentY - 3) (currentY + 4)
      (fun y => forLoop (currentX - 3) (currentX + 4) (fun x => scatterCell currentX currentY y x)) w1
  else w1

/-- The local variables of `createGuaranteedPath` that its waypoint loop changes;
`pathPoints` holds the entries written so far (`pathLength` is its length). -/
structure Corridor where
  world : World
  currentX : Int
  currentY : Int
  pathPoints : List (Int × Int)

/-- The write `pathPoints[pathLength] = (x, y); pathLength++` into the buffer
`int pathPoints[MAX_COINS][2]`. -/
def pushPoint (pathPoints : List (Int × Int)) (x y : Int) : Except Fault (List (Int × Int)) :=
  if pathPoints.length < MAX_COINS then .ok (pathPoints ++ [(x, y)])
  else .error Fault.bufferOverflow

/-- The first part of the body of the waypoint loop of `createGuaranteedPath`: the draw of
`moveHorizontalFirst`, the two advances in the order it selects, and the clamp of
`currentX`, `currentY` to `GRID_WIDTH - 2`, `GRID_HEIGHT - 2`. -/
def nextWaypoint (exitGridX exitGridY currentX currentY : Int) (w : World) : Int × Int × World :=
  let (r, w1) := w.nextRand
  let moveHorizontalFirst : Bool := decide (r % 2 = 0)
  let (cx, cy, w3) :=
    if moveHorizontalFirst = true then
      let (cx, w2) := advance currentX exitGridX w1
      let (cy, w3) := advance currentY exitGridY w2
      (cx, cy, w3)
    else
      let (cy, w2) := advance currentY exitGridY w1
      let (cx, w3) := advance currentX exitGridX w2
      (cx, cy, w3)
  (cmin cx (GRID_WIDTH - 2), cmin cy (GRID_HEIGHT - 2), w3)

/-- The loop `while ((currentX < exitGridX || currentY < exitGridY) && pathLength <
MAX_PATH_LENGTH - 1)` of `createGuaranteedPath`. -/
def corridorLoop (exitGridX exitGridY : Int) : Nat → Corridor → Except Fault Corridor
  | 0, _ => .error Fault.outOfFuel
  | fuel + 1, c =>
    if (c.currentX < exitGridX ∨ c.currentY < exitGridY) ∧
        c.pathPoints.length < MAX_PATH_LENGTH - 1 then
      match nextWaypoint exitGridX exitGridY c.currentX c.currentY c.world with
      | (currentX, currentY, w3) =>
        match pushPoint c.pathPoints currentX currentY with
        | .error e => .error e
        | .ok pathPoints =>
          corridorLoop exitGridX exitGridY fuel
            { world := scatterNear currentX currentY w3, currentX := currentX,
              currentY := currentY, pathPoints := pathPoints }
    else .ok c

/-- The loop that opens the 3×3 neighbourhood of every recorded waypoint. -/
def clearPath (pathPoints : List (Int × Int)) (w : World) : World :=
  forLoop 0 (pathPoints.length : Int)
    (fun i w1 =>
      let (x, y) := pathPoints.getD i.toNat (0, 0)
      clearAround x y w1) w

/-- The loop `for (i = 0; i < totalCoins; i++)` that puts the collectibles on waypoints. -/
def coinsOnPath (pathPoints : List (Int × Int)) (w : World) : World :=
  forLoop 0 (w.totalCoins : Int)
    (fun i w1 =>
      let pathLength : Int := pathPoints.length
      let pathIndex0 : Int := 1 + i * (pathLength - 2) / (w.totalCoins : Int)
      let pathIndex : Int := if pathIndex0 ≥ pathLength - 1 then pathLength - 2 else pathIndex0
      let (x, y) := pathPoints.getD pathIndex.toNat (0, 0)
      w1.putCoin i.toNat x y) w

/-- The end of `createGuaranteedPath`, after the exit has been recorded as the last
waypoint: the path is cleared, `totalCoins = min(pathLength - 2, MAX_COINS)`, the
collectibles are reset and put on waypoints, and `pathExists = true`. -/
def finishPath (pathPoints : List (Int × Int)) (w : World) : World :=
  let w1 := clearPath pathPoints w
  let w2 := { w1 with totalCoins := (cmin ((pathPoints.length : Int) - 2) MAX_COINS).toNat }
  let w3 := w2.resetCoins
  let w4 := coinsOnPath pathPoints w3
  { w4 with pathExists := true }

/-- The function `createGuaranteedPath`. -/
def createGuaranteedPath (w : World) : Except Fault World :=
  let w0 := { w with spaceMap := clearGrid, exitX := GRID_WIDTH - 3, exitY := GRID_HEIGHT - 3 }
  let exitGridX := w0.exitX
  let exitGridY := w0.exitY
  match pushPoint [] 1 1 with
  | .error e => .error e
  | .ok p0 =>
    match corridorLoop exitGridX exitGridY MAX_PATH_LENGTH
        { world := w0, currentX := 1, currentY := 1, pathPoints := p0 } with
    | .error e => .error e
    | .ok c =>
      match pushPoint c.pathPoints exitGridX exitGridY with
      | .error e => .error e
      | .ok pathPoints => .ok (finishPath pathPoints c.world)

/-! ## Connectivity verifier and orchestrator -/

/-- The function `verifyAllPathsExist`. -/
def verifyAllPathsExist (M : FloatModel) (w : World) : Bool :=
  if pathfindAStar M w.spaceMap 1 1 w.exitX w.exitY = false then false
  else
    (List.range w.totalCoins).all (fun i =>
      if (w.coins i).active = true then
        !(!pathfindAStar M w.spaceMap 1 1 (w.coins i).x (w.coins i).y ||
          !pathfindAStar M w.spaceMap (w.coins i).x (w.coins i).y w.exitX w.exitY)
      else true)

/-- The loop `while (attempts < maxAttempts)` of `generateEnvironment` followed by the
fallback call, with `remaining = maxAttempts - attempts`. -/
def attemptLoop (M : FloatModel) : Nat → World → Except Fault World
  | 0, w => createGuaranteedPath w
  | remaining + 1, w =>
    match placeCoins M (findValidExit (generateRandomMap w)) with
    | .error e => .error e
    | .ok w1 =>
      if verifyAllPathsExist M w1 = true then .ok { w1 with pathExists := true }
      else attemptLoop M remaining w1

/-- The function `generateEnvironment`. -/
def generateEnvironment (M : FloatModel) (guaranteePath : Bool) (w : World) : Except Fault World :=
  if guaranteePath = true then createGuaranteedPath w
  else attemptLoop M 5 w

/-- The globals as the program starts: everything zero, the difficulty as selected in
the menu, `rand()` reading the stream `rand` from its beginning. -/
def initialWorld (d : DifficultyLevel) (rand : Nat → Nat) : World :=
  { spaceMap := clearGrid, exitX := 0, exitY := 0,
    coins := fun _ => { x := 0, y := 0, active := false },
    totalCoins := 0, pathExists := false, currentDifficulty := d, rand := rand, randPos := 0 }

/-! ## Paths on the grid, as the specification speaks of them -/

/-- A cell of the grid that is open. -/
def cellOpen (grid : Grid) (c : Int × Int) : Bool :=
  inGrid c.1 c.2 && !grid c.2 c.1

/-- A step from `a` to an 8-neighbour `b` that does not pass between two blocked cells:
when the step is diagonal, the two cells orthogonally adjacent to both `a` and `b` are
not both blocked. -/
def legalStep (grid : Grid) (a b : Int × Int) : Bool :=
  decide (a ≠ b ∧ Int.natAbs (b.1 - a.1) ≤ 1 ∧ Int.natAbs (b.2 - a.2) ≤ 1 ∧
    (b.1 ≠ a.1 ∧ b.2 ≠ a.2 → ¬ (grid a.2 b.1 = true ∧ grid b.2 a.1 = true)))

/-- A sequence of open cells of the grid, each consecutive pair a legal step. -/
def legalPath (grid : Grid) : List (Int × Int) → Bool
  | [] => true
  | [c] => cellOpen grid c
  | a :: b :: rest => cellOpen grid a && legalStep grid a b && legalPath grid (b :: rest)

/-! ## Notions used by the proofs -/

/-- The position `pos` of a node, as the pair `(x, y)`. -/
def nodePos {F : Type} (n : Node F) : Int × Int := (n.posX, n.posY)

/-- The cells that a chain of legal steps through open cells reaches from `s`. -/
inductive Reach (grid : Grid) (s : Int × Int) : Int × Int → Prop
  | start : cellOpen grid s = true → Reach grid s s
  | step {a b : Int × Int} : Reach grid s a → legalStep grid a b = true →
      cellOpen grid b = true → Reach grid s b

/-- The cells of the grid. -/
def gridCells : Finset (Int × Int) :=
  Finset.Icc 0 (GRID_WIDTH - 1) ×ˢ Finset.Icc 0 (GRID_HEIGHT - 1)

/-- The number of cells of the grid that `closedSet` does not hold. -/
def unclosedCount (closedSet : Grid) : Nat :=
  (gridCells.filter (fun p => closedSet p.2 p.1 = false)).card

/-- The open set holds each position at most once, and only cells of the grid that are
not closed. -/
def OpenInv {F : Type} (openSet : List (Node F)) (closedSet : Grid) : Prop :=
  (openSet.map nodePos).Nodup ∧
  ∀ p ∈ openSet.map nodePos, inGrid p.1 p.2 = true ∧ closedSet p.2 p.1 = false

/-- The move from `a` to `b` passes the tests of the neighbour loop that do not depend
on the closed set: `b` is the neighbour of `a` in some direction `i < 8`, lies in the
grid, is not blocked, and the diagonal test does not drop it. -/
def moveAccepted (grid : Grid) (a b : Int × Int) : Prop :=
  ∃ i, i < 8 ∧ b = (a.1 + dx_path.getD i 0, a.2 + dy_path.getD i 0) ∧
    inGrid b.1 b.2 = true ∧ grid b.2 b.1 = false ∧ diagonalRejected grid a.1 a.2 i = false

/-- The cells from which a chain of accepted moves through cells that are not closed
leads to `goal`. -/
inductive Conn (grid closedSet : Grid) (goal : Int × Int) : Int × Int → Prop
  | here : closedSet goal.2 goal.1 = false → Conn grid closedSet goal goal
  | step {a b : Int × Int} : closedSet a.2 a.1 = false → moveAccepted grid a b →
      Conn grid closedSet goal b → Conn grid closedSet goal a

/-- Every cell of the 3×3 neighbourhood of `p` lies in the grid and is open. -/
def BlockOpen (grid : Grid) (p : Int × Int) : Prop :=
  ∀ x y, p.1 - 1 ≤ x → x ≤ p.1 + 1 → p.2 - 1 ≤ y → y ≤ p.2 + 1 →
    inGrid x y = true ∧ grid y x = false

/-- Two waypoints at most two cells apart in each direction. -/
def Near (p q : Int × Int) : Prop :=
  p.1 - 2 ≤ q.1 ∧ q.1 ≤ p.1 + 2 ∧ p.2 - 2 ≤ q.2 ∧ q.2 ≤ p.2 + 2

/-- What the waypoint loop of `createGuaranteedPath` maintains: the buffer starts with
`(1,1)` and ends with the current cell, consecutive waypoints are near each other, all
lie in `[1,13] × [1,13]`, the buffer is within its capacity, and the exit is `(12,12)`. -/
def CorridorInv (c : Corridor) : Prop :=
  c.pathPoints.getLast? = some (c.currentX, c.currentY) ∧
  c.pathPoints.head? = some (1, 1) ∧
  List.Chain' Near c.pathPoints ∧
  (∀ p ∈ c.pathPoints, 1 ≤ p.1 ∧ p.1 ≤ 13 ∧ 1 ≤ p.2 ∧ p.2 ≤ 13) ∧
  c.pathPoints.length ≤ MAX_COINS ∧ c.world.exitX = 12 ∧ c.world.exitY = 12

/-! ## Concrete inputs -/

/-- The fault that ended a run, if one did. -/
def faultOf (r : Except Fault World) : Option Fault :=
  match r with
  | .error e => some e
  | .ok _ => none

/-- The cells `(4,0) .. (4,3)` and `(0,4) .. (3,4)` around the start area, as the pairs
`(wallX[k], wallY[k])`. -/
def wallX : List Nat := [4, 4, 4, 4, 0, 1, 2, 3]
def wallY : List Nat := [0, 1, 2, 3, 4, 4, 4, 4]

/-- A stream of `rand()` values for `DIFFICULTY_EASY`.  Each of the first five blocks of
500 values drives one attempt of `generateEnvironment`: 56 values `90` (seven clusters
centred at `(3,3)` of radius 1 that block nothing), 21 pairs that scatter asteroids onto
the eight cells around the start area, two values `0` (the exit candidate `(7,7)`), and
200 pairs `(4, 0)` (collectible candidates on the blocked cell `(4,0)`).  From position
2500 on every value is `4`: each waypoint of `createGuaranteedPath` advances by one cell
in both directions and no obstacle is scattered. -/
def sealedStream (p : Nat) : Nat :=
  if p < 2500 then
    let q := p % 500
    if q < 56 then 90
    else if q < 98 then
      if (q - 56) % 2 = 0 then wallX.getD ((q - 56) / 2 % 8) 0
      else wallY.getD ((q - 56) / 2 % 8) 0
    else if q < 100 then 0
    else if q % 2 = 0 then 4 else 0
  else 4

/-- A grid with the single blocked cell `(x, y) = (1, 2)`. -/
def oneBlockedBelow : Grid := fun y x => decide (y = 2 ∧ x = 1)

/-- A grid with every cell blocked. -/
def allBlocked : Grid := fun _ _ => true

/-! ## Notions used for exit and collectible placement -/

/-- The candidate cell that `findValidExit` computes from two consecutive values of
`rand()`: `GRID_WIDTH / 2 + r1 % (GRID_WIDTH / 2 - 2)` and the same for the height. -/
def exitCandidate (r1 r2 : Nat) : Int × Int :=
  (GRID_WIDTH / 2 + (r1 : Int) % (GRID_WIDTH / 2 - 2),
   GRID_HEIGHT / 2 + (r2 : Int) % (GRID_HEIGHT / 2 - 2))

/-- What the randomized phase of `placeCoins` maintains, `w0` being the state at its
start and `k` the value of `coinsPlaced`: the grid, the exit and `totalCoins` are those
of `w0`; the first `k` collectibles are active, each on a cell more than 2 away from
`(1,1)` and from the exit that the pathfinder links to both; any two of them are at
least 3 apart; the other entries of `coins` are those of `w0`. -/
def RandomPhaseInv (M : FloatModel) (w0 w : World) (k : Nat) : Prop :=
  w.spaceMap = w0.spaceMap ∧ w.exitX = w0.exitX ∧ w.exitY = w0.exitY ∧
  w.totalCoins = w0.totalCoins ∧
  (∀ i, i < k → (w.coins i).active = true ∧
    distSq (w.coins i).x (w.coins i).y 1 1 > 2 ^ 2 ∧
    distSq (w.coins i).x (w.coins i).y w0.exitX w0.exitY > 2 ^ 2 ∧
    pathfindAStar M w0.spaceMap 1 1 (w.coins i).x (w.coins i).y = true ∧
    pathfindAStar M w0.spaceMap (w.coins i).x (w.coins i).y w0.exitX w0.exitY = true) ∧
  (∀ i j, i < j → j < k →
    distSq (w.coins j).x (w.coins j).y (w.coins i).x (w.coins i).y ≥ 3 ^ 2) ∧
  (∀ i, k ≤ i → w.coins i = w0.coins i)

/-- The waypoints that `createGuaranteedPath` records in `pathPoints` (the start, the
waypoints of the loop, the exit), with the state in which the loop leaves the globals. -/
def recordWaypoints (w : World) : Except Fault (List (Int × Int) × World) :=
  let w0 := { w with spaceMap := clearGrid, exitX := GRID_WIDTH - 3, exitY := GRID_HEIGHT - 3 }
  let exitGridX := w0.exitX
  let exitGridY := w0.exitY
  match pushPoint [] 1 1 with
  | .error e => .error e
  | .ok p0 =>
    match corridorLoop exitGridX exitGridY MAX_PATH_LENGTH
        { world := w0, currentX := 1, currentY := 1, pathPoints := p0 } with
    | .error e => .error e
    | .ok c =>
      match pushPoint c.pathPoints exitGridX exitGridY with
      | .error e => .error e
      | .ok pathPoints => .ok (pathPoints, c.world)

/-- The fault that ended the recording of the waypoints, if one did. -/
def waypointFault (r : Except Fault (List (Int × Int) × World)) : Option Fault :=
  match r with
  | .error e => some e
  | .ok _ => none

/-- The cell of an entry `{x, y, parent}` of the queue of the breadth-first search. -/
def entryCell (e : Int × Int × Int) : Int × Int := (e.1, e.2.1)

/-- What the breadth-first search of `placeCoins` maintains on its queue: no cell occurs
twice, every cell lies in the grid and is marked visited, and the parent of the entry at
index `k` is `-1` or an index below `k`. -/
def BfsShape (s : BfsState) : Prop :=
  (s.queue.map entryCell).Nodup ∧
  (∀ e ∈ s.queue, inGrid e.1 e.2.1 = true ∧ s.visited e.2.1 e.1 = true) ∧
  ∀ (k : Nat) (e : Int × Int × Int), s.queue.get? k = some e → -1 ≤ e.2.2 ∧ e.2.2 < k

/-- The cells that accepted moves link with `(1,1)` in both directions. -/
def LinkedToStart (grid : Grid) (c : Int × Int) : Prop :=
  inGrid c.1 c.2 = true ∧ grid c.2 c.1 = false ∧
  Conn grid clearGrid c (1, 1) ∧ Conn grid clearGrid (1, 1) c

/-- What the path phase of `placeCoins` maintains, `w2` and `k1` being the state and
`coinsPlaced` at its start and `k` the current `coinsPlaced`: the grid, the exit and
`totalCoins` are those of `w2`; the collectibles below `k1` and from `k` on are those of
`w2`; those from `k1` to `k - 1` are active and on cells that satisfy `P`. -/
def PathPhaseInv (P : Int × Int → Prop) (w2 : World) (k1 : Nat) (w : World) (k : Nat) : Prop :=
  w.spaceMap = w2.spaceMap ∧ w.exitX = w2.exitX ∧ w.exitY = w2.exitY ∧
  w.totalCoins = w2.totalCoins ∧ k1 ≤ k ∧ k ≤ w2.totalCoins ∧
  (∀ i, i < k1 → w.coins i = w2.coins i) ∧
  (∀ i, k1 ≤ i → i < k → (w.coins i).active = true ∧ P ((w.coins i).x, (w.coins i).y)) ∧
  (∀ i, k ≤ i → w.coins i = w2.coins i)

/-- The test `p` on the level that a run returned; false when the run ended in a fault. -/
def levelSatisfies (r : Except Fault World) (p : World → Bool) : Bool :=
  match r with
  | .ok w => p w
  | .error _ => false

/-- The state after one run of the pipeline `generateRandomMap`, `findValidExit`,
`placeCoins` (which always returns, see `placeCoins_spec`). -/
def attemptWorld (M : FloatModel) (w : World) : World :=
  match placeCoins M (findValidExit (generateRandomMap w)) with
  | .ok w1 => w1
  | .error _ => w

/-- The state after `n` runs of the pipeline in a row, on the shared random stream. -/
def afterAttempts (M : FloatModel) : Nat → World → World
  | 0, w => w
  | n + 1, w => afterAttempts M n (attemptWorld M w)

/-! ## Notions used for the exit draw, for four-connectivity and for the runs of the searches -/

/-- The `k`-th candidate cell that the loop of `findValidExit` draws when it starts in the
state `w`: it is computed from the `rand()` values at positions `randPos + 2 k` and
`randPos + 2 k + 1`. -/
def exitDraw (w : World) (k : Nat) : Int × Int :=
  exitCandidate (w.rand (w.randPos + 2 * k)) (w.rand (w.randPos + 2 * k + 1))

/-- A step from `a` to one of its four cardinal neighbours `b`. -/
def cardinalStep (a b : Int × Int) : Bool :=
  decide ((b.1 = a.1 ∧ (b.2 = a.2 - 1 ∨ b.2 = a.2 + 1)) ∨
    (b.2 = a.2 ∧ (b.1 = a.1 + 1 ∨ b.1 = a.1 - 1)))

/-- A sequence of open cells of the grid, each consecutive pair a cardinal step. -/
def cardinalPath (grid : Grid) : List (Int × Int) → Bool
  | [] => true
  | [c] => cellOpen grid c
  | a :: b :: rest => cellOpen grid a && cardinalStep a b && cardinalPath grid (b :: rest)

/-- The cells that a chain of cardinal steps through open cells reaches from `s`. -/
inductive FourConn (grid : Grid) (s : Int × Int) : Int × Int → Prop
  | start : cellOpen grid s = true → FourConn grid s s
  | step {a b : Int × Int} : FourConn grid s a → cardinalStep a b = true →
      cellOpen grid b = true → FourConn grid s b

/-- One pass of the body of the loop `while (openSetSize > 0)` of `pathfindAStar`: the open
set and the closed set when the pass begins, and the node `current` that it takes out. -/
structure Iteration (F : Type) where
  openSet : List (Node F)
  closedSet : Grid
  current : Node F

/-- The loop of `pathfindAStar` as in `aStarLoop`, giving with the result the passes of
the loop body in the order in which they ran. -/
def aStarTrace (M : FloatModel) (grid : Grid) (goalX goalY : Int) :
    Nat → List (Node M.F) → Grid → Option (Bool × List (Iteration M.F))
  | 0, _, _ => none
  | fuel + 1, openSet, closedSet =>
    match openSet with
    | [] => some (false, [])
    | first :: _ =>
      let currentIndex := lowestIndex M openSet
      let current := openSet.getD currentIndex first
      let openSet1 := removeAt openSet currentIndex
      if current.posX = goalX ∧ current.posY = goalY then
        some (true, [{ openSet := openSet, closedSet := closedSet, current := current }])
      else
        let closedSet1 := setCell closedSet current.posY current.posX true
        match aStarTrace M grid goalX goalY fuel
            (expandAll M grid closedSet1 goalX goalY current openSet1) closedSet1 with
        | none => none
        | some (b, passes) =>
          some (b, { openSet := openSet, closedSet := closedSet, current := current } :: passes)

/-- The function `pathfindAStar` with its main loop bounded by `fuel` iterations, giving
with the result the passes of the loop body. -/
def pathfindTrace (M : FloatModel) (fuel : Nat) (grid : Grid)
    (startX startY goalX goalY : Int) : Option (Bool × List (Iteration M.F)) :=
  if endpointsInvalid grid startX startY goalX goalY = true then some (false, [])
  else aStarTrace M grid goalX goalY fuel [startNode M startX startY goalX goalY] clearGrid

/-- The open set when pass `i` of the neighbour loop for `current` begins, `openSet1`
being the open set after `current` was taken out. -/
def openSetAtPass (M : FloatModel) (grid closedSet : Grid) (goalX goalY : Int)
    (current : Node M.F) (openSet1 : List (Node M.F)) (i : Nat) : List (Node M.F) :=
  (List.range i).foldl (expandNeighbor M grid closedSet goalX goalY current) openSet1

/-- Pass `i` of the neighbour loop reaches the test `openSetSize < GRID_WIDTH *
GRID_HEIGHT` with a neighbour that is not in the open set, and the test fails: the
neighbour is dropped. -/
def guardDiscards (M : FloatModel) (grid closedSet : Grid) (current : Node M.F)
    (openSet : List (Node M.F)) (i : Nat) : Bool :=
  !neighborSkipped grid closedSet (current.posX + dx_path.getD i 0)
      (current.posY + dy_path.getD i 0) &&
    !diagonalRejected grid current.posX current.posY i &&
    (openIndexOf (current.posX + dx_path.getD i 0) (current.posY + dy_path.getD i 0)
      openSet).isNone &&
    !decide ((openSet.length : Int) < GRID_WIDTH * GRID_HEIGHT)

/-- What holds of a pass of the loop of `pathfindAStar`: `current` is the entry of the
open set at the index of the lowest `f`; the open set holds no position twice, and only
cells of the grid that are not closed, so at most 225 nodes; and unless `current` is the
goal, the same holds when each pass of the neighbour loop begins, whose capacity test
drops no neighbour. -/
def PassWithinCapacity (M : FloatModel) (grid : Grid) (goalX goalY : Int)
    (pass : Iteration M.F) : Prop :=
  pass.openSet.get? (lowestIndex M pass.openSet) = some pass.current ∧
  OpenInv pass.openSet pass.closedSet ∧ pass.openSet.length ≤ 225 ∧
  (¬ (pass.current.posX = goalX ∧ pass.current.posY = goalY) →
    ∀ i, i ≤ 8 →
      OpenInv
        (openSetAtPass M grid
          (setCell pass.closedSet pass.current.posY pass.current.posX true) goalX goalY
          pass.current (removeAt pass.openSet (lowestIndex M pass.openSet)) i)
        (setCell pass.closedSet pass.current.posY pass.current.posX true) ∧
      (openSetAtPass M grid
          (setCell pass.closedSet pass.current.posY pass.current.posX true) goalX goalY
          pass.current (removeAt pass.openSet (lowestIndex M pass.openSet)) i).length < 225 ∧
      guardDiscards M grid (setCell pass.closedSet pass.current.posY pass.current.posX true)
        pass.current
        (openSetAtPass M grid
          (setCell pass.closedSet pass.current.posY pass.current.posX true) goalX goalY
          pass.current (removeAt pass.openSet (lowestIndex M pass.openSet)) i) i = false)

/-- What the parent indices of the queue of the breadth-first search of `placeCoins`
record: an entry is the first entry `{1, 1, -1}`, or its cell is an open cell of the grid
and its parent is an earlier entry whose cell is a cardinal neighbour. -/
def BfsLinked (grid : Grid) (queue : List (Int × Int × Int)) : Prop :=
  ∀ (k : Nat) (e : Int × Int × Int), queue.get? k = some e →
    e = (1, 1, -1) ∨
    (0 ≤ e.2.2 ∧ e.2.2 < k ∧ cellOpen grid (entryCell e) = true ∧
      ∃ p, queue.get? e.2.2.toNat = some p ∧ cardinalStep (entryCell p) (entryCell e) = true)

/-- The placement along the path as the specification words it, for the path `path` in
start-to-exit order: for `i = 1 .. remaining` the index is `i * interval` with `interval =
max(1, pathLength / (remaining + 1))`; an index of `pathLength` or more is skipped, and so
is a cell that already holds a placed collectible; otherwise the next collectible is put
on the cell of the path at that index. -/
def placeEvenlySpec (path : List (Int × Int)) (w : World) (coinsPlaced : Nat) : World × Nat :=
  let remaining := w.totalCoins - coinsPlaced
  let interval := max 1 (path.length / (remaining + 1))
  (List.range remaining).foldl
    (fun (s : World × Nat) (k : Nat) =>
      match path.get? ((k + 1) * interval) with
      | none => s
      | some (x, y) =>
        if (List.range s.2).any
            (fun j => (s.1.coins j).active && decide ((s.1.coins j).x = x ∧ (s.1.coins j).y = y))
        then s
        else (s.1.putCoin s.2 x y, s.2 + 1))
    (w, coinsPlaced)

/-- The state in which the breadth-first search of `placeCoins` starts. -/
def bfsStart : BfsState := { queue := [(1, 1, -1)], visited := setCell clearGrid 1 1 true }

/-- The state and the value of `coinsPlaced` when the randomized loop of `placeCoins`
ends. -/
def afterRandomPhase (M : FloatModel) (w : World) : World × Nat :=
  randomCoinLoop M 200 ({ w with totalCoins := targetCoins w.currentDifficulty }).resetCoins 0

/-- The two coordinates after the advances of one pass of the waypoint loop of
`createGuaranteedPath`, before the clamp to `GRID_WIDTH - 2`, `GRID_HEIGHT - 2`. -/
def advanceBoth (exitGridX exitGridY currentX currentY : Int) (w : World) : Int × Int × World :=
  let (r, w1) := w.nextRand
  let moveHorizontalFirst : Bool := decide (r % 2 = 0)
  if moveHorizontalFirst = true then
    let (cx, w2) := advance currentX exitGridX w1
    let (cy, w3) := advance currentY exitGridY w2
    (cx, cy, w3)
  else
    let (cy, w2) := advance currentY exitGridY w1
    let (cx, w3) := advance currentX exitGridX w2
    (cx, cy, w3)

/-- The waypoint loop of `createGuaranteedPath` as its control flow runs when every write
to `pathPoints` is taken to succeed: `corridorLoop` without the capacity of the buffer. -/
def waypointLoop (exitGridX exitGridY : Int) : Nat → Corridor → Option Corridor
  | 0, _ => none
  | fuel + 1, c =>
    if (c.currentX < exitGridX ∨ c.currentY < exitGridY) ∧
        c.pathPoints.length < MAX_PATH_LENGTH - 1 then
      match nextWaypoint exitGridX exitGridY c.currentX c.currentY c.world with
      | (currentX, currentY, w3) =>
        waypointLoop exitGridX exitGridY fuel
          { world := scatterNear currentX currentY w3, currentX := currentX,
            currentY := currentY, pathPoints := c.pathPoints ++ [(currentX, currentY)] }
    else some c

/-- The locals of `createGuaranteedPath` when its waypoint loop is entered from the state
`w`: the grid cleared, the exit on `(12,12)`, the start `(1,1)` recorded. -/
def corridorStart (w : World) : Corridor :=
  { world := { w with spaceMap := clearGrid, exitX := GRID_WIDTH - 3, exitY := GRID_HEIGHT - 3 },
    currentX := 1, currentY := 1, pathPoints := [(1, 1)] }

/-- What the waypoint loop maintains when the buffer is left out of account, `n` being
the number of points recorded: the last point is the current cell; the points lie in
`[1,13] × [1,13]` and neither coordinate decreases along them; each coordinate is at
least `min(n, 12)` and at most `min(2 n - 1, 13)`; and `n` is between 1 and 12. -/
def WaypointInv (c : Corridor) : Prop :=
  c.pathPoints.getLast? = some (c.currentX, c.currentY) ∧
  c.pathPoints.head? = some (1, 1) ∧
  (∀ p ∈ c.pathPoints, 1 ≤ p.1 ∧ p.1 ≤ 13 ∧ 1 ≤ p.2 ∧ p.2 ≤ 13) ∧
  List.Chain' (fun p q : Int × Int => p.1 ≤ q.1 ∧ p.2 ≤ q.2) c.pathPoints ∧
  (((c.pathPoints.length : Int) ≤ c.currentX ∨ 12 ≤ c.currentX) ∧
    c.currentX ≤ 2 * (c.pathPoints.length : Int) - 1 ∧ c.currentX ≤ 13) ∧
  (((c.pathPoints.length : Int) ≤ c.currentY ∨ 12 ≤ c.currentY) ∧
    c.currentY ≤ 2 * (c.pathPoints.length : Int) - 1 ∧ c.currentY ≤ 13) ∧
  1 ≤ c.pathPoints.length ∧ c.pathPoints.length ≤ 12

/-! ## Array reads, binary32 arithmetic and the state handed to `placeCoins` -/

/-- The read `spaceMap[y][x]` of the array `int spaceMap[GRID_HEIGHT][GRID_WIDTH]`: an
index outside the array is a fault. -/
def readCell (grid : Grid) (y x : Int) : Except Fault Bool :=
  if 0 ≤ y ∧ y < GRID_HEIGHT ∧ 0 ≤ x ∧ x < GRID_WIDTH then .ok (grid y x)
  else .error Fault.bufferOverflow

/-- The input validation at the head of `pathfindAStar` as C evaluates it: the operands of
`||` from left to right, none evaluated after the first that holds; the eight comparisons
come first and the reads `spaceMap[startY][startX]`, `spaceMap[goalY][goalX]` last. -/
def validateEndpoints (grid : Grid) (startX startY goalX goalY : Int) : Except Fault Bool :=
  if startX < 0 then .ok true
  else if startX ≥ GRID_WIDTH then .ok true
  else if startY < 0 then .ok true
  else if startY ≥ GRID_HEIGHT then .ok true
  else if goalX < 0 then .ok true
  else if goalX ≥ GRID_WIDTH then .ok true
  else if goalY < 0 then .ok true
  else if goalY ≥ GRID_HEIGHT then .ok true
  else
    match readCell grid startY startX with
    | .error e => .error e
    | .ok true => .ok true
    | .ok false =>
      match readCell grid goalY goalX with
      | .error e => .error e
      | .ok b => .ok b

/-- The number of binary digits of `n`, counted with at most `fuel` halvings. -/
def bitLength : Nat → Nat → Nat
  | 0, _ => 0
  | fuel + 1, n => if n = 0 then 0 else bitLength fuel (n / 2) + 1

/-- The position of the leading binary digit of `n`: the largest `k` with `2 ^ k ≤ n`. -/
def floorLog2 (n : Nat) : Nat := bitLength n n - 1

/-- A binary floating-point number, `mant * 2 ^ expo`. -/
structure Binary32 where
  mant : Int
  expo : Int
  deriving DecidableEq, Repr

/-- The number `n * 2 ^ expo` rounded to 24 significant bits, to nearest with ties to
even: the rounding of IEEE 754 binary32 (the exponent range is not modelled; the costs of
the pathfinder lie between `2 ^ (-1)` and `2 ^ 9`, or are 0). -/
def roundMant (n : Int) (expo : Int) : Binary32 :=
  let a := n.natAbs
  if a < 2 ^ 24 then { mant := n, expo := expo }
  else
    let s := floorLog2 a + 1 - 24
    let q := a / 2 ^ s
    let r := a % 2 ^ s
    let q1 := if 2 * r > 2 ^ s ∨ (2 * r = 2 ^ s ∧ q % 2 = 1) then q + 1 else q
    { mant := if n < 0 then -(q1 : Int) else (q1 : Int), expo := expo + (s : Int) }

/-- The binary32 nearest to the rational `num / den` (`den > 0`), ties to even: the value
of a decimal literal such as `1.414f` and of the conversion `(float)n`. -/
def roundRatio (num : Int) (den : Nat) : Binary32 :=
  let a := num.natAbs
  if a = 0 then { mant := 0, expo := 0 }
  else
    let t := 26 + floorLog2 den
    let scaled := a * 2 ^ t / den
    let rest := a * 2 ^ t % den
    let s := floorLog2 scaled + 1 - 24
    let q := scaled / 2 ^ s
    let r := scaled % 2 ^ s
    let q1 :=
      if 2 * r > 2 ^ s ∨ (2 * r = 2 ^ s ∧ (rest ≠ 0 ∨ q % 2 = 1)) then q + 1 else q
    { mant := if num < 0 then -(q1 : Int) else (q1 : Int), expo := (s : Int) - (t : Int) }

/-- The sum of two binary32 numbers: the exact sum, rounded. -/
def Binary32.add (x y : Binary32) : Binary32 :=
  let e := min x.expo y.expo
  roundMant (x.mant * 2 ^ (x.expo - e).toNat + y.mant * 2 ^ (y.expo - e).toNat) e

/-- The comparison `x < y` of two binary32 numbers. -/
def Binary32.lt (x y : Binary32) : Bool :=
  let e := min x.expo y.expo
  decide (x.mant * 2 ^ (x.expo - e).toNat < y.mant * 2 ^ (y.expo - e).toNat)

/-- The comparison `x ≤ num / den` of a binary32 number with a rational (`den > 0`),
computed exactly. -/
def Binary32.leRatio (x : Binary32) (num : Int) (den : Nat) : Bool :=
  if 0 ≤ x.expo then decide (x.mant * 2 ^ x.expo.toNat * (den : Int) ≤ num)
  else decide (x.mant * (den : Int) ≤ num * 2 ^ (-x.expo).toNat)

/-- The arithmetic of the type `float` of the source: IEEE 754 binary32 with rounding to
nearest, ties to even; `ofScaled k` is the binary32 nearest to `k / 100000`. -/
def float32 : FloatModel where
  F := Binary32
  ofScaled := fun k => roundRatio k 100000
  add := Binary32.add
  lt := Binary32.lt

/-- The state in which `generateEnvironment` calls `placeCoins`, its only caller: the
state left by `generateRandomMap` and `findValidExit`. -/
def pipelineState (w : World) : World := findValidExit (generateRandomMap w)

/-- A stream of `rand()` values for `DIFFICULTY_EASY`: 56 values `90` (seven clusters
around `(3,3)` that block nothing), 21 pairs `(0, 0)` (scattered asteroids on the
protected cell `(0,0)`), the pair `(0, 0)` (the exit candidate `(7,7)`), then the
collectible candidates `(5,1)` and `(9,1)`, and `(0,0)` from then on. -/
def twoCoinStream (p : Nat) : Nat :=
  if p < 56 then 90
  else if p = 100 then 5
  else if p = 101 then 1
  else if p = 102 then 9
  else if p = 103 then 1
  else 0

/-- The state in which `placeCoins` is called on the first attempt of
`generateEnvironment` when `rand()` reads `twoCoinStream`: no blocked cell, the exit on
`(7,7)`, the stream at position 100. -/
def twoCoinState : World := pipelineState (initialWorld DIFFICULTY_EASY twoCoinStream)

/-! ## General lemmas -/

theorem forLoop_invariant {σ : Type} (P : σ → Prop) (lo hi : Int) (body : Int → σ → σ)
    (h : ∀ i s, lo ≤ i → i < hi → P s → P (body i s)) (s : σ) (hs : P s) :
    P (forLoop lo hi body s) := by
  unfold forLoop
  have key : ∀ n : Nat, n ≤ (hi - lo).toNat →
      P ((List.range n).foldl (fun s (k : Nat) => body (lo + (k : Int)) s) s) := by
    intro n
    induction n with
    | zero => intro _; simpa using hs
    | succ n ih =>
      intro hn
      rw [List.range_succ, List.foldl_append]
      simp only [List.foldl_cons, List.foldl_nil]
      apply h
      · omega
      · omega
      · exact ih (by omega)
  exact key _ (le_refl _)

theorem setCell_same (a : Grid) (y x : Int) (v : Bool) : setCell a y x v y x = v := by
  simp [setCell]

theorem setCell_other (a : Grid) (y x y1 x1 : Int) (v : Bool) (h : ¬ (y1 = y ∧ x1 = x)) :
    setCell a y x v y1 x1 = a y1 x1 := by
  simp [setCell, h]

/-! ## The map generator leaves the protected zones alone -/

theorem clusterCell_frame (y0 x0 : Int) (w : World) (x y : Int)
    (h : outsideProtectedZones x y = false) :
    (clusterCell y0 x0 w).spaceMap y x = w.spaceMap y x := by
  unfold clusterCell
  by_cases h1 : inGrid x0 y0 = true
  · by_cases h2 : outsideProtectedZones x0 y0 = true
    · have hne : ¬ (y = y0 ∧ x = x0) := by
        rintro ⟨rfl, rfl⟩
        rw [h] at h2
        exact Bool.false_ne_true h2
      simp only [h1, h2, if_true, World.nextRand, World.setMap]
      split_ifs
      · exact setCell_other _ _ _ _ _ _ hne
      · rfl
    · simp [h1, h2]
  · simp [h1]

theorem placeCluster_frame (w : World) (x y : Int) (h : outsideProtectedZones x y = false) :
    (placeCluster w).spaceMap y x = w.spaceMap y x := by
  unfold placeCluster
  simp only [World.nextRand]
  apply forLoop_invariant (fun s : World => s.spaceMap y x = w.spaceMap y x)
  · intro i s _ _ hs
    apply forLoop_invariant (fun s : World => s.spaceMap y x = w.spaceMap y x)
    · intro j t _ _ ht
      rw [clusterCell_frame _ _ _ _ _ h]
      exact ht
    · exact hs
  · rfl

theorem placeScattered_frame (w : World) (x y : Int) (h : outsideProtectedZones x y = false) :
    (placeScattered w).spaceMap y x = w.spaceMap y x := by
  unfold placeScattered
  simp only [World.nextRand, World.setMap]
  split_ifs with h2
  · have hne : ¬ (y = ((w.rand (w.randPos + 1) : Nat) : Int) % GRID_HEIGHT ∧
        x = ((w.rand w.randPos : Nat) : Int) % GRID_WIDTH) := by
      rintro ⟨hy, hx⟩
      rw [← hy, ← hx, h] at h2
      exact Bool.false_ne_true h2
    exact setCell_other _ _ _ _ _ _ hne
  · rfl

theorem clusterPhase_frame (w : World) (x y : Int) (h : outsideProtectedZones x y = false) :
    (clusterPhase w).spaceMap y x = w.spaceMap y x := by
  unfold clusterPhase
  apply forLoop_invariant (fun s : World => s.spaceMap y x = w.spaceMap y x)
  · intro i s _ _ hs
    rw [placeCluster_frame _ _ _ h]
    exact hs
  · rfl

theorem scatterPhase_frame (w : World) (x y : Int) (h : outsideProtectedZones x y = false) :
    (scatterPhase w).spaceMap y x = w.spaceMap y x := by
  unfold scatterPhase
  apply forLoop_invariant (fun s : World => s.spaceMap y x = w.spaceMap y x)
  · intro i s _ _ hs
    rw [placeScattered_frame _ _ _ h]
    exact hs
  · rfl

theorem clearStartArea_open (w : World) (x y : Int) (h : w.spaceMap y x = false) :
    (clearStartArea w).spaceMap y x = false := by
  unfold clearStartArea
  apply forLoop_invariant (fun s : World => s.spaceMap y x = false)
  · intro i s _ _ hs
    apply forLoop_invariant (fun s : World => s.spaceMap y x = false)
    · intro j t _ _ ht
      simp only [World.setMap, setCell]
      split_ifs
      · rfl
      · exact ht
    · exact hs
  · exact h

theorem generateRandomMap_protected (w : World) (x y : Int)
    (h : outsideProtectedZones x y = false) :
    (generateRandomMap w).spaceMap y x = false := by
  unfold generateRandomMap
  apply clearStartArea_open
  rw [scatterPhase_frame _ _ _ h, clusterPhase_frame _ _ _ h]
  rfl

/-! ## Loops that clear cells, and exit placement -/

theorem forLoop_induction {σ : Type} (P : Int → σ → Prop) (lo hi : Int) (hle : lo ≤ hi)
    (body : Int → σ → σ) (s : σ) (h0 : P lo s)
    (hstep : ∀ i s, lo ≤ i → i < hi → P i s → P (i + 1) (body i s)) :
    P hi (forLoop lo hi body s) := by
  unfold forLoop
  have key : ∀ n : Nat, n ≤ (hi - lo).toNat →
      P (lo + (n : Int)) ((List.range n).foldl (fun s (k : Nat) => body (lo + (k : Int)) s) s) := by
    intro n
    induction n with
    | zero => intro _; simpa using h0
    | succ n ih =>
      intro hn
      rw [List.range_succ, List.foldl_append]
      simp only [List.foldl_cons, List.foldl_nil]
      have := hstep (lo + (n : Int)) _ (by omega) (by omega) (ih (by omega))
      have e : lo + ((n + 1 : Nat) : Int) = lo + (n : Int) + 1 := by push_cast; ring
      rw [e]
      exact this
  have := key _ (le_refl _)
  have e : lo + (((hi - lo).toNat : Nat) : Int) = hi := by omega
  rw [e] at this
  exact this

theorem clearAround_keeps_open (cx cy : Int) (w : World) (x y : Int)
    (h : w.spaceMap y x = false) : (clearAround cx cy w).spaceMap y x = false := by
  unfold clearAround
  apply forLoop_invariant (fun s : World => s.spaceMap y x = false)
  · intro i s _ _ hs
    apply forLoop_invariant (fun s : World => s.spaceMap y x = false)
    · intro j t _ _ ht
      show (if inGrid j i = true then t.setMap i j false else t).spaceMap y x = false
      split_ifs
      · simp only [World.setMap, setCell]
        split_ifs
        · rfl
        · exact ht
      · exact ht
    · exact hs
  · exact h

theorem clearAround_frame (cx cy : Int) (w : World) (x y : Int)
    (h : ¬ (cx - 1 ≤ x ∧ x ≤ cx + 1 ∧ cy - 1 ≤ y ∧ y ≤ cy + 1)) :
    (clearAround cx cy w).spaceMap y x = w.spaceMap y x := by
  unfold clearAround
  apply forLoop_invariant (fun s : World => s.spaceMap y x = w.spaceMap y x)
  · intro i s hi1 hi2 hs
    apply forLoop_invariant (fun s : World => s.spaceMap y x = w.spaceMap y x)
    · intro j t hj1 hj2 ht
      show (if inGrid j i = true then t.setMap i j false else t).spaceMap y x = w.spaceMap y x
      split_ifs
      · simp only [World.setMap]
        rw [setCell_other _ _ _ _ _ _ (by rintro ⟨rfl, rfl⟩; exact h ⟨by omega, by omega, by omega, by omega⟩)]
        exact ht
      · exact ht
    · exact hs
  · rfl

theorem clearRow_cleared (cx y : Int) (w : World) (x : Int)
    (hx1 : cx - 1 ≤ x) (hx2 : x ≤ cx + 1) (hg : inGrid x y = true) :
    (forLoop (cx - 1) (cx + 2)
      (fun x w1 => if inGrid x y = true then w1.setMap y x false else w1) w).spaceMap y x = false := by
  have := forLoop_induction
    (fun (j : Int) (t : World) => ∀ a, cx - 1 ≤ a → a < j → inGrid a y = true → t.spaceMap y a = false)
    (cx - 1) (cx + 2) (by omega)
    (fun x w1 => if inGrid x y = true then w1.setMap y x false else w1) w
    (by intro a h1 h2; omega)
    (by
      intro j t _ _ ht a ha1 ha2 hga
      show (if inGrid j y = true then t.setMap y j false else t).spaceMap y a = false
      by_cases e : a = j
      · subst e
        simp only [hga, if_true, World.setMap, setCell_same]
      · split_ifs
        · simp only [World.setMap]
          rw [setCell_other _ _ _ _ _ _ (by rintro ⟨_, h⟩; exact e h)]
          exact ht a ha1 (by omega) hga
        · exact ht a ha1 (by omega) hga)
  exact this x hx1 (by omega) hg

theorem clearRow_keeps_open (cx i : Int) (w : World) (x y : Int) (h : w.spaceMap y x = false) :
    (forLoop (cx - 1) (cx + 2)
      (fun x w1 => if inGrid x i = true then w1.setMap i x false else w1) w).spaceMap y x = false := by
  apply forLoop_invariant (fun s : World => s.spaceMap y x = false)
  · intro j t _ _ ht
    show (if inGrid j i = true then t.setMap i j false else t).spaceMap y x = false
    split_ifs
    · simp only [World.setMap, setCell]
      split_ifs
      · rfl
      · exact ht
    · exact ht
  · exact h

theorem clearAround_cleared (cx cy : Int) (w : World) (x y : Int)
    (hx1 : cx - 1 ≤ x) (hx2 : x ≤ cx + 1) (hy1 : cy - 1 ≤ y) (hy2 : y ≤ cy + 1)
    (hg : inGrid x y = true) : (clearAround cx cy w).spaceMap y x = false := by
  unfold clearAround
  have := forLoop_induction
    (fun (i : Int) (t : World) => ∀ a b, cy - 1 ≤ b → b < i → cx - 1 ≤ a → a ≤ cx + 1 →
      inGrid a b = true → t.spaceMap b a = false)
    (cy - 1) (cy + 2) (by omega)
    (fun y => forLoop (cx - 1) (cx + 2)
      (fun x w1 => if inGrid x y = true then w1.setMap y x false else w1)) w
    (by intro a b h1 h2; omega)
    (by
      intro i t _ _ ht a b hb1 hb2 ha1 ha2 hg
      by_cases e : b = i
      · subst e
        exact clearRow_cleared cx b t a ha1 ha2 hg
      · exact clearRow_keeps_open cx i t a b (ht a b hb1 (by omega) ha1 ha2 hg))
  exact this x y hy1 (by omega) hx1 hx2 hg

theorem clearAround_fields (cx cy : Int) (w : World) :
    (clearAround cx cy w).exitX = w.exitX ∧ (clearAround cx cy w).exitY = w.exitY ∧
    (clearAround cx cy w).currentDifficulty = w.currentDifficulty ∧
    (clearAround cx cy w).coins = w.coins ∧ (clearAround cx cy w).totalCoins = w.totalCoins ∧
    (clearAround cx cy w).rand = w.rand ∧ (clearAround cx cy w).randPos = w.randPos := by
  unfold clearAround
  apply forLoop_invariant (fun s : World => s.exitX = w.exitX ∧ s.exitY = w.exitY ∧
    s.currentDifficulty = w.currentDifficulty ∧ s.coins = w.coins ∧ s.totalCoins = w.totalCoins ∧
    s.rand = w.rand ∧ s.randPos = w.randPos)
  · intro i s _ _ hs
    apply forLoop_invariant (fun s : World => s.exitX = w.exitX ∧ s.exitY = w.exitY ∧
      s.currentDifficulty = w.currentDifficulty ∧ s.coins = w.coins ∧ s.totalCoins = w.totalCoins ∧
      s.rand = w.rand ∧ s.randPos = w.randPos)
    · intro j t _ _ ht
      show (fun s : World => _) (if inGrid j i = true then t.setMap i j false else t)
      split_ifs
      · exact ht
      · exact ht
    · exact hs
  · exact ⟨rfl, rfl, rfl, rfl, rfl, rfl, rfl⟩

theorem findExitLoop_spec (minD : Int) (n : Nat) (w : World) :
    (findExitLoop minD n w).2.spaceMap = w.spaceMap ∧
    (findExitLoop minD n w).2.currentDifficulty = w.currentDifficulty ∧
    ∀ x y, (findExitLoop minD n w).1 = some (x, y) →
      (7 ≤ x ∧ x ≤ 11 ∧ 7 ≤ y ∧ y ≤ 11) ∧ w.spaceMap y x = false ∧ distSq x y 1 1 > minD ^ 2 := by
  induction n generalizing w with
  | zero => simp [findExitLoop]
  | succ n ih =>
    unfold findExitLoop
    simp only [World.nextRand]
    split_ifs with hc
    · refine ⟨rfl, rfl, ?_⟩
      intro x y hxy
      simp only [Option.some.injEq, Prod.mk.injEq] at hxy
      obtain ⟨rfl, rfl⟩ := hxy
      refine ⟨?_, hc.1, hc.2⟩
      simp only [GRID_WIDTH, GRID_HEIGHT]
      omega
    · obtain ⟨h1, h2, h3⟩ := ih { w with randPos := w.randPos + 1 + 1 }
      exact ⟨h1, h2, h3⟩

theorem findValidExit_cases (w : World) :
    (∃ x y, (findExitLoop (minDistance w.currentDifficulty) 100 w).1 = some (x, y) ∧
      (findValidExit w).exitX = x ∧ (findValidExit w).exitY = y ∧
      (findValidExit w).spaceMap = w.spaceMap ∧
      (7 ≤ x ∧ x ≤ 11 ∧ 7 ≤ y ∧ y ≤ 11) ∧ w.spaceMap y x = false ∧
      distSq x y 1 1 > minDistance w.currentDifficulty ^ 2) ∨
    ((findExitLoop (minDistance w.currentDifficulty) 100 w).1 = none ∧
      (findValidExit w).exitX = 12 ∧ (findValidExit w).exitY = 12 ∧
      (∀ x y, 11 ≤ x → x ≤ 13 → 11 ≤ y → y ≤ 13 → (findValidExit w).spaceMap y x = false) ∧
      (∀ x y, ¬ (11 ≤ x ∧ x ≤ 13 ∧ 11 ≤ y ∧ y ≤ 13) →
        (findValidExit w).spaceMap y x = w.spaceMap y x)) := by
  obtain ⟨hmap, _, hsome⟩ := findExitLoop_spec (minDistance w.currentDifficulty) 100 w
  unfold findValidExit
  rcases hres : findExitLoop (minDistance w.currentDifficulty) 100 w with ⟨_ | ⟨x, y⟩, w1⟩
  · right
    rw [hres] at hmap
    simp only at hmap
    refine ⟨rfl, ?_, ?_, ?_, ?_⟩
    · simp only [(clearAround_fields _ _ _).1, GRID_WIDTH]; norm_num
    · simp only [(clearAround_fields _ _ _).2.1, GRID_HEIGHT]; norm_num
    · intro x y h1 h2 h3 h4
      apply clearAround_cleared
      · simp only [GRID_WIDTH]; omega
      · simp only [GRID_WIDTH]; omega
      · simp only [GRID_HEIGHT]; omega
      · simp only [GRID_HEIGHT]; omega
      · simp only [inGrid, GRID_WIDTH, GRID_HEIGHT, decide_eq_true_eq]; omega
    · intro x y h
      rw [clearAround_frame]
      · simp only [hmap]
      · simp only [GRID_WIDTH, GRID_HEIGHT]
        intro h1
        exact h ⟨by omega, by omega, by omega, by omega⟩
  · left
    rw [hres] at hmap hsome
    simp only at hmap
    obtain ⟨hb, ho, hd⟩ := hsome x y rfl
    exact ⟨x, y, rfl, rfl, rfl, hmap, hb, ho, hd⟩

theorem endpointsInvalid_of (grid : Grid) (sx sy gx gy : Int)
    (h : inGrid sx sy = false ∨ inGrid gx gy = false ∨ grid sy sx = true ∨ grid gy gx = true) :
    endpointsInvalid grid sx sy gx gy = true := by
  simp only [endpointsInvalid, inGrid, decide_eq_true_eq, decide_eq_false_iff_not] at h ⊢
  rcases h with h | h | h | h
  · omega
  · omega
  · right; right; right; right; right; right; right; right; left; exact h
  · right; right; right; right; right; right; right; right; right; exact h

theorem verify_all_iff (M : FloatModel) (w : World) :
    verifyAllPathsExist M w = true ↔
      pathfindAStar M w.spaceMap 1 1 w.exitX w.exitY = true ∧
      ∀ i, i < w.totalCoins → (w.coins i).active = true →
        pathfindAStar M w.spaceMap 1 1 (w.coins i).x (w.coins i).y = true ∧
        pathfindAStar M w.spaceMap (w.coins i).x (w.coins i).y w.exitX w.exitY = true := by
  unfold verifyAllPathsExist
  by_cases h0 : pathfindAStar M w.spaceMap 1 1 w.exitX w.exitY = true
  · simp only [h0, Bool.true_eq_false, if_false, true_and, List.all_eq_true, List.mem_range]
    constructor
    · intro h i hi ha
      have := h i hi
      simpa [ha] using this
    · intro h i hi
      by_cases ha : (w.coins i).active = true
      · have := h i hi ha
        simp [ha, this.1, this.2]
      · simp [ha]
  · simp [h0]

/-! ## The pathfinder: positions in the open set -/

theorem getD_mem_of_mem {α : Type} (l : List α) (i : Nat) (d : α) (hd : d ∈ l) :
    l.getD i d ∈ l := by
  by_cases h : i < l.length
  · rw [List.getD_eq_getElem l d h]
    exact List.getElem_mem h
  · rw [List.getD_eq_default l d (by omega)]
    exact hd

theorem removeAt_subset {α : Type} (l : List α) (i : Nat) (a : α) (h : a ∈ removeAt l i) :
    a ∈ l := by
  unfold removeAt at h
  cases hl : l.getLast? with
  | none => rw [hl] at h; simp at h
  | some last =>
    rw [hl] at h
    simp only at h
    have h1 := List.mem_of_mem_dropLast h
    rcases List.mem_or_eq_of_mem_set h1 with h2 | h2
    · exact h2
    · rw [h2]
      exact List.mem_of_getLast?_eq_some hl

theorem map_set_same {α β : Type} (f : α → β) (l : List α) (j : Nat) (old new : α)
    (h : l.get? j = some old) (hf : f new = f old) : (l.set j new).map f = l.map f := by
  induction l generalizing j with
  | nil => simp
  | cons a t ih =>
    cases j with
    | zero =>
      simp only [List.get?_cons_zero, Option.some.injEq] at h
      simp [h, hf]
    | succ j =>
      simp only [List.get?_cons_succ] at h
      simp [ih j h]

theorem openIndexOf_none {F : Type} (nx ny : Int) (l : List (Node F))
    (h : openIndexOf nx ny l = none) : (nx, ny) ∉ l.map nodePos := by
  induction l with
  | nil => simp
  | cons a t ih =>
    unfold openIndexOf at h
    split_ifs at h with hc
    simp only [Option.map_eq_none'] at h
    simp only [List.map_cons, List.mem_cons, not_or]
    refine ⟨?_, ih h⟩
    intro e
    simp only [nodePos, Prod.mk.injEq] at e
    exact hc ⟨e.1.symm, e.2.symm⟩

theorem openIndexOf_some {F : Type} (nx ny : Int) (l : List (Node F)) (j : Nat)
    (h : openIndexOf nx ny l = some j) : ∃ n, l.get? j = some n ∧ nodePos n = (nx, ny) := by
  induction l generalizing j with
  | nil => simp [openIndexOf] at h
  | cons a t ih =>
    unfold openIndexOf at h
    split_ifs at h with hc
    · simp only [Option.some.injEq] at h
      subst h
      exact ⟨a, rfl, by simp [nodePos, hc.1, hc.2]⟩
    · simp only [Option.map_eq_some'] at h
      obtain ⟨k, hk, rfl⟩ := h
      obtain ⟨n, hn, hp⟩ := ih k hk
      exact ⟨n, by simpa using hn, hp⟩

/-- What one pass of the neighbour loop does to the positions held in the open set. -/
theorem expandNeighbor_positions (M : FloatModel) (grid closedSet : Grid) (goalX goalY : Int)
    (current : Node M.F) (openSet : List (Node M.F)) (i : Nat) :
    (expandNeighbor M grid closedSet goalX goalY current openSet i).map nodePos
        = openSet.map nodePos ∨
    ((expandNeighbor M grid closedSet goalX goalY current openSet i).map nodePos
        = openSet.map nodePos ++
          [(current.posX + dx_path.getD i 0, current.posY + dy_path.getD i 0)] ∧
      neighborSkipped grid closedSet (current.posX + dx_path.getD i 0)
        (current.posY + dy_path.getD i 0) = false ∧
      diagonalRejected grid current.posX current.posY i = false ∧
      (current.posX + dx_path.getD i 0, current.posY + dy_path.getD i 0) ∉ openSet.map nodePos ∧
      (openSet.length : Int) < GRID_WIDTH * GRID_HEIGHT) := by
  unfold expandNeighbor
  simp only
  by_cases h1 : neighborSkipped grid closedSet (current.posX + dx_path.getD i 0)
      (current.posY + dy_path.getD i 0) = true
  · left; rw [if_pos h1]
  · rw [if_neg h1]
    by_cases h2 : diagonalRejected grid current.posX current.posY i = true
    · left; rw [if_pos h2]
    · rw [if_neg h2]
      cases hidx : openIndexOf (current.posX + dx_path.getD i 0)
          (current.posY + dy_path.getD i 0) openSet with
      | some openIndex =>
        simp only
        cases hold : openSet.get? openIndex with
        | some old =>
          simp only
          split_ifs
          · left
            apply map_set_same _ _ _ old _ hold
            rfl
          · left; rfl
        | none => left; rfl
      | none =>
        simp only
        split_ifs with h3
        · right
          refine ⟨by simp [nodePos], by simpa using h1, by simpa using h2,
            openIndexOf_none _ _ _ hidx, h3⟩
        · left; rfl

/-! ## The pathfinder only answers true for cells it can reach -/

theorem accepted_move_legal (grid closedSet : Grid) (x y : Int) (i : Nat) (hi : i < 8)
    (h1 : neighborSkipped grid closedSet (x + dx_path.getD i 0) (y + dy_path.getD i 0) = false)
    (h2 : diagonalRejected grid x y i = false) :
    cellOpen grid (x + dx_path.getD i 0, y + dy_path.getD i 0) = true ∧
    legalStep grid (x, y) (x + dx_path.getD i 0, y + dy_path.getD i 0) = true := by
  simp only [neighborSkipped, decide_eq_false_iff_not, not_or, not_lt, not_le,
    Bool.not_eq_true] at h1
  obtain ⟨b1, b2, b3, b4, b5, _⟩ := h1
  simp only [diagonalRejected, decide_eq_false_iff_not, not_and, not_or, Bool.not_eq_true] at h2
  constructor
  · simp only [cellOpen, inGrid, Bool.and_eq_true, decide_eq_true_eq, Bool.not_eq_true',
      GRID_WIDTH, GRID_HEIGHT] at *
    exact ⟨⟨b1, by omega, b3, by omega⟩, b5⟩
  · simp only [legalStep, decide_eq_true_eq]
    interval_cases i <;> simp [dx_path, dy_path] at h2 ⊢ <;> simp [h2]

theorem expandAll_positions_induction (M : FloatModel) (grid closedSet : Grid)
    (goalX goalY : Int) (current : Node M.F) (Q : List (Int × Int) → Prop)
    (hstep : ∀ ps i, i < 8 → Q ps →
      neighborSkipped grid closedSet (current.posX + dx_path.getD i 0)
        (current.posY + dy_path.getD i 0) = false →
      diagonalRejected grid current.posX current.posY i = false →
      (current.posX + dx_path.getD i 0, current.posY + dy_path.getD i 0) ∉ ps →
      Q (ps ++ [(current.posX + dx_path.getD i 0, current.posY + dy_path.getD i 0)]))
    (openSet : List (Node M.F)) (h0 : Q (openSet.map nodePos)) :
    Q ((expandAll M grid closedSet goalX goalY current openSet).map nodePos) := by
  unfold expandAll
  have key : ∀ (l : List Nat), (∀ i ∈ l, i < 8) → ∀ os : List (Node M.F), Q (os.map nodePos) →
      Q ((l.foldl (expandNeighbor M grid closedSet goalX goalY current) os).map nodePos) := by
    intro l
    induction l with
    | nil => intro _ os h; exact h
    | cons i t ih =>
      intro hl os h
      simp only [List.foldl_cons]
      apply ih (fun j hj => hl j (List.mem_cons_of_mem _ hj))
      rcases expandNeighbor_positions M grid closedSet goalX goalY current os i with e | ⟨e, a1, a2, a3, _⟩
      · rw [e]; exact h
      · rw [e]
        exact hstep _ i (hl i (List.mem_cons_self _ _)) h a1 a2 a3
  exact key _ (fun i hi => List.mem_range.mp hi) openSet h0

theorem aStarLoop_sound (M : FloatModel) (grid : Grid) (goalX goalY : Int) (s : Int × Int) :
    ∀ (fuel : Nat) (openSet : List (Node M.F)) (closedSet : Grid),
      (∀ p ∈ openSet.map nodePos, Reach grid s p) →
      aStarLoop M grid goalX goalY fuel openSet closedSet = some true →
      Reach grid s (goalX, goalY) := by
  intro fuel
  induction fuel with
  | zero => intro openSet closedSet _ h; simp [aStarLoop] at h
  | succ fuel ih =>
    intro openSet closedSet hinv h
    cases openSet with
    | nil => simp [aStarLoop] at h
    | cons first rest =>
      unfold aStarLoop at h
      simp only at h
      have hcur : (first :: rest).getD (lowestIndex M (first :: rest)) first ∈ first :: rest :=
        getD_mem_of_mem _ _ _ (List.mem_cons_self _ _)
      have hreach := hinv _ (List.mem_map_of_mem nodePos hcur)
      split_ifs at h with hg
      · have e : nodePos ((first :: rest).getD (lowestIndex M (first :: rest)) first)
            = (goalX, goalY) := by
          simp only [nodePos, hg.1, hg.2]
        rw [e] at hreach
        exact hreach
      · apply ih _ _ _ h
        apply expandAll_positions_induction M grid _ goalX goalY _
          (fun ps => ∀ p ∈ ps, Reach grid s p)
        · intro ps i hi hps a1 a2 _ p hp
          rcases List.mem_append.mp hp with hp1 | hp1
          · exact hps p hp1
          · simp only [List.mem_singleton] at hp1
            subst hp1
            obtain ⟨c1, c2⟩ := accepted_move_legal grid _ _ _ i hi a1 a2
            exact Reach.step hreach c2 c1
        · intro p hp
          obtain ⟨n, hn, rfl⟩ := List.mem_map.mp hp
          exact hinv _ (List.mem_map_of_mem nodePos (removeAt_subset _ _ _ hn))

theorem legalPath_concat (grid : Grid) (path : List (Int × Int)) (a b : Int × Int)
    (hp : legalPath grid path = true) (hl : path.getLast? = some a)
    (hs : legalStep grid a b = true) (hb : cellOpen grid b = true) :
    legalPath grid (path ++ [b]) = true := by
  induction path with
  | nil => simp at hl
  | cons c t ih =>
    cases t with
    | nil =>
      simp only [List.getLast?_singleton, Option.some.injEq] at hl
      subst hl
      simp only [legalPath] at hp
      simp [legalPath, hp, hs, hb]
    | cons d r =>
      simp only [legalPath, Bool.and_eq_true] at hp
      have hl1 : (d :: r).getLast? = some a := by
        rw [List.getLast?_cons_cons] at hl
        exact hl
      have := ih hp.2 hl1
      simp only [List.cons_append, legalPath, Bool.and_eq_true]
      exact ⟨hp.1, by simpa using this⟩

theorem Reach.exists_path {grid : Grid} {s c : Int × Int} (h : Reach grid s c) :
    ∃ path : List (Int × Int), path.head? = some s ∧ path.getLast? = some c ∧
      legalPath grid path = true := by
  induction h with
  | start ho => exact ⟨[s], rfl, rfl, by simpa [legalPath] using ho⟩
  | step _ hs hb ih =>
    obtain ⟨path, h1, h2, h3⟩ := ih
    refine ⟨path ++ [_], ?_, by simp, legalPath_concat grid path _ _ h3 h2 hs hb⟩
    cases path with
    | nil => simp at h1
    | cons a t => simpa using h1

theorem pathfindAStarFuel_sound (M : FloatModel) (fuel : Nat) (grid : Grid)
    (startX startY goalX goalY : Int)
    (h : pathfindAStarFuel M fuel grid startX startY goalX goalY = some true) :
    Reach grid (startX, startY) (goalX, goalY) := by
  unfold pathfindAStarFuel at h
  by_cases hv : endpointsInvalid grid startX startY goalX goalY = true
  · rw [if_pos hv] at h
    simp at h
  rw [if_neg hv] at h
  apply aStarLoop_sound M grid goalX goalY (startX, startY) fuel _ _ _ h
  intro p hp
  simp only [List.map_cons, List.map_nil, List.mem_singleton, nodePos, startNode] at hp
  subst hp
  apply Reach.start
  simp only [endpointsInvalid, decide_eq_true_eq, not_or, not_lt, not_le, Bool.not_eq_true] at hv
  simp only [cellOpen, inGrid, Bool.and_eq_true, decide_eq_true_eq, Bool.not_eq_true']
  obtain ⟨a1, a2, a3, a4, _, _, _, _, a9, _⟩ := hv
  exact ⟨⟨a1, by omega, a3, by omega⟩, a9⟩

theorem pathfindAStar_sound (M : FloatModel) (grid : Grid) (startX startY goalX goalY : Int)
    (h : pathfindAStar M grid startX startY goalX goalY = true) :
    Reach grid (startX, startY) (goalX, goalY) := by
  unfold pathfindAStar at h
  cases hr : pathfindAStarFuel M searchFuel grid startX startY goalX goalY with
  | none => rw [hr] at h; simp at h
  | some b =>
    rw [hr] at h
    simp only [Option.getD_some] at h
    subst h
    exact pathfindAStarFuel_sound M _ grid _ _ _ _ hr

/-! ## The pathfinder's loop ends -/

theorem lowestFrom_lt (M : FloatModel) (rest : List (Node M.F)) (i cur : Nat) (curF : M.F)
    (h : cur < i) : lowestFrom M rest i cur curF < i + rest.length := by
  induction rest generalizing i cur curF with
  | nil => simpa [lowestFrom] using h
  | cons n t ih =>
    unfold lowestFrom
    split_ifs
    · have := ih (i + 1) i n.f (by omega)
      simp only [List.length_cons]; omega
    · have := ih (i + 1) cur curF (by omega)
      simp only [List.length_cons]; omega

theorem lowestIndex_lt (M : FloatModel) (first : Node M.F) (rest : List (Node M.F)) :
    lowestIndex M (first :: rest) < (first :: rest).length := by
  have := lowestFrom_lt M rest 1 0 first.f (by omega)
  simp only [lowestIndex, List.length_cons]
  omega

theorem set_perm_eraseIdx_concat {α : Type} (l : List α) (i : Nat) (a : α) (h : i < l.length) :
    List.Perm (l.set i a) (l.eraseIdx i ++ [a]) := by
  induction l generalizing i with
  | nil => simp at h
  | cons b t ih =>
    cases i with
    | zero =>
      simp only [List.set_cons_zero, List.eraseIdx_cons_zero]
      exact (List.perm_append_singleton a t).symm
    | succ i =>
      simp only [List.set_cons_succ, List.eraseIdx_cons_succ, List.cons_append]
      exact List.Perm.cons b (ih i (by simpa using h))

theorem removeAt_perm {α : Type} (l : List α) (i : Nat) (h : i < l.length) :
    List.Perm (removeAt l i) (l.eraseIdx i) := by
  rcases List.eq_nil_or_concat l with e | ⟨init, last, e⟩
  · subst e; simp at h
  · rw [List.concat_eq_append] at e
    subst e
    unfold removeAt
    rw [List.getLast?_concat]
    simp only
    by_cases hi : i < init.length
    · rw [List.set_append_left _ _ hi, List.dropLast_concat,
        List.eraseIdx_append_of_lt_length hi]
      exact set_perm_eraseIdx_concat init i last hi
    · have hi2 : i = init.length := by
        simp only [List.length_append, List.length_singleton] at h
        omega
      subst hi2
      rw [List.set_append_right _ _ (le_refl _), List.eraseIdx_append_of_length_le (le_refl _)]
      simp

theorem unclosedCount_setCell_lt (closedSet : Grid) (x y : Int) (hg : inGrid x y = true)
    (hc : closedSet y x = false) :
    unclosedCount (setCell closedSet y x true) < unclosedCount closedSet := by
  unfold unclosedCount
  apply Finset.card_lt_card
  rw [Finset.ssubset_iff_of_subset]
  · refine ⟨(x, y), ?_, ?_⟩
    · simp only [Finset.mem_filter, gridCells, Finset.mem_product, Finset.mem_Icc]
      simp only [inGrid, decide_eq_true_eq, GRID_WIDTH, GRID_HEIGHT] at hg
      simp only [GRID_WIDTH, GRID_HEIGHT]
      exact ⟨⟨⟨by omega, by omega⟩, ⟨by omega, by omega⟩⟩, hc⟩
    · simp [setCell]
  · intro p hp
    simp only [Finset.mem_filter] at hp ⊢
    refine ⟨hp.1, ?_⟩
    have := hp.2
    simp only [setCell] at this
    split_ifs at this
    exact this

theorem unclosedCount_le (closedSet : Grid) : unclosedCount closedSet ≤ 225 := by
  unfold unclosedCount
  calc (gridCells.filter (fun p => closedSet p.2 p.1 = false)).card
      ≤ gridCells.card := Finset.card_filter_le _ _
    _ = 225 := by
        simp [gridCells, Finset.card_product, GRID_WIDTH, GRID_HEIGHT]

theorem removeAt_map {α β : Type} (f : α → β) (l : List α) (i : Nat) :
    (removeAt l i).map f = removeAt (l.map f) i := by
  unfold removeAt
  rw [List.getLast?_map]
  cases l.getLast? with
  | none => simp
  | some last => simp [List.map_set, List.map_dropLast]

theorem removeAt_positions {α : Type} [DecidableEq α] (l : List α) (i : Nat) (h : i < l.length)
    (hn : l.Nodup) : (removeAt l i).Nodup ∧ l[i] ∉ removeAt l i ∧
      (∀ a ∈ removeAt l i, a ∈ l) ∧ ∀ a ∈ l, a ≠ l[i] → a ∈ removeAt l i := by
  have hp := removeAt_perm l i h
  refine ⟨hp.nodup_iff.mpr (hn.eraseIdx i), ?_, fun a ha => removeAt_subset l i a ha, ?_⟩
  · intro hm
    have h1 : l[i] ∈ l.eraseIdx i := hp.mem_iff.mp hm
    rw [← hn.erase_getElem i h] at h1
    exact hn.not_mem_erase h1
  · intro a ha hne
    apply hp.mem_iff.mpr
    rw [← hn.erase_getElem i h]
    exact hn.mem_erase_iff.mpr ⟨hne, ha⟩

theorem expandNeighbor_mono (M : FloatModel) (grid closedSet : Grid) (goalX goalY : Int)
    (current : Node M.F) (openSet : List (Node M.F)) (i : Nat) (p : Int × Int)
    (hp : p ∈ openSet.map nodePos) :
    p ∈ (expandNeighbor M grid closedSet goalX goalY current openSet i).map nodePos := by
  rcases expandNeighbor_positions M grid closedSet goalX goalY current openSet i with e | ⟨e, _⟩
  · rw [e]; exact hp
  · rw [e]; exact List.mem_append_left _ hp

theorem expandNeighbor_adds (M : FloatModel) (grid closedSet : Grid) (goalX goalY : Int)
    (current : Node M.F) (openSet : List (Node M.F)) (i : Nat)
    (h1 : neighborSkipped grid closedSet (current.posX + dx_path.getD i 0)
      (current.posY + dy_path.getD i 0) = false)
    (h2 : diagonalRejected grid current.posX current.posY i = false)
    (h3 : (openSet.length : Int) < GRID_WIDTH * GRID_HEIGHT) :
    (current.posX + dx_path.getD i 0, current.posY + dy_path.getD i 0) ∈
      (expandNeighbor M grid closedSet goalX goalY current openSet i).map nodePos := by
  cases hidx : openIndexOf (current.posX + dx_path.getD i 0)
      (current.posY + dy_path.getD i 0) openSet with
  | some j =>
    obtain ⟨n, hn, hpn⟩ := openIndexOf_some _ _ _ _ hidx
    apply expandNeighbor_mono
    rw [← hpn]
    exact List.mem_map_of_mem nodePos (List.get?_mem hn)
  | none =>
    unfold expandNeighbor
    simp only [h1, h2, Bool.false_eq_true, if_false, hidx, h3, if_true]
    simp [nodePos]

theorem expandNeighbor_OpenInv (M : FloatModel) (grid closedSet : Grid) (goalX goalY : Int)
    (current : Node M.F) (openSet : List (Node M.F)) (i : Nat)
    (h : OpenInv openSet closedSet) :
    OpenInv (expandNeighbor M grid closedSet goalX goalY current openSet i) closedSet := by
  unfold OpenInv at h ⊢
  rcases expandNeighbor_positions M grid closedSet goalX goalY current openSet i with
    e | ⟨e, a1, _, a3, _⟩
  · rw [e]; exact h
  · rw [e]
    constructor
    · rw [List.nodup_append]
      refine ⟨h.1, List.nodup_singleton _, ?_⟩
      intro p hp1 hp2
      simp only [List.mem_singleton] at hp2
      subst hp2
      exact a3 hp1
    · intro p hp
      rcases List.mem_append.mp hp with hp1 | hp1
      · exact h.2 p hp1
      · simp only [List.mem_singleton] at hp1
        subst hp1
        simp only [neighborSkipped, decide_eq_false_iff_not, not_or, not_lt, not_le,
          Bool.not_eq_true] at a1
        obtain ⟨b1, b2, b3, b4, _, b6⟩ := a1
        refine ⟨?_, b6⟩
        simp only [inGrid, decide_eq_true_eq]
        exact ⟨b1, b2, b3, b4⟩

/-- An open set that satisfies the invariant has fewer entries than there are cells
that are not closed. -/
theorem OpenInv.length_le {F : Type} {openSet : List (Node F)} {closedSet : Grid}
    (h : OpenInv openSet closedSet) : openSet.length ≤ unclosedCount closedSet := by
  unfold unclosedCount
  have hc : (openSet.map nodePos).toFinset.card = openSet.length := by
    rw [List.toFinset_card_of_nodup h.1, List.length_map]
  rw [← hc]
  apply Finset.card_le_card
  intro p hp
  rw [List.mem_toFinset] at hp
  obtain ⟨hg, hcl⟩ := h.2 p hp
  simp only [Finset.mem_filter, gridCells, Finset.mem_product, Finset.mem_Icc]
  simp only [inGrid, decide_eq_true_eq, GRID_WIDTH, GRID_HEIGHT] at hg
  simp only [GRID_WIDTH, GRID_HEIGHT]
  exact ⟨⟨⟨by omega, by omega⟩, ⟨by omega, by omega⟩⟩, hcl⟩

theorem expandAll_reaches_neighbors (M : FloatModel) (grid closedSet : Grid)
    (goalX goalY : Int) (current : Node M.F) (openSet : List (Node M.F))
    (hinv : OpenInv openSet closedSet) (hcap : unclosedCount closedSet < 225) :
    (∀ p ∈ openSet.map nodePos,
      p ∈ (expandAll M grid closedSet goalX goalY current openSet).map nodePos) ∧
    ∀ i, i < 8 →
      neighborSkipped grid closedSet (current.posX + dx_path.getD i 0)
        (current.posY + dy_path.getD i 0) = false →
      diagonalRejected grid current.posX current.posY i = false →
      (current.posX + dx_path.getD i 0, current.posY + dy_path.getD i 0) ∈
        (expandAll M grid closedSet goalX goalY current openSet).map nodePos := by
  unfold expandAll
  have key : ∀ (l : List Nat) (os : List (Node M.F)), OpenInv os closedSet →
      (∀ p ∈ os.map nodePos,
        p ∈ (l.foldl (expandNeighbor M grid closedSet goalX goalY current) os).map nodePos) ∧
      ∀ i ∈ l,
        neighborSkipped grid closedSet (current.posX + dx_path.getD i 0)
          (current.posY + dy_path.getD i 0) = false →
        diagonalRejected grid current.posX current.posY i = false →
        (current.posX + dx_path.getD i 0, current.posY + dy_path.getD i 0) ∈
          (l.foldl (expandNeighbor M grid closedSet goalX goalY current) os).map nodePos := by
    intro l
    induction l with
    | nil => intro os _; exact ⟨fun p hp => hp, fun i hi => by simp at hi⟩
    | cons j t ih =>
      intro os hos
      have hos1 := expandNeighbor_OpenInv M grid closedSet goalX goalY current os j hos
      obtain ⟨m1, m2⟩ := ih _ hos1
      simp only [List.foldl_cons]
      constructor
      · intro p hp
        exact m1 p (expandNeighbor_mono M grid closedSet goalX goalY current os j p hp)
      · intro i hi a1 a2
        rcases List.mem_cons.mp hi with e | hi1
        · subst e
          apply m1
          apply expandNeighbor_adds M grid closedSet goalX goalY current os i a1 a2
          have := hos.length_le
          simp only [GRID_WIDTH, GRID_HEIGHT]
          omega
        · exact m2 i hi1 a1 a2
  obtain ⟨k1, k2⟩ := key (List.range 8) openSet hinv
  exact ⟨k1, fun i hi => k2 i (List.mem_range.mpr hi)⟩

/-- Taking the node with the lowest `f` out of the open set and closing its cell. -/
theorem OpenInv_pop (M : FloatModel) (first : Node M.F) (rest : List (Node M.F))
    (closedSet : Grid) (hinv : OpenInv (first :: rest) closedSet) :
    let current := (first :: rest).getD (lowestIndex M (first :: rest)) first
    let closedSet1 := setCell closedSet current.posY current.posX true
    inGrid current.posX current.posY = true ∧ closedSet current.posY current.posX = false ∧
    OpenInv (removeAt (first :: rest) (lowestIndex M (first :: rest))) closedSet1 ∧
    ∀ p ∈ (first :: rest).map nodePos, p ≠ nodePos current →
      p ∈ (removeAt (first :: rest) (lowestIndex M (first :: rest))).map nodePos := by
  intro current closedSet1
  have hlt := lowestIndex_lt M first rest
  have hcur : current = (first :: rest)[lowestIndex M (first :: rest)] :=
    List.getD_eq_getElem _ _ hlt
  have hlt2 : lowestIndex M (first :: rest) < ((first :: rest).map nodePos).length := by
    simpa using hlt
  have hpos : nodePos current = ((first :: rest).map nodePos)[lowestIndex M (first :: rest)] := by
    rw [hcur, List.getElem_map]
  have hmem : nodePos current ∈ (first :: rest).map nodePos := by
    rw [hpos]; exact List.getElem_mem _
  obtain ⟨hg, hc⟩ := hinv.2 _ hmem
  obtain ⟨r1, r2, r3, r4⟩ := removeAt_positions ((first :: rest).map nodePos)
    (lowestIndex M (first :: rest)) hlt2 hinv.1
  rw [← hpos, ← removeAt_map] at r2 r4
  rw [← removeAt_map] at r1 r3
  refine ⟨hg, hc, ⟨r1, ?_⟩, r4⟩
  intro p hp
  obtain ⟨hg1, hc1⟩ := hinv.2 p (r3 p hp)
  refine ⟨hg1, ?_⟩
  have hne : p ≠ nodePos current := fun e => r2 (e ▸ hp)
  show setCell closedSet current.posY current.posX true p.2 p.1 = false
  rw [setCell_other]
  · exact hc1
  · rintro ⟨e1, e2⟩
    exact hne (Prod.ext e2 e1)

theorem expandAll_OpenInv (M : FloatModel) (grid closedSet : Grid) (goalX goalY : Int)
    (current : Node M.F) (openSet : List (Node M.F)) (h : OpenInv openSet closedSet) :
    OpenInv (expandAll M grid closedSet goalX goalY current openSet) closedSet := by
  unfold expandAll
  have key : ∀ (l : List Nat) (os : List (Node M.F)), OpenInv os closedSet →
      OpenInv (l.foldl (expandNeighbor M grid closedSet goalX goalY current) os) closedSet := by
    intro l
    induction l with
    | nil => intro os hos; exact hos
    | cons j t ih =>
      intro os hos
      exact ih _ (expandNeighbor_OpenInv M grid closedSet goalX goalY current os j hos)
  exact key _ _ h

theorem OpenInv_step (M : FloatModel) (grid : Grid) (goalX goalY : Int)
    (first : Node M.F) (rest : List (Node M.F)) (closedSet : Grid)
    (hinv : OpenInv (first :: rest) closedSet) :
    let current := (first :: rest).getD (lowestIndex M (first :: rest)) first
    let closedSet1 := setCell closedSet current.posY current.posX true
    inGrid current.posX current.posY = true ∧ closedSet current.posY current.posX = false ∧
    OpenInv (expandAll M grid closedSet1 goalX goalY current
      (removeAt (first :: rest) (lowestIndex M (first :: rest)))) closedSet1 := by
  intro current closedSet1
  obtain ⟨hg, hc, hpop, _⟩ := OpenInv_pop M first rest closedSet hinv
  exact ⟨hg, hc, expandAll_OpenInv M grid _ goalX goalY _ _ hpop⟩

theorem aStarLoop_terminates (M : FloatModel) (grid : Grid) (goalX goalY : Int) :
    ∀ (fuel : Nat) (openSet : List (Node M.F)) (closedSet : Grid),
      OpenInv openSet closedSet → unclosedCount closedSet < fuel →
      ∃ b, aStarLoop M grid goalX goalY fuel openSet closedSet = some b := by
  intro fuel
  induction fuel with
  | zero => intro _ _ _ h; omega
  | succ fuel ih =>
    intro openSet closedSet hinv hm
    cases openSet with
    | nil => exact ⟨false, by simp [aStarLoop]⟩
    | cons first rest =>
      obtain ⟨hg, hc, hnext⟩ := OpenInv_step M grid goalX goalY first rest closedSet hinv
      unfold aStarLoop
      simp only
      split_ifs with hgoal
      · exact ⟨true, rfl⟩
      · apply ih _ _ hnext
        have := unclosedCount_setCell_lt closedSet _ _ hg hc
        omega

/-- The main loop of `pathfindAStar` ends within `searchFuel` iterations. -/
theorem pathfindAStarFuel_total (M : FloatModel) (grid : Grid) (startX startY goalX goalY : Int) :
    ∃ b, pathfindAStarFuel M searchFuel grid startX startY goalX goalY = some b := by
  unfold pathfindAStarFuel
  by_cases hv : endpointsInvalid grid startX startY goalX goalY = true
  · exact ⟨false, by rw [if_pos hv]⟩
  · rw [if_neg hv]
    apply aStarLoop_terminates
    · simp only [endpointsInvalid, decide_eq_true_eq, not_or, not_lt, not_le,
        Bool.not_eq_true] at hv
      obtain ⟨a1, a2, a3, a4, _⟩ := hv
      refine ⟨by simp, ?_⟩
      intro p hp
      simp only [List.map_cons, List.map_nil, List.mem_singleton, nodePos, startNode] at hp
      subst hp
      refine ⟨?_, rfl⟩
      simp only [inGrid, decide_eq_true_eq]
      exact ⟨a1, a2, a3, a4⟩
    · have := unclosedCount_le clearGrid
      simp only [searchFuel]
      omega

theorem pathfindAStar_eq_some (M : FloatModel) (grid : Grid) (startX startY goalX goalY : Int) :
    pathfindAStarFuel M searchFuel grid startX startY goalX goalY
      = some (pathfindAStar M grid startX startY goalX goalY) := by
  obtain ⟨b, hb⟩ := pathfindAStarFuel_total M grid startX startY goalX goalY
  unfold pathfindAStar
  rw [hb]
  rfl

/-! ## The pathfinder finds every goal that accepted moves reach -/

theorem Conn.unclosed {grid closedSet : Grid} {goal a : Int × Int}
    (h : Conn grid closedSet goal a) : closedSet a.2 a.1 = false := by
  cases h with
  | here h0 => exact h0
  | step h0 _ _ => exact h0

/-- Closing the cell `c`: a chain to the goal either avoids `c` or has a tail that
starts at a neighbour of `c`. -/
theorem Conn.close {grid closedSet : Grid} {goal a : Int × Int} (c : Int × Int)
    (h : Conn grid closedSet goal a) (hg : goal ≠ c) :
    Conn grid (setCell closedSet c.2 c.1 true) goal a ∨
    ∃ b, moveAccepted grid c b ∧ Conn grid (setCell closedSet c.2 c.1 true) goal b := by
  induction h with
  | here h0 =>
    left
    apply Conn.here
    rw [setCell_other]
    · exact h0
    · rintro ⟨e1, e2⟩
      exact hg (Prod.ext e2 e1)
  | @step a b h0 hm _ ih =>
    rcases ih with h1 | h1
    · by_cases e : a = c
      · right
        exact ⟨b, e ▸ hm, h1⟩
      · left
        refine Conn.step ?_ hm h1
        rw [setCell_other]
        · exact h0
        · rintro ⟨e1, e2⟩
          exact e (Prod.ext e2 e1)
    · right; exact h1

/-- The search loop answers true when some position in the open set is linked to the
goal by accepted moves through cells that are not closed. -/
theorem aStarLoop_complete (M : FloatModel) (grid : Grid) (goalX goalY : Int) :
    ∀ (fuel : Nat) (openSet : List (Node M.F)) (closedSet : Grid),
      OpenInv openSet closedSet → unclosedCount closedSet < fuel →
      (∃ o ∈ openSet.map nodePos, Conn grid closedSet (goalX, goalY) o) →
      aStarLoop M grid goalX goalY fuel openSet closedSet = some true := by
  intro fuel
  induction fuel with
  | zero => intro _ _ _ h; omega
  | succ fuel ih =>
    intro openSet closedSet hinv hm hconn
    cases openSet with
    | nil =>
      obtain ⟨o, ho, _⟩ := hconn
      simp at ho
    | cons first rest =>
      obtain ⟨hg, hc, hpop, hkeep⟩ := OpenInv_pop M first rest closedSet hinv
      have hlt := unclosedCount_setCell_lt closedSet _ _ hg hc
      have hle := unclosedCount_le closedSet
      obtain ⟨hmono, hadd⟩ := expandAll_reaches_neighbors M grid _ goalX goalY
        ((first :: rest).getD (lowestIndex M (first :: rest)) first) _ hpop (by omega)
      unfold aStarLoop
      simp only
      by_cases hgoal : ((first :: rest).getD (lowestIndex M (first :: rest)) first).posX = goalX ∧
          ((first :: rest).getD (lowestIndex M (first :: rest)) first).posY = goalY
      · rw [if_pos hgoal]
      · rw [if_neg hgoal]
        apply ih _ _ (expandAll_OpenInv M grid _ goalX goalY _ _ hpop) (by omega)
        obtain ⟨o, ho, hco⟩ := hconn
        have hne : (goalX, goalY) ≠
            nodePos ((first :: rest).getD (lowestIndex M (first :: rest)) first) := by
          intro e
          simp only [nodePos, Prod.mk.injEq] at e
          exact hgoal ⟨e.1.symm, e.2.symm⟩
        rcases hco.close (nodePos ((first :: rest).getD (lowestIndex M (first :: rest)) first))
          hne with h1 | ⟨b, hb, h1⟩
        · refine ⟨o, hmono o (hkeep o ho ?_), h1⟩
          intro e
          have := h1.unclosed
          rw [e] at this
          simp [nodePos, setCell] at this
        · refine ⟨b, ?_, h1⟩
          obtain ⟨i, hi, hbi, b1, b2, b3⟩ := hb
          have hcl := h1.unclosed
          rw [hbi]
          apply hadd i hi _ b3
          rw [hbi] at b1 b2 hcl
          simp only [nodePos] at b1 b2 hcl ⊢
          simp only [inGrid, decide_eq_true_eq] at b1
          simp only [neighborSkipped, decide_eq_false_iff_not, not_or, not_lt, not_le,
            Bool.not_eq_true]
          exact ⟨b1.1, b1.2.1, b1.2.2.1, b1.2.2.2, b2, hcl⟩

/-- The pathfinder answers true whenever the start is a cell of the grid and accepted
moves lead from it to the goal. -/
theorem pathfindAStar_complete (M : FloatModel) (grid : Grid) (startX startY goalX goalY : Int)
    (hs : inGrid startX startY = true)
    (h : Conn grid clearGrid (goalX, goalY) (startX, startY))
    (hso : grid startY startX = false) (hgo : inGrid goalX goalY = true)
    (hgo2 : grid goalY goalX = false) :
    pathfindAStar M grid startX startY goalX goalY = true := by
  have hv : ¬ endpointsInvalid grid startX startY goalX goalY = true := by
    simp only [inGrid, decide_eq_true_eq] at hs hgo
    simp only [endpointsInvalid, decide_eq_true_eq, not_or, not_lt, not_le, Bool.not_eq_true]
    exact ⟨hs.1, hs.2.1, hs.2.2.1, hs.2.2.2, hgo.1, hgo.2.1, hgo.2.2.1, hgo.2.2.2, hso, hgo2⟩
  unfold pathfindAStar pathfindAStarFuel
  rw [if_neg hv, aStarLoop_complete M grid goalX goalY searchFuel _ clearGrid]
  · rfl
  · refine ⟨by simp, ?_⟩
    intro p hp
    simp only [List.map_cons, List.map_nil, List.mem_singleton, nodePos, startNode] at hp
    subst hp
    exact ⟨hs, rfl⟩
  · have := unclosedCount_le clearGrid
    simp only [searchFuel]
    omega
  · exact ⟨(startX, startY), by simp [nodePos, startNode], h⟩

/-! ## Linked cells: open 3×3 blocks and chains of waypoints -/

theorem Conn.trans {grid : Grid} {a b c : Int × Int} (h1 : Conn grid clearGrid b a)
    (h2 : Conn grid clearGrid c b) : Conn grid clearGrid c a := by
  induction h1 with
  | here _ => exact h2
  | step h0 hm _ ih => exact Conn.step h0 hm ih

theorem cardinal_move_accepted (grid : Grid) (a b : Int × Int) (hb : inGrid b.1 b.2 = true)
    (ho : grid b.2 b.1 = false)
    (hadj : (b.1 = a.1 ∧ (b.2 = a.2 - 1 ∨ b.2 = a.2 + 1)) ∨
      (b.2 = a.2 ∧ (b.1 = a.1 + 1 ∨ b.1 = a.1 - 1))) :
    moveAccepted grid a b := by
  have hd : ∀ i, i < 4 → diagonalRejected grid a.1 a.2 i = false := by
    intro i hi
    simp only [diagonalRejected, decide_eq_false_iff_not, not_and]
    intro h4; omega
  rcases hadj with ⟨e1, e2 | e2⟩ | ⟨e1, e2 | e2⟩
  · exact ⟨0, by omega, Prod.ext (by simp [dx_path, e1]) (by simp [dy_path, e2]; omega), hb, ho,
      hd 0 (by omega)⟩
  · exact ⟨2, by omega, Prod.ext (by simp [dx_path, e1]) (by simp [dy_path, e2]), hb, ho,
      hd 2 (by omega)⟩
  · exact ⟨1, by omega, Prod.ext (by simp [dx_path, e2]) (by simp [dy_path, e1]), hb, ho,
      hd 1 (by omega)⟩
  · exact ⟨3, by omega, Prod.ext (by simp [dx_path, e2]; omega) (by simp [dy_path, e1]), hb, ho,
      hd 3 (by omega)⟩

theorem cardinal_step_conn (grid : Grid) (a b : Int × Int) (hb : inGrid b.1 b.2 = true)
    (ho : grid b.2 b.1 = false)
    (hadj : (b.1 = a.1 ∧ (b.2 = a.2 - 1 ∨ b.2 = a.2 + 1)) ∨
      (b.2 = a.2 ∧ (b.1 = a.1 + 1 ∨ b.1 = a.1 - 1))) :
    Conn grid clearGrid b a :=
  Conn.step rfl (cardinal_move_accepted grid a b hb ho hadj) (Conn.here rfl)

/-- Inside an open 3×3 block, two cells of the same row or column that are at most one
cell apart are linked. -/
theorem block_line_conn (grid : Grid) (p a b : Int × Int) (hp : BlockOpen grid p)
    (hb1 : p.1 - 1 ≤ b.1 ∧ b.1 ≤ p.1 + 1) (hb2 : p.2 - 1 ≤ b.2 ∧ b.2 ≤ p.2 + 1)
    (hadj : (b.1 = a.1 ∧ a.2 - 1 ≤ b.2 ∧ b.2 ≤ a.2 + 1) ∨
      (b.2 = a.2 ∧ a.1 - 1 ≤ b.1 ∧ b.1 ≤ a.1 + 1)) :
    Conn grid clearGrid b a := by
  obtain ⟨hg, ho⟩ := hp b.1 b.2 hb1.1 hb1.2 hb2.1 hb2.2
  by_cases e : a = b
  · rw [e]; exact Conn.here rfl
  · apply cardinal_step_conn grid a b hg ho
    have hne : ¬ (a.1 = b.1 ∧ a.2 = b.2) := fun h => e (Prod.ext h.1 h.2)
    omega

theorem block_conn (grid : Grid) (p a b : Int × Int) (hp : BlockOpen grid p)
    (ha1 : p.1 - 1 ≤ a.1 ∧ a.1 ≤ p.1 + 1) (ha2 : p.2 - 1 ≤ a.2 ∧ a.2 ≤ p.2 + 1)
    (hb1 : p.1 - 1 ≤ b.1 ∧ b.1 ≤ p.1 + 1) (hb2 : p.2 - 1 ≤ b.2 ∧ b.2 ≤ p.2 + 1) :
    Conn grid clearGrid b a := by
  -- a → (p.1, a.2) → (p.1, p.2) → (p.1, b.2) → b
  have s1 : Conn grid clearGrid (p.1, a.2) a :=
    block_line_conn grid p a (p.1, a.2) hp ⟨by simp, by simp⟩ ha2
      (Or.inr ⟨rfl, by simp only; omega, by simp only; omega⟩)
  have s2 : Conn grid clearGrid (p.1, p.2) (p.1, a.2) :=
    block_line_conn grid p (p.1, a.2) (p.1, p.2) hp ⟨by simp, by simp⟩ ⟨by simp, by simp⟩
      (Or.inl ⟨rfl, by simp only; omega, by simp only; omega⟩)
  have s3 : Conn grid clearGrid (p.1, b.2) (p.1, p.2) :=
    block_line_conn grid p (p.1, p.2) (p.1, b.2) hp ⟨by simp, by simp⟩ hb2
      (Or.inl ⟨rfl, by simp only; omega, by simp only; omega⟩)
  have s4 : Conn grid clearGrid b (p.1, b.2) :=
    block_line_conn grid p (p.1, b.2) b hp hb1 hb2
      (Or.inr ⟨rfl, by simp only; omega, by simp only; omega⟩)
  exact (s1.trans s2).trans (s3.trans s4)

/-- Two near waypoints whose 3×3 blocks are open are linked. -/
theorem near_conn (grid : Grid) (p q : Int × Int) (hp : BlockOpen grid p)
    (hq : BlockOpen grid q) (hn : Near p q) : Conn grid clearGrid q p := by
  obtain ⟨n1, n2, n3, n4⟩ := hn
  have m1 : Conn grid clearGrid ((p.1 + q.1) / 2, (p.2 + q.2) / 2) p :=
    block_conn grid p p _ hp ⟨by omega, by omega⟩ ⟨by omega, by omega⟩
      ⟨by simp only; omega, by simp only; omega⟩ ⟨by simp only; omega, by simp only; omega⟩
  have m2 : Conn grid clearGrid q ((p.1 + q.1) / 2, (p.2 + q.2) / 2) :=
    block_conn grid q _ q hq ⟨by simp only; omega, by simp only; omega⟩
      ⟨by simp only; omega, by simp only; omega⟩ ⟨by omega, by omega⟩ ⟨by omega, by omega⟩
  exact m1.trans m2

theorem Near.symm {p q : Int × Int} (h : Near p q) : Near q p := by
  unfold Near at *
  omega

/-- All waypoints of a chain of near waypoints with open blocks are linked to each
other. -/
theorem chain_conn (grid : Grid) (ps : List (Int × Int)) (hc : List.Chain' Near ps)
    (hb : ∀ p ∈ ps, BlockOpen grid p) :
    ∀ p ∈ ps, ∀ q ∈ ps, Conn grid clearGrid q p := by
  induction ps with
  | nil => intro p hp; simp at hp
  | cons a t ih =>
    have iht := ih (List.Chain'.tail hc) (fun p hp => hb p (List.mem_cons_of_mem _ hp))
    have haa : Conn grid clearGrid a a := Conn.here rfl
    have hat : ∀ q ∈ t, Conn grid clearGrid q a ∧ Conn grid clearGrid a q := by
      cases t with
      | nil => intro q hq; simp at hq
      | cons b r =>
        have hnab : Near a b := (List.chain'_cons.mp hc).1
        have hab := near_conn grid a b (hb a (List.mem_cons_self _ _))
          (hb b (List.mem_cons_of_mem _ (List.mem_cons_self _ _))) hnab
        have hba := near_conn grid b a
          (hb b (List.mem_cons_of_mem _ (List.mem_cons_self _ _)))
          (hb a (List.mem_cons_self _ _)) hnab.symm
        intro q hq
        exact ⟨hab.trans (iht b (List.mem_cons_self _ _) q hq),
          (iht q hq b (List.mem_cons_self _ _)).trans hba⟩
    intro p hp q hq
    rcases List.mem_cons.mp hp with rfl | hp1
    · rcases List.mem_cons.mp hq with rfl | hq1
      · exact haa
      · exact (hat q hq1).1
    · rcases List.mem_cons.mp hq with rfl | hq1
      · exact (hat p hp1).2
      · exact iht p hp1 q hq1

/-! ## The guaranteed-path constructor -/

theorem advance_spec (current exitGrid : Int) (w : World) :
    current ≤ (advance current exitGrid w).1 ∧ (advance current exitGrid w).1 ≤ current + 2 ∧
    (advance current exitGrid w).2.exitX = w.exitX ∧
    (advance current exitGrid w).2.exitY = w.exitY := by
  unfold advance
  by_cases h : current < exitGrid
  · rw [if_pos h]
    simp only [World.nextRand]
    refine ⟨by omega, by omega, trivial, trivial⟩
  · rw [if_neg h]
    exact ⟨le_refl _, by omega, rfl, rfl⟩

theorem nextWaypoint_spec (currentX currentY : Int) (w : World)
    (hx : 1 ≤ currentX ∧ currentX ≤ 13) (hy : 1 ≤ currentY ∧ currentY ≤ 13) :
    (currentX ≤ (nextWaypoint 12 12 currentX currentY w).1 ∧
      (nextWaypoint 12 12 currentX currentY w).1 ≤ currentX + 2 ∧
      (nextWaypoint 12 12 currentX currentY w).1 ≤ 13) ∧
    (currentY ≤ (nextWaypoint 12 12 currentX currentY w).2.1 ∧
      (nextWaypoint 12 12 currentX currentY w).2.1 ≤ currentY + 2 ∧
      (nextWaypoint 12 12 currentX currentY w).2.1 ≤ 13) ∧
    (nextWaypoint 12 12 currentX currentY w).2.2.exitX = w.exitX ∧
    (nextWaypoint 12 12 currentX currentY w).2.2.exitY = w.exitY := by
  unfold nextWaypoint
  simp only [World.nextRand, GRID_WIDTH, GRID_HEIGHT]
  by_cases hm : decide (w.rand w.randPos % 2 = 0) = true
  · rw [if_pos hm]
    dsimp only
    have a1 := advance_spec currentX 12 { w with randPos := w.randPos + 1 }
    have a2 := advance_spec currentY 12
      (advance currentX 12 { w with randPos := w.randPos + 1 }).2
    refine ⟨⟨?_, ?_, ?_⟩, ⟨?_, ?_, ?_⟩, ?_, ?_⟩
    all_goals first
      | (unfold cmin; split_ifs <;> omega)
      | rw [a2.2.2.1, a1.2.2.1]
      | rw [a2.2.2.2, a1.2.2.2]
  · rw [if_neg hm]
    dsimp only
    have a1 := advance_spec currentY 12 { w with randPos := w.randPos + 1 }
    have a2 := advance_spec currentX 12
      (advance currentY 12 { w with randPos := w.randPos + 1 }).2
    refine ⟨⟨?_, ?_, ?_⟩, ⟨?_, ?_, ?_⟩, ?_, ?_⟩
    all_goals first
      | (unfold cmin; split_ifs <;> omega)
      | rw [a2.2.2.1, a1.2.2.1]
      | rw [a2.2.2.2, a1.2.2.2]

theorem getD_mem_or_lt {α : Type} (l : List α) (k : Nat) (d : α) (h : k < l.length) :
    l.getD k d ∈ l := by
  rw [List.getD_eq_getElem l d h]
  exact List.getElem_mem h

theorem scatterNear_exit (currentX currentY : Int) (w : World) :
    (scatterNear currentX currentY w).exitX = w.exitX ∧
    (scatterNear currentX currentY w).exitY = w.exitY := by
  unfold scatterNear
  simp only [World.nextRand]
  split_ifs
  · apply forLoop_invariant (fun s : World => s.exitX = w.exitX ∧ s.exitY = w.exitY)
    · intro i s _ _ hs
      apply forLoop_invariant (fun s : World => s.exitX = w.exitX ∧ s.exitY = w.exitY)
      · intro j t _ _ ht
        unfold scatterCell
        simp only [World.nextRand, World.setMap]
        split_ifs <;> exact ht
      · exact hs
    · exact ⟨rfl, rfl⟩
  · exact ⟨rfl, rfl⟩

theorem chain_concat_near (ps : List (Int × Int)) (a b : Int × Int)
    (hc : List.Chain' Near ps) (hl : ps.getLast? = some a) (hn : Near a b) :
    List.Chain' Near (ps ++ [b]) := by
  apply List.Chain'.append hc (List.chain'_singleton b)
  intro x hx y hy
  rw [hl] at hx
  simp only [Option.mem_def, Option.some.injEq] at hx
  simp only [List.head?_cons, Option.mem_def, Option.some.injEq] at hy
  subst hx hy
  exact hn

theorem head?_concat_of_head? {α : Type} (ps : List α) (a b : α) (h : ps.head? = some a) :
    (ps ++ [b]).head? = some a := by
  cases ps with
  | nil => simp at h
  | cons c t => simpa using h

theorem corridorLoop_spec :
    ∀ (fuel : Nat) (c c1 : Corridor), CorridorInv c → corridorLoop 12 12 fuel c = .ok c1 →
      CorridorInv c1 ∧ 12 ≤ c1.currentX ∧ 12 ≤ c1.currentY := by
  intro fuel
  induction fuel with
  | zero => intro c c1 _ h; simp [corridorLoop] at h
  | succ fuel ih =>
    intro c c1 hinv h
    obtain ⟨i1, i2, i3, i4, i5, i6, i7⟩ := hinv
    have hcur : (c.currentX, c.currentY) ∈ c.pathPoints := List.mem_of_getLast?_eq_some i1
    have hb := i4 _ hcur
    simp only at hb
    unfold corridorLoop at h
    by_cases hcond : (c.currentX < 12 ∨ c.currentY < 12) ∧
        c.pathPoints.length < MAX_PATH_LENGTH - 1
    · rw [if_pos hcond] at h
      obtain ⟨n1, n2, n3, n4⟩ := nextWaypoint_spec c.currentX c.currentY c.world
        ⟨hb.1, hb.2.1⟩ ⟨hb.2.2.1, hb.2.2.2⟩
      rcases hnw : nextWaypoint 12 12 c.currentX c.currentY c.world with ⟨nx, ny, w3⟩
      rw [hnw] at h n1 n2 n3 n4
      simp only at h n1 n2 n3 n4
      unfold pushPoint at h
      by_cases hlen : c.pathPoints.length < MAX_COINS
      · rw [if_pos hlen] at h
        simp only at h
        apply ih _ _ _ h
        refine ⟨by simp, head?_concat_of_head? _ _ _ i2, ?_, ?_, ?_, ?_, ?_⟩
        · apply chain_concat_near _ _ _ i3 i1
          simp only [Near]
          omega
        · intro p hp
          rcases List.mem_append.mp hp with hp1 | hp1
          · exact i4 p hp1
          · simp only [List.mem_singleton] at hp1
            subst hp1
            simp only
            omega
        · simp only [List.length_append, List.length_singleton]
          omega
        · simp only [(scatterNear_exit nx ny w3).1, n3, i6]
        · simp only [(scatterNear_exit nx ny w3).2, n4, i7]
      · rw [if_neg hlen] at h
        simp at h
    · rw [if_neg hcond] at h
      simp only [Except.ok.injEq] at h
      subst h
      refine ⟨⟨i1, i2, i3, i4, i5, i6, i7⟩, ?_, ?_⟩
      · simp only [MAX_PATH_LENGTH, MAX_COINS] at hcond i5
        omega
      · simp only [MAX_PATH_LENGTH, MAX_COINS] at hcond i5
        omega

theorem clearPath_spec (pathPoints : List (Int × Int)) (w : World)
    (hr : ∀ p ∈ pathPoints, 1 ≤ p.1 ∧ p.1 ≤ 13 ∧ 1 ≤ p.2 ∧ p.2 ≤ 13) :
    (∀ p ∈ pathPoints, BlockOpen (clearPath pathPoints w).spaceMap p) ∧
    (clearPath pathPoints w).exitX = w.exitX ∧ (clearPath pathPoints w).exitY = w.exitY := by
  unfold clearPath
  have := forLoop_induction
    (fun (i : Int) (s : World) =>
      (∀ k : Nat, (k : Int) < i → k < pathPoints.length →
        BlockOpen s.spaceMap (pathPoints.getD k (0, 0))) ∧
      s.exitX = w.exitX ∧ s.exitY = w.exitY)
    0 (pathPoints.length : Int) (by omega)
    (fun i w1 =>
      let (x, y) := pathPoints.getD i.toNat (0, 0)
      clearAround x y w1) w
    ⟨by intro k hk; omega, rfl, rfl⟩
    (by
      intro i s hi1 hi2 ⟨hs1, hs2, hs3⟩
      simp only
      refine ⟨?_, ?_, ?_⟩
      · intro k hk hkl a b ha1 ha2 hb1 hb2
        have hrk := hr _ (getD_mem_or_lt pathPoints k (0, 0) hkl)
        have hin : inGrid a b = true := by
          simp only [inGrid, decide_eq_true_eq, GRID_WIDTH, GRID_HEIGHT]
          omega
        refine ⟨hin, ?_⟩
        by_cases e : (k : Int) = i
        · have e2 : i.toNat = k := by omega
          rw [e2]
          exact clearAround_cleared _ _ s a b ha1 ha2 hb1 hb2 hin
        · exact clearAround_keeps_open _ _ s a b
            ((hs1 k (by omega) hkl) a b ha1 ha2 hb1 hb2).2
      · rw [(clearAround_fields _ _ s).1, hs2]
      · rw [(clearAround_fields _ _ s).2.1, hs3])
  obtain ⟨h1, h2, h3⟩ := this
  refine ⟨?_, h2, h3⟩
  intro p hp
  obtain ⟨k, hk, rfl⟩ := List.getElem_of_mem hp
  have := h1 k (by omega) hk
  rw [List.getD_eq_getElem _ _ hk] at this
  exact this

theorem coinsOnPath_spec (pathPoints : List (Int × Int)) (w : World)
    (hlen : (w.totalCoins : Int) ≤ (pathPoints.length : Int) - 2) :
    (coinsOnPath pathPoints w).spaceMap = w.spaceMap ∧
    (coinsOnPath pathPoints w).exitX = w.exitX ∧
    (coinsOnPath pathPoints w).exitY = w.exitY ∧
    (coinsOnPath pathPoints w).totalCoins = w.totalCoins ∧
    ∀ i, i < w.totalCoins →
      (((coinsOnPath pathPoints w).coins i).x, ((coinsOnPath pathPoints w).coins i).y)
        ∈ pathPoints := by
  unfold coinsOnPath
  have := forLoop_induction
    (fun (k : Int) (s : World) =>
      s.spaceMap = w.spaceMap ∧ s.exitX = w.exitX ∧ s.exitY = w.exitY ∧
      s.totalCoins = w.totalCoins ∧
      ∀ i : Nat, (i : Int) < k → ((s.coins i).x, (s.coins i).y) ∈ pathPoints)
    0 (w.totalCoins : Int) (by omega)
    (fun i w1 =>
      let pathLength : Int := pathPoints.length
      let pathIndex0 : Int := 1 + i * (pathLength - 2) / (w.totalCoins : Int)
      let pathIndex : Int := if pathIndex0 ≥ pathLength - 1 then pathLength - 2 else pathIndex0
      let (x, y) := pathPoints.getD pathIndex.toNat (0, 0)
      w1.putCoin i.toNat x y) w
    ⟨rfl, rfl, rfl, rfl, by intro i hi; omega⟩
    (by
      intro k s hk1 hk2 ⟨s1, s2, s3, s4, s5⟩
      simp only
      refine ⟨s1, s2, s3, s4, ?_⟩
      intro i hi
      have hdiv : 0 ≤ k * ((pathPoints.length : Int) - 2) / (w.totalCoins : Int) :=
        Int.ediv_nonneg (mul_nonneg hk1 (by omega)) (by omega)
      by_cases e : i = k.toNat
      · simp only [World.putCoin, e, if_true]
        apply getD_mem_or_lt
        generalize k * ((pathPoints.length : Int) - 2) / (w.totalCoins : Int) = d at hdiv
        split_ifs <;> omega
      · simp only [World.putCoin, e, if_false]
        exact s5 i (by omega))
  obtain ⟨h1, h2, h3, h4, h5⟩ := this
  exact ⟨h1, h2, h3, h4, fun i hi => h5 i (by omega)⟩

theorem finishPath_spec (pathPoints : List (Int × Int)) (w : World)
    (hlen : 2 ≤ pathPoints.length) :
    (finishPath pathPoints w).spaceMap = (clearPath pathPoints w).spaceMap ∧
    (finishPath pathPoints w).exitX = (clearPath pathPoints w).exitX ∧
    (finishPath pathPoints w).exitY = (clearPath pathPoints w).exitY ∧
    ∀ i, i < (finishPath pathPoints w).totalCoins →
      (((finishPath pathPoints w).coins i).x, ((finishPath pathPoints w).coins i).y)
        ∈ pathPoints := by
  obtain ⟨c1, c2, c3, c4, c5⟩ := coinsOnPath_spec pathPoints
    ({ clearPath pathPoints w with
        totalCoins := (cmin ((pathPoints.length : Int) - 2) MAX_COINS).toNat }).resetCoins
    (by
      simp only [World.resetCoins, cmin]
      split_ifs <;> omega)
  unfold finishPath
  refine ⟨c1, c2, c3, ?_⟩
  intro i hi
  exact c5 i (c4 ▸ hi)

/-- A level whose start, exit and collectibles all lie on a chain of near waypoints
with open 3×3 blocks passes `verifyAllPathsExist`. -/
theorem verify_of_waypoints (M : FloatModel) (w : World) (ps : List (Int × Int))
    (hchain : List.Chain' Near ps) (hblocks : ∀ p ∈ ps, BlockOpen w.spaceMap p)
    (hstart : ((1 : Int), (1 : Int)) ∈ ps) (hexit : (w.exitX, w.exitY) ∈ ps)
    (hcoins : ∀ i, i < w.totalCoins → ((w.coins i).x, (w.coins i).y) ∈ ps) :
    verifyAllPathsExist M w = true := by
  have hconn := chain_conn w.spaceMap ps hchain hblocks
  have hpf : ∀ p ∈ ps, ∀ q ∈ ps, pathfindAStar M w.spaceMap p.1 p.2 q.1 q.2 = true := by
    intro p hp q hq
    have bp := hblocks p hp p.1 p.2 (by omega) (by omega) (by omega) (by omega)
    have bq := hblocks q hq q.1 q.2 (by omega) (by omega) (by omega) (by omega)
    exact pathfindAStar_complete M _ p.1 p.2 q.1 q.2 bp.1 (hconn p hp q hq) bp.2 bq.1 bq.2
  rw [verify_all_iff]
  refine ⟨hpf (1, 1) hstart (w.exitX, w.exitY) hexit, ?_⟩
  intro i hi _
  exact ⟨hpf (1, 1) hstart _ (hcoins i hi), hpf _ (hcoins i hi) (w.exitX, w.exitY) hexit⟩

/-- Whenever `createGuaranteedPath` runs to its end (no waypoint is written past the end
of `pathPoints`), the level it leaves passes `verifyAllPathsExist` and its exit is
`(12, 12)`. -/
theorem createGuaranteedPath_ok_verifies (M : FloatModel) (w w1 : World)
    (h : createGuaranteedPath w = .ok w1) :
    verifyAllPathsExist M w1 = true ∧ w1.exitX = 12 ∧ w1.exitY = 12 := by
  unfold createGuaranteedPath at h
  have hp0 : pushPoint [] 1 1 = .ok [(1, 1)] := rfl
  have e12 : GRID_WIDTH - 3 = (12 : Int) := rfl
  have e12h : GRID_HEIGHT - 3 = (12 : Int) := rfl
  simp only [hp0, e12, e12h] at h
  cases hloop : corridorLoop 12 12 MAX_PATH_LENGTH
      { world := { w with spaceMap := clearGrid, exitX := 12, exitY := 12 },
        currentX := 1, currentY := 1, pathPoints := [(1, 1)] } with
  | error e => rw [hloop] at h; simp at h
  | ok c =>
    rw [hloop] at h
    simp only at h
    obtain ⟨⟨i1, i2, i3, i4, i5, i6, i7⟩, hcx, hcy⟩ := corridorLoop_spec MAX_PATH_LENGTH
      { world := { w with spaceMap := clearGrid, exitX := 12, exitY := 12 },
        currentX := 1, currentY := 1, pathPoints := [(1, 1)] } c
      ⟨rfl, rfl, List.chain'_singleton _, by simp, by simp [MAX_COINS], rfl, rfl⟩ hloop
    have hcur : (c.currentX, c.currentY) ∈ c.pathPoints := List.mem_of_getLast?_eq_some i1
    have hb := i4 _ hcur
    simp only at hb
    unfold pushPoint at h
    by_cases hlen : c.pathPoints.length < MAX_COINS
    · rw [if_pos hlen] at h
      simp only [Except.ok.injEq] at h
      have hne : c.pathPoints ≠ [] := by
        intro e; rw [e] at i2; simp at i2
      have hlen1 : 1 ≤ c.pathPoints.length := List.length_pos.mpr hne
      have hchain : List.Chain' Near (c.pathPoints ++ [(12, 12)]) := by
        apply chain_concat_near _ _ _ i3 i1
        simp only [Near]
        omega
      have hrange : ∀ p ∈ c.pathPoints ++ [(12, 12)], 1 ≤ p.1 ∧ p.1 ≤ 13 ∧ 1 ≤ p.2 ∧ p.2 ≤ 13 := by
        intro p hp
        rcases List.mem_append.mp hp with hp1 | hp1
        · exact i4 p hp1
        · simp only [List.mem_singleton] at hp1
          subst hp1
          simp
      obtain ⟨hblocks, hex, hey⟩ := clearPath_spec (c.pathPoints ++ [(12, 12)]) c.world hrange
      have hstart : ((1 : Int), (1 : Int)) ∈ c.pathPoints ++ [(12, 12)] := by
        apply List.mem_append_left
        cases hc : c.pathPoints with
        | nil => exact absurd hc hne
        | cons a t => rw [hc] at i2; simp at i2; simp [i2]
      obtain ⟨f1, f2, f3, f4⟩ := finishPath_spec (c.pathPoints ++ [(12, 12)]) c.world
        (by simp only [List.length_append, List.length_singleton]; omega)
      subst h
      have hx : (finishPath (c.pathPoints ++ [(12, 12)]) c.world).exitX = 12 := by
        rw [f2, hex, i6]
      have hy : (finishPath (c.pathPoints ++ [(12, 12)]) c.world).exitY = 12 := by
        rw [f3, hey, i7]
      refine ⟨verify_of_waypoints M _ (c.pathPoints ++ [(12, 12)]) hchain ?_ hstart ?_ f4, hx, hy⟩
      · rw [f1]; exact hblocks
      · rw [hx, hy]; simp
    · rw [if_neg hlen] at h
      simp at h

/-! ## The orchestrator -/

/-- The waypoint loop never uses up its iteration bound: it stops at the loop test or at
a write past the end of `pathPoints` first. -/
theorem corridorLoop_fuel (exitGridX exitGridY : Int) :
    ∀ (fuel : Nat) (c : Corridor), c.pathPoints.length ≤ MAX_COINS →
      MAX_COINS + 1 < fuel + c.pathPoints.length →
      corridorLoop exitGridX exitGridY fuel c ≠ .error Fault.outOfFuel := by
  intro fuel
  induction fuel with
  | zero =>
    intro c hl hc
    omega
  | succ fuel ih =>
    intro c hl hc
    unfold corridorLoop
    split_ifs
    · simp only
      unfold pushPoint
      split_ifs with hlen
      · simp only
        apply ih
        · simp only [List.length_append, List.length_singleton]
          omega
        · simp only [List.length_append, List.length_singleton]
          omega
      · simp
    · simp

theorem createGuaranteedPath_fuel (w : World) :
    faultOf (createGuaranteedPath w) ≠ some Fault.outOfFuel := by
  unfold createGuaranteedPath
  have hp0 : pushPoint [] 1 1 = .ok [(1, 1)] := rfl
  simp only [hp0]
  have hf := corridorLoop_fuel (GRID_WIDTH - 3) (GRID_HEIGHT - 3) MAX_PATH_LENGTH
    { world := { w with spaceMap := clearGrid, exitX := GRID_WIDTH - 3,
                        exitY := GRID_HEIGHT - 3 },
      currentX := 1, currentY := 1, pathPoints := [(1, 1)] } (by simp [MAX_COINS])
    (by simp [MAX_COINS, MAX_PATH_LENGTH])
  cases hloop : corridorLoop (GRID_WIDTH - 3) (GRID_HEIGHT - 3) MAX_PATH_LENGTH
      { world := { w with spaceMap := clearGrid, exitX := GRID_WIDTH - 3,
                          exitY := GRID_HEIGHT - 3 },
        currentX := 1, currentY := 1, pathPoints := [(1, 1)] } with
  | error e =>
    rw [hloop] at hf
    simp only [faultOf]
    intro h
    simp only [Option.some.injEq] at h
    exact hf (by rw [h])
  | ok c =>
    simp only
    unfold pushPoint
    split_ifs <;> simp [faultOf]

theorem attemptLoop_zero (M : FloatModel) (w : World) :
    attemptLoop M 0 w = createGuaranteedPath w := rfl

theorem attemptLoop_succ (M : FloatModel) (n : Nat) (w : World) :
    attemptLoop M (n + 1) w =
      match placeCoins M (findValidExit (generateRandomMap w)) with
      | .error e => .error e
      | .ok w1 =>
        if verifyAllPathsExist M w1 = true then .ok { w1 with pathExists := true }
        else attemptLoop M n w1 := rfl

theorem attemptLoop_ok_exit_reachable (M : FloatModel) :
    ∀ (remaining : Nat) (w w1 : World), attemptLoop M remaining w = .ok w1 →
      pathfindAStar M w1.spaceMap 1 1 w1.exitX w1.exitY = true := by
  intro remaining
  induction remaining with
  | zero =>
    intro w w1 h
    rw [attemptLoop_zero] at h
    exact ((verify_all_iff M w1).mp (createGuaranteedPath_ok_verifies M w w1 h).1).1
  | succ n ih =>
    intro w w1 h
    rw [attemptLoop_succ] at h
    cases hp : placeCoins M (findValidExit (generateRandomMap w)) with
    | error e => rw [hp] at h; simp at h
    | ok w2 =>
      rw [hp] at h
      simp only at h
      by_cases hv : verifyAllPathsExist M w2 = true
      · rw [if_pos hv] at h
        simp only [Except.ok.injEq] at h
        subst h
        exact ((verify_all_iff M w2).mp hv).1
      · rw [if_neg hv] at h
        exact ih w2 w1 h

/-- Whenever `generateEnvironment` returns a level, the pathfinder reaches its exit from
`(1,1)`. -/
theorem generateEnvironment_ok_exit_reachable (M : FloatModel) (guaranteePath : Bool)
    (w w1 : World) (h : generateEnvironment M guaranteePath w = .ok w1) :
    pathfindAStar M w1.spaceMap 1 1 w1.exitX w1.exitY = true := by
  unfold generateEnvironment at h
  by_cases hg : guaranteePath = true
  · rw [if_pos hg] at h
    exact ((verify_all_iff M w1).mp (createGuaranteedPath_ok_verifies M w w1 h).1).1
  · rw [if_neg hg] at h
    exact attemptLoop_ok_exit_reachable M 5 w w1 h

/-! ## The randomized phase of collectible placement -/

theorem findExitLoop_succ (minD : Int) (n : Nat) (w : World) :
    findExitLoop minD (n + 1) w =
      if ({ w with randPos := w.randPos + 1 + 1 } : World).spaceMap
            (exitCandidate (w.rand w.randPos) (w.rand (w.randPos + 1))).2
            (exitCandidate (w.rand w.randPos) (w.rand (w.randPos + 1))).1 = false ∧
          distSq (exitCandidate (w.rand w.randPos) (w.rand (w.randPos + 1))).1
            (exitCandidate (w.rand w.randPos) (w.rand (w.randPos + 1))).2 1 1 > minD ^ 2 then
        (some (exitCandidate (w.rand w.randPos) (w.rand (w.randPos + 1))),
          { w with randPos := w.randPos + 1 + 1 })
      else findExitLoop minD n { w with randPos := w.randPos + 1 + 1 } := rfl

theorem exitCandidate_range (r1 r2 : Nat) :
    7 ≤ (exitCandidate r1 r2).1 ∧ (exitCandidate r1 r2).1 ≤ 11 ∧
    7 ≤ (exitCandidate r1 r2).2 ∧ (exitCandidate r1 r2).2 ≤ 11 := by
  simp only [exitCandidate, GRID_WIDTH, GRID_HEIGHT]
  omega

theorem findExitLoop_candidate (minD : Int) (n : Nat) (w : World) (c : Int × Int)
    (h : (findExitLoop minD n w).1 = some c) : ∃ r1 r2, c = exitCandidate r1 r2 := by
  induction n generalizing w with
  | zero => simp [findExitLoop] at h
  | succ n ih =>
    rw [findExitLoop_succ] at h
    split_ifs at h
    · simp only [Option.some.injEq] at h
      exact ⟨_, _, h.symm⟩
    · exact ih _ h

theorem tooClose_false (coins : Nat → Coin) (k : Nat) (x y : Int)
    (h : tooClose coins k x y = false) (j : Nat) (hj : j < k) (ha : (coins j).active = true) :
    distSq x y (coins j).x (coins j).y ≥ 3 ^ 2 := by
  unfold tooClose at h
  rw [List.any_eq_false] at h
  have := h j (List.mem_range.mpr hj)
  simp only [ha, Bool.true_and, decide_eq_true_eq, not_lt] at this
  exact this

theorem randomCoinLoop_inv (M : FloatModel) (w0 : World) :
    ∀ (n : Nat) (w : World) (k : Nat), RandomPhaseInv M w0 w k →
      RandomPhaseInv M w0 (randomCoinLoop M n w k).1 (randomCoinLoop M n w k).2 ∧
      k ≤ (randomCoinLoop M n w k).2 ∧
      ((randomCoinLoop M n w k).2 ≤ w0.totalCoins ∨ (randomCoinLoop M n w k).2 = k) := by
  intro n
  induction n with
  | zero => intro w k h; exact ⟨h, le_refl _, Or.inr rfl⟩
  | succ n ih =>
    intro w k h
    obtain ⟨h1, h2, h3, h4, h5, h6, h7⟩ := h
    unfold randomCoinLoop
    by_cases hk : k < w.totalCoins
    · rw [if_pos hk]
      simp only [World.nextRand]
      split_ifs with hc
      · obtain ⟨c1, ⟨c2, c3⟩, ⟨c4, c5⟩, c6⟩ := hc
        have hnew : RandomPhaseInv M w0
            (World.putCoin { w with randPos := w.randPos + 1 + 1 } k
              ((w.rand w.randPos : Int) % GRID_WIDTH)
              ((w.rand (w.randPos + 1) : Int) % GRID_HEIGHT)) (k + 1) := by
          refine ⟨h1, h2, h3, h4, ?_, ?_, ?_⟩
          · intro i hi
            by_cases e : i = k
            · subst e
              simp only [World.putCoin, if_true]
              rw [h1] at c4 c5
              rw [h2, h3] at c3 c5
              exact ⟨trivial, c2, c3, c4, c5⟩
            · have := h5 i (by omega)
              simpa only [World.putCoin, if_neg e] using this
          · intro i j hij hj
            by_cases e : j = k
            · subst e
              have hi : i ≠ j := by omega
              simp only [World.putCoin, if_true, if_neg hi]
              exact tooClose_false _ _ _ _ c6 i hij (h5 i hij).1
            · have hi : i ≠ k := by omega
              simp only [World.putCoin, if_neg e, if_neg hi]
              exact h6 i j hij (by omega)
          · intro i hi
            have e : i ≠ k := by omega
            simp only [World.putCoin, if_neg e]
            exact h7 i (by omega)
        obtain ⟨r1, r2, r3⟩ := ih _ (k + 1) hnew
        refine ⟨r1, by omega, ?_⟩
        rcases r3 with r3 | r3
        · exact Or.inl r3
        · left; rw [r3]; rw [h4] at hk; omega
      · exact ih _ k ⟨h1, h2, h3, h4, h5, h6, h7⟩
    · rw [if_neg hk]
      exact ⟨⟨h1, h2, h3, h4, h5, h6, h7⟩, le_refl _, Or.inr rfl⟩

/-! ## The waypoints of the guaranteed path and the collectibles on them -/

theorem createGuaranteedPath_eq (w : World) :
    createGuaranteedPath w =
      match recordWaypoints w with
      | .error e => .error e
      | .ok (pathPoints, cw) => .ok (finishPath pathPoints cw) := by
  unfold createGuaranteedPath recordWaypoints
  have hp0 : pushPoint [] 1 1 = .ok [(1, 1)] := rfl
  simp only [hp0]
  cases corridorLoop (GRID_WIDTH - 3) (GRID_HEIGHT - 3) MAX_PATH_LENGTH
      { world := { w with spaceMap := clearGrid, exitX := GRID_WIDTH - 3,
                          exitY := GRID_HEIGHT - 3 },
        currentX := 1, currentY := 1, pathPoints := [(1, 1)] } with
  | error e => rfl
  | ok c =>
    simp only
    cases pushPoint c.pathPoints (GRID_WIDTH - 3) (GRID_HEIGHT - 3) with
    | error e => rfl
    | ok pts => rfl

/-- The waypoints recorded without overrunning the buffer: at least two and at most
`MAX_COINS`, from `(1,1)` to `(12,12)`, all in `[1,13] × [1,13]`, consecutive ones near
each other; the exit is `(12,12)`. -/
theorem recordWaypoints_spec (w : World) (pts : List (Int × Int)) (cw : World)
    (h : recordWaypoints w = .ok (pts, cw)) :
    2 ≤ pts.length ∧ pts.length ≤ MAX_COINS ∧ pts.head? = some (1, 1) ∧
    pts.getLast? = some (12, 12) ∧ List.Chain' Near pts ∧
    (∀ p ∈ pts, 1 ≤ p.1 ∧ p.1 ≤ 13 ∧ 1 ≤ p.2 ∧ p.2 ≤ 13) ∧ cw.exitX = 12 ∧ cw.exitY = 12 := by
  unfold recordWaypoints at h
  have hp0 : pushPoint [] 1 1 = .ok [(1, 1)] := rfl
  have e12 : GRID_WIDTH - 3 = (12 : Int) := rfl
  have e12h : GRID_HEIGHT - 3 = (12 : Int) := rfl
  simp only [hp0, e12, e12h] at h
  cases hloop : corridorLoop 12 12 MAX_PATH_LENGTH
      { world := { w with spaceMap := clearGrid, exitX := 12, exitY := 12 },
        currentX := 1, currentY := 1, pathPoints := [(1, 1)] } with
  | error e => rw [hloop] at h; simp at h
  | ok c =>
    rw [hloop] at h
    simp only at h
    obtain ⟨⟨i1, i2, i3, i4, i5, i6, i7⟩, hcx, hcy⟩ := corridorLoop_spec MAX_PATH_LENGTH
      { world := { w with spaceMap := clearGrid, exitX := 12, exitY := 12 },
        currentX := 1, currentY := 1, pathPoints := [(1, 1)] } c
      ⟨rfl, rfl, List.chain'_singleton _, by simp, by simp [MAX_COINS], rfl, rfl⟩ hloop
    have hcur : (c.currentX, c.currentY) ∈ c.pathPoints := List.mem_of_getLast?_eq_some i1
    have hb := i4 _ hcur
    simp only at hb
    unfold pushPoint at h
    by_cases hlen : c.pathPoints.length < MAX_COINS
    · rw [if_pos hlen] at h
      simp only [Except.ok.injEq, Prod.mk.injEq] at h
      obtain ⟨rfl, rfl⟩ := h
      have hne : c.pathPoints ≠ [] := by
        intro e; rw [e] at i2; simp at i2
      have hlen1 : 1 ≤ c.pathPoints.length := List.length_pos.mpr hne
      refine ⟨?_, ?_, head?_concat_of_head? _ _ _ i2, by simp, ?_, ?_, i6, i7⟩
      · simp only [List.length_append, List.length_singleton]; omega
      · simp only [List.length_append, List.length_singleton]; omega
      · apply chain_concat_near _ _ _ i3 i1
        simp only [Near]
        omega
      · intro p hp
        rcases List.mem_append.mp hp with hp1 | hp1
        · exact i4 p hp1
        · simp only [List.mem_singleton] at hp1
          subst hp1
          simp
    · rw [if_neg hlen] at h
      simp at h

/-- The collectibles that `coinsOnPath` places: entry `i < totalCoins` is active and sits
on the waypoint of some index between 1 and `pathLength - 2`; the other entries and the
rest of the state are unchanged. -/
theorem coinsOnPath_interior (pathPoints : List (Int × Int)) (w : World)
    (hlen : (w.totalCoins : Int) ≤ (pathPoints.length : Int) - 2) :
    (coinsOnPath pathPoints w).totalCoins = w.totalCoins ∧
    (∀ i, i < w.totalCoins → ((coinsOnPath pathPoints w).coins i).active = true ∧
      ∃ k : Nat, 1 ≤ k ∧ k + 2 ≤ pathPoints.length ∧
        pathPoints.get? k = some (((coinsOnPath pathPoints w).coins i).x,
          ((coinsOnPath pathPoints w).coins i).y)) ∧
    ∀ i, w.totalCoins ≤ i → (coinsOnPath pathPoints w).coins i = w.coins i := by
  unfold coinsOnPath
  have := forLoop_induction
    (fun (k : Int) (s : World) =>
      s.totalCoins = w.totalCoins ∧
      (∀ i : Nat, (i : Int) < k → (s.coins i).active = true ∧
        ∃ m : Nat, 1 ≤ m ∧ m + 2 ≤ pathPoints.length ∧
          pathPoints.get? m = some ((s.coins i).x, (s.coins i).y)) ∧
      ∀ i : Nat, k ≤ (i : Int) → s.coins i = w.coins i)
    0 (w.totalCoins : Int) (by omega)
    (fun i w1 =>
      let pathLength : Int := pathPoints.length
      let pathIndex0 : Int := 1 + i * (pathLength - 2) / (w.totalCoins : Int)
      let pathIndex : Int := if pathIndex0 ≥ pathLength - 1 then pathLength - 2 else pathIndex0
      let (x, y) := pathPoints.getD pathIndex.toNat (0, 0)
      w1.putCoin i.toNat x y) w
    ⟨rfl, by intro i hi; omega, fun _ _ => rfl⟩
    (by
      intro k s hk1 hk2 ⟨s1, s2, s3⟩
      simp only
      have hdiv : 0 ≤ k * ((pathPoints.length : Int) - 2) / (w.totalCoins : Int) :=
        Int.ediv_nonneg (mul_nonneg hk1 (by omega)) (by omega)
      refine ⟨s1, ?_, ?_⟩
      · intro i hi
        by_cases e : i = k.toNat
        · simp only [World.putCoin, e, if_true, true_and]
          generalize k * ((pathPoints.length : Int) - 2) / (w.totalCoins : Int) = d at hdiv
          refine ⟨(if 1 + d ≥ (pathPoints.length : Int) - 1 then (pathPoints.length : Int) - 2
            else 1 + d).toNat, ?_, ?_, ?_⟩
          · split_ifs <;> omega
          · split_ifs <;> omega
          · rw [List.getD_eq_getElem?_getD, List.get?_eq_getElem?]
            have hlt : (if 1 + d ≥ (pathPoints.length : Int) - 1 then
                (pathPoints.length : Int) - 2 else 1 + d).toNat < pathPoints.length := by
              split_ifs <;> omega
            rw [List.getElem?_eq_getElem hlt]
            rfl
        · simp only [World.putCoin, if_neg e]
          exact s2 i (by omega)
      · intro i hi
        have e : i ≠ k.toNat := by omega
        simp only [World.putCoin, if_neg e]
        exact s3 i (by omega))
  obtain ⟨h1, h2, h3⟩ := this
  exact ⟨h1, fun i hi => h2 i (by omega), fun i hi => h3 i (by omega)⟩

theorem finishPath_coins (pathPoints : List (Int × Int)) (w : World)
    (hlen : 2 ≤ pathPoints.length) :
    (finishPath pathPoints w).totalCoins
      = (cmin ((pathPoints.length : Int) - 2) MAX_COINS).toNat ∧
    (∀ i, i < MAX_COINS →
      (((finishPath pathPoints w).coins i).active = true ↔
        i < (finishPath pathPoints w).totalCoins)) ∧
    ∀ i, i < (finishPath pathPoints w).totalCoins →
      ∃ k : Nat, 1 ≤ k ∧ k + 2 ≤ pathPoints.length ∧
        pathPoints.get? k = some (((finishPath pathPoints w).coins i).x,
          ((finishPath pathPoints w).coins i).y) := by
  obtain ⟨c1, c2, c3⟩ := coinsOnPath_interior pathPoints
    ({ clearPath pathPoints w with
        totalCoins := (cmin ((pathPoints.length : Int) - 2) MAX_COINS).toNat }).resetCoins
    (by
      simp only [World.resetCoins, cmin]
      split_ifs <;> omega)
  unfold finishPath
  refine ⟨c1, ?_, ?_⟩
  · intro i hi
    constructor
    · intro ha
      by_contra hn
      have := c3 i (by rw [← c1]; exact Nat.le_of_not_lt hn)
      simp only at ha
      rw [this] at ha
      simp [World.resetCoins, hi] at ha
    · intro hlt
      exact (c2 i (c1 ▸ hlt)).1
  · intro i hi
    exact (c2 i (c1 ▸ hi)).2

/-! ## The breadth-first search of collectible placement -/

theorem foldlM_except_inv {σ : Type} (f : σ → Nat → Except Fault σ) (I : σ → Prop)
    (hstep : ∀ s i, I s → ∃ s1, f s i = .ok s1 ∧ I s1) :
    ∀ (l : List Nat) (s : σ), I s → ∃ s1, l.foldlM f s = .ok s1 ∧ I s1 := by
  intro l
  induction l with
  | nil => intro s hs; exact ⟨s, rfl, hs⟩
  | cons i t ih =>
    intro s hs
    obtain ⟨s1, h1, h2⟩ := hstep s i hs
    obtain ⟨s2, h3, h4⟩ := ih s1 h2
    refine ⟨s2, ?_, h4⟩
    rw [List.foldlM_cons, h1]
    exact h3

theorem nodup_cells_length_lt (cells : List (Int × Int)) (c : Int × Int)
    (hn : cells.Nodup) (hg : ∀ p ∈ cells, inGrid p.1 p.2 = true)
    (hc : inGrid c.1 c.2 = true) (hnot : c ∉ cells) : cells.length < 225 := by
  have h1 : (c :: cells).toFinset.card = cells.length + 1 := by
    rw [List.toFinset_card_of_nodup (List.nodup_cons.mpr ⟨hnot, hn⟩)]
    simp
  have h2 : (c :: cells).toFinset ⊆ gridCells := by
    intro p hp
    rw [List.mem_toFinset] at hp
    have hgp : inGrid p.1 p.2 = true := by
      rcases List.mem_cons.mp hp with e | e
      · rw [e]; exact hc
      · exact hg p e
    simp only [inGrid, decide_eq_true_eq, GRID_WIDTH, GRID_HEIGHT] at hgp
    simp only [gridCells, Finset.mem_product, Finset.mem_Icc, GRID_WIDTH, GRID_HEIGHT]
    exact ⟨⟨by omega, by omega⟩, ⟨by omega, by omega⟩⟩
  have h3 := Finset.card_le_card h2
  have h4 : gridCells.card = 225 := by
    simp [gridCells, Finset.card_product, GRID_WIDTH, GRID_HEIGHT]
  omega

theorem nodup_cells_length_le (cells : List (Int × Int))
    (hn : cells.Nodup) (hg : ∀ p ∈ cells, inGrid p.1 p.2 = true) : cells.length ≤ 225 := by
  have h1 : cells.toFinset.card = cells.length := List.toFinset_card_of_nodup hn
  have h2 : cells.toFinset ⊆ gridCells := by
    intro p hp
    rw [List.mem_toFinset] at hp
    have hgp := hg p hp
    simp only [inGrid, decide_eq_true_eq, GRID_WIDTH, GRID_HEIGHT] at hgp
    simp only [gridCells, Finset.mem_product, Finset.mem_Icc, GRID_WIDTH, GRID_HEIGHT]
    exact ⟨⟨by omega, by omega⟩, ⟨by omega, by omega⟩⟩
  have h3 := Finset.card_le_card h2
  have h4 : gridCells.card = 225 := by
    simp [gridCells, Finset.card_product, GRID_WIDTH, GRID_HEIGHT]
  omega

/-- One pass of the neighbour loop of the search: it does not overrun the queue, keeps
the shape of the queue, only appends to it, and every cell it appends is an open cell of
the grid next to the cell `(x, y)` being expanded. -/
theorem bfsNeighbor_spec (grid : Grid) (x y : Int) (qf : Nat) (Q : Int × Int → Prop)
    (hQ : ∀ b : Int × Int, inGrid b.1 b.2 = true → grid b.2 b.1 = false →
      ((b.1 = x ∧ (b.2 = y - 1 ∨ b.2 = y + 1)) ∨ (b.2 = y ∧ (b.1 = x + 1 ∨ b.1 = x - 1))) → Q b)
    (s : BfsState) (i : Nat) (hi : i < 4)
    (h : BfsShape s ∧ qf < s.queue.length ∧ ∀ e ∈ s.queue, Q (entryCell e)) :
    ∃ s1, bfsNeighbor grid x y (qf : Int) s i = .ok s1 ∧
      (BfsShape s1 ∧ qf < s1.queue.length ∧ ∀ e ∈ s1.queue, Q (entryCell e)) := by
  obtain ⟨⟨n1, n2, n3⟩, hq, hall⟩ := h
  unfold bfsNeighbor
  simp only
  by_cases hc : inGrid (x + dx.getD i 0) (y + dy.getD i 0) = true ∧
      grid (y + dy.getD i 0) (x + dx.getD i 0) = false ∧
      s.visited (y + dy.getD i 0) (x + dx.getD i 0) = false
  · rw [if_pos hc]
    obtain ⟨c1, c2, c3⟩ := hc
    have hnot : (x + dx.getD i 0, y + dy.getD i 0) ∉ s.queue.map entryCell := by
      intro hm
      obtain ⟨e, he, hec⟩ := List.mem_map.mp hm
      have := (n2 e he).2
      simp only [entryCell, Prod.mk.injEq] at hec
      rw [hec.1, hec.2, c3] at this
      exact Bool.false_ne_true this
    have hlen := nodup_cells_length_lt (s.queue.map entryCell) _ n1
      (by
        intro p hp
        obtain ⟨e, he, rfl⟩ := List.mem_map.mp hp
        exact (n2 e he).1) c1 hnot
    rw [List.length_map] at hlen
    have hlt : (s.queue.length : Int) < GRID_WIDTH * GRID_HEIGHT := by
      simp only [GRID_WIDTH, GRID_HEIGHT]; omega
    rw [if_pos hlt]
    refine ⟨_, rfl, ⟨?_, ?_, ?_⟩, ?_, ?_⟩
    · simp only [List.map_append, List.map_cons, List.map_nil, entryCell]
      rw [List.nodup_append]
      refine ⟨n1, List.nodup_singleton _, ?_⟩
      intro p hp1 hp2
      simp only [List.mem_singleton] at hp2
      subst hp2
      exact hnot hp1
    · intro e he
      rcases List.mem_append.mp he with h1 | h1
      · refine ⟨(n2 e h1).1, ?_⟩
        simp only [setCell]
        split_ifs
        · rfl
        · exact (n2 e h1).2
      · simp only [List.mem_singleton] at h1
        subst h1
        exact ⟨c1, setCell_same _ _ _ _⟩
    · intro k e hk
      by_cases hkl : k < s.queue.length
      · rw [List.get?_eq_getElem?, List.getElem?_append_left hkl, ← List.get?_eq_getElem?] at hk
        exact n3 k e hk
      · rw [List.get?_eq_getElem?, List.getElem?_append_right (by omega)] at hk
        have hk0 : k - s.queue.length = 0 := by
          by_contra hne
          have : [((x + dx.getD i 0, y + dy.getD i 0, (qf : Int)) : Int × Int × Int)][
            k - s.queue.length]? = none := by
            apply List.getElem?_eq_none
            simp only [List.length_singleton]
            omega
          rw [this] at hk
          exact Option.noConfusion hk
        rw [hk0] at hk
        simp only [List.getElem?_cons_zero, Option.some.injEq] at hk
        subst hk
        simp only
        omega
    · simp only [List.length_append, List.length_singleton]; omega
    · intro e he
      rcases List.mem_append.mp he with h1 | h1
      · exact hall e h1
      · simp only [List.mem_singleton] at h1
        subst h1
        apply hQ _ c1 c2
        simp only [entryCell]
        interval_cases i <;> simp [dx, dy] <;> omega
  · rw [if_neg hc]
    exact ⟨s, rfl, ⟨n1, n2, n3⟩, hq, hall⟩

/-- The copy of the parent chain into `path` neither runs out of iterations nor overruns
`path`; it appends cells of queue entries, the first of them the cell of the entry it
starts from. -/
theorem reconstructPath_spec (queue : List (Int × Int × Int))
    (hlen : queue.length ≤ 225)
    (hpar : ∀ (k : Nat) (e : Int × Int × Int), queue.get? k = some e → -1 ≤ e.2.2 ∧ e.2.2 < k) :
    ∀ (fuel : Nat) (current : Int) (path : List (Int × Int)),
      -1 ≤ current → current < queue.length → current + 2 ≤ fuel →
      (path.length : Int) + (current + 1) ≤ queue.length →
      ∃ rest, reconstructPath queue fuel current path = .ok (path ++ rest) ∧
        (∀ c ∈ rest, ∃ e ∈ queue, c = entryCell e) ∧
        (0 ≤ current → ∃ e, queue.get? current.toNat = some e ∧ rest.head? = some (entryCell e)) := by
  intro fuel
  induction fuel with
  | zero => intro current path h1 _ h3; omega
  | succ fuel ih =>
    intro current path h1 h2 h3 h4
    unfold reconstructPath
    by_cases hc : current = -1
    · rw [if_pos hc]
      exact ⟨[], by simp, by simp, by intro h; omega⟩
    · rw [if_neg hc]
      have hp : (path.length : Int) < GRID_WIDTH * GRID_HEIGHT := by
        simp only [GRID_WIDTH, GRID_HEIGHT]; omega
      rw [if_neg (not_not.mpr hp), if_neg (by omega)]
      have hlt : current.toNat < queue.length := by omega
      cases hq : queue.get? current.toNat with
      | none =>
        rw [List.get?_eq_getElem?, List.getElem?_eq_getElem hlt] at hq
        exact Option.noConfusion hq
      | some e =>
        obtain ⟨x, y, parent⟩ := e
        simp only
        obtain ⟨p1, p2⟩ := hpar _ _ hq
        simp only at p1 p2
        obtain ⟨rest, r1, r2, _⟩ := ih parent (path ++ [(x, y)]) p1 (by omega) (by omega)
          (by simp only [List.length_append, List.length_singleton]; push_cast; omega)
        refine ⟨(x, y) :: rest, ?_, ?_, ?_⟩
        · rw [r1]; simp
        · intro c hcm
          rcases List.mem_cons.mp hcm with e1 | e1
          · exact ⟨(x, y, parent), List.get?_mem hq, by rw [e1]; rfl⟩
          · exact r2 c e1
        · intro _
          exact ⟨(x, y, parent), rfl, rfl⟩

/-- The search loop ends without a fault; a path it returns starts with the exit cell and
consists of cells that have the property `Q`, whenever `Q` holds for the cells in the
queue and passes from a cell to its open cardinal neighbours in the grid. -/
theorem bfsLoop_spec (grid : Grid) (exitX exitY : Int) (Q : Int × Int → Prop)
    (hQ : ∀ a b : Int × Int, Q a → inGrid b.1 b.2 = true → grid b.2 b.1 = false →
      ((b.1 = a.1 ∧ (b.2 = a.2 - 1 ∨ b.2 = a.2 + 1)) ∨
        (b.2 = a.2 ∧ (b.1 = a.1 + 1 ∨ b.1 = a.1 - 1))) → Q b) :
    ∀ (fuel : Nat) (s : BfsState) (qf : Nat), BfsShape s → (∀ e ∈ s.queue, Q (entryCell e)) →
      qf ≤ s.queue.length → 226 ≤ fuel + qf →
      ∃ r, bfsLoop grid exitX exitY fuel s qf = .ok r ∧
        ∀ path, r = some path →
          path.head? = some (exitX, exitY) ∧ ∀ c ∈ path, Q c := by
  intro fuel
  induction fuel with
  | zero =>
    intro s qf hs _ hq hf
    have := nodup_cells_length_le (s.queue.map entryCell) hs.1
      (by
        intro p hp
        obtain ⟨e, he, rfl⟩ := List.mem_map.mp hp
        exact (hs.2.1 e he).1)
    rw [List.length_map] at this
    omega
  | succ fuel ih =>
    intro s qf hs hall hq hf
    have hlen := nodup_cells_length_le (s.queue.map entryCell) hs.1
      (by
        intro p hp
        obtain ⟨e, he, rfl⟩ := List.mem_map.mp hp
        exact (hs.2.1 e he).1)
    rw [List.length_map] at hlen
    unfold bfsLoop
    by_cases hlt : qf < s.queue.length
    · rw [if_pos hlt]
      cases hget : s.queue.get? qf with
      | none =>
        rw [List.get?_eq_getElem?, List.getElem?_eq_getElem hlt] at hget
        exact Option.noConfusion hget
      | some e =>
        obtain ⟨x, y, parent⟩ := e
        simp only
        have hmem : (x, y, parent) ∈ s.queue := List.get?_mem hget
        by_cases hex : x = exitX ∧ y = exitY
        · rw [if_pos hex]
          obtain ⟨rest, r1, r2, r3⟩ := reconstructPath_spec s.queue hlen hs.2.2
            (s.queue.length + 1) (qf : Int) [] (by omega) (by omega) (by push_cast; omega)
            (by simp only [List.length_nil]; push_cast; omega)
          rw [r1]
          refine ⟨some rest, rfl, ?_⟩
          intro path hpath
          simp only [List.nil_append, Option.some.injEq] at hpath
          subst hpath
          constructor
          · obtain ⟨e, he1, he2⟩ := r3 (by omega)
            simp only [Int.toNat_ofNat] at he1
            rw [hget] at he1
            simp only [Option.some.injEq] at he1
            subst he1
            rw [he2]
            simp only [entryCell, hex.1, hex.2]
          · intro c hc
            obtain ⟨e, he, rfl⟩ := r2 c hc
            exact hall e he
        · rw [if_neg hex]
          obtain ⟨s1, f1, f2, f3, f4⟩ := foldlM_except_inv
            (fun s i => if i < 4 then bfsNeighbor grid x y (qf : Int) s i else .ok s)
            (fun s => BfsShape s ∧ qf < s.queue.length ∧ ∀ e ∈ s.queue, Q (entryCell e))
            (by
              intro s0 i h0
              by_cases hi : i < 4
              · simp only [hi, if_true]
                exact bfsNeighbor_spec grid x y qf Q
                  (fun b b1 b2 b3 => hQ (x, y) b (hall (x, y, parent) hmem) b1 b2 b3) s0 i hi h0
              · simp only [hi, if_false]
                exact ⟨s0, rfl, h0⟩)
            (List.range 4) s ⟨hs, hlt, hall⟩
          have hfold : (List.range 4).foldlM (bfsNeighbor grid x y (qf : Int)) s = .ok s1 := by
            rw [← f1]
            rfl
          rw [hfold]
          simp only
          exact ih s1 (qf + 1) f2 f4 (by omega) (by omega)
    · rw [if_neg hlt]
      exact ⟨none, rfl, by intro path h; exact Option.noConfusion h⟩

/-! ## The path phase of collectible placement and `placeCoins` as a whole -/

theorem reversePath_spec (path : List (Int × Int)) :
    (reversePath path).length = path.length ∧ ∀ c ∈ reversePath path, c ∈ path := by
  unfold reversePath
  apply forLoop_invariant
    (fun p : List (Int × Int) => p.length = path.length ∧ ∀ c ∈ p, c ∈ path)
  · intro i p hi1 hi2 ⟨hl, hm⟩
    simp only
    have h2 : ((path.length / 2 : Nat) : Int) ≤ (path.length : Int) / 2 := by
      push_cast; exact le_refl _
    have ha : p.getD i.toNat (0, 0) ∈ path :=
      hm _ (getD_mem_or_lt p _ _ (by omega))
    have hb : p.getD (path.length - i.toNat - 1) (0, 0) ∈ path :=
      hm _ (getD_mem_or_lt p _ _ (by omega))
    refine ⟨by simp [hl], ?_⟩
    intro c hc
    rcases List.mem_or_eq_of_mem_set hc with h | h
    · rcases List.mem_or_eq_of_mem_set h with h1 | h1
      · exact hm c h1
      · rw [h1]; exact hb
    · rw [h]; exact ha
  · exact ⟨rfl, fun c hc => hc⟩

theorem placeOnPath_inv (P : Int × Int → Prop) (w2 : World) (k1 : Nat)
    (path : List (Int × Int)) (hpath : ∀ c ∈ path, P c) (interval : Nat) (i : Int)
    (s : World × Nat) (h : PathPhaseInv P w2 k1 s.1 s.2) :
    PathPhaseInv P w2 k1 (placeOnPath path interval i s).1 (placeOnPath path interval i s).2 := by
  obtain ⟨w, k⟩ := s
  obtain ⟨h1, h2, h3, h4, h5, h6, h7, h8, h9⟩ := h
  simp only at h1 h2 h3 h4 h5 h6 h7 h8 h9
  unfold placeOnPath
  simp only
  by_cases hk : k < w.totalCoins
  · rw [if_pos hk]
    by_cases hidx : i.toNat * interval < path.length
    · rw [if_pos hidx]
      by_cases hfree : isFree w.coins k (path.getD (i.toNat * interval) (0, 0)).1
          (path.getD (i.toNat * interval) (0, 0)).2 = true
      · rw [if_pos hfree]
        refine ⟨h1, h2, h3, h4, by omega, by rw [h4] at hk; omega, ?_, ?_, ?_⟩
        · intro j hj
          have e : j ≠ k := by omega
          simp only [World.putCoin, if_neg e]
          exact h7 j hj
        · intro j hj1 hj2
          by_cases e : j = k
          · subst e
            simp only [World.putCoin, if_true, true_and]
            exact hpath _ (getD_mem_or_lt path _ _ hidx)
          · simp only [World.putCoin, if_neg e]
            exact h8 j hj1 (by omega)
        · intro j hj
          have e : j ≠ k := by omega
          simp only [World.putCoin, if_neg e]
          exact h9 j (by omega)
      · rw [if_neg hfree]
        exact ⟨h1, h2, h3, h4, h5, h6, h7, h8, h9⟩
    · rw [if_neg hidx]
      exact ⟨h1, h2, h3, h4, h5, h6, h7, h8, h9⟩
  · rw [if_neg hk]
    exact ⟨h1, h2, h3, h4, h5, h6, h7, h8, h9⟩

theorem placeAlongPath_inv (P : Int × Int → Prop) (w2 : World) (k1 : Nat)
    (path : List (Int × Int)) (hpath : ∀ c ∈ path, P c) (hk : k1 ≤ w2.totalCoins) :
    PathPhaseInv P w2 k1 (placeAlongPath path w2 k1).1 (placeAlongPath path w2 k1).2 := by
  have h0 : PathPhaseInv P w2 k1 w2 k1 :=
    ⟨rfl, rfl, rfl, rfl, le_refl _, hk, fun _ _ => rfl, by intro i a b; omega, fun _ _ => rfl⟩
  unfold placeAlongPath
  by_cases h1 : path.length > 0
  · rw [if_pos h1]
    simp only
    by_cases h2 : w2.totalCoins - k1 > 0 ∧ (reversePath path).length > 4
    · rw [if_pos h2]
      apply forLoop_invariant (fun s : World × Nat => PathPhaseInv P w2 k1 s.1 s.2)
      · intro i s _ _ hs
        exact placeOnPath_inv P w2 k1 _ (fun c hc => hpath c ((reversePath_spec path).2 c hc))
          _ i s hs
      · exact h0
    · rw [if_neg h2]
      exact h0
  · rw [if_neg h1]
    exact h0

/-- The function `placeCoins` always returns.  In the state it leaves, the grid and the
exit are unchanged; `k1` collectibles were placed by the randomized phase and keep its
guarantees; the collectibles from `k1` to `totalCoins - 1` were placed on the path of the
search and, when the start cell is open, sit on cells linked with `(1,1)`, as the exit
cell is; `totalCoins` does not exceed the target and the entries from `totalCoins` on are
inactive. -/
theorem placeCoins_spec (M : FloatModel) (w : World) :
    ∃ w1 k1, placeCoins M w = .ok w1 ∧
      w1.spaceMap = w.spaceMap ∧ w1.exitX = w.exitX ∧ w1.exitY = w.exitY ∧
      k1 = (randomCoinLoop M 200
        ({ w with totalCoins := targetCoins w.currentDifficulty }).resetCoins 0).2 ∧
      k1 ≤ w1.totalCoins ∧ w1.totalCoins ≤ targetCoins w.currentDifficulty ∧
      (∀ i, i < k1 → (w1.coins i).active = true ∧
        distSq (w1.coins i).x (w1.coins i).y 1 1 > 2 ^ 2 ∧
        distSq (w1.coins i).x (w1.coins i).y w.exitX w.exitY > 2 ^ 2 ∧
        pathfindAStar M w.spaceMap 1 1 (w1.coins i).x (w1.coins i).y = true ∧
        pathfindAStar M w.spaceMap (w1.coins i).x (w1.coins i).y w.exitX w.exitY = true) ∧
      (∀ i j, i < j → j < k1 →
        distSq (w1.coins j).x (w1.coins j).y (w1.coins i).x (w1.coins i).y ≥ 3 ^ 2) ∧
      (∀ i, k1 ≤ i → i < w1.totalCoins → (w1.coins i).active = true ∧
        (w.spaceMap 1 1 = false →
          LinkedToStart w.spaceMap ((w1.coins i).x, (w1.coins i).y) ∧
          LinkedToStart w.spaceMap (w.exitX, w.exitY))) ∧
      (∀ i, w1.totalCoins ≤ i → i < MAX_COINS → (w1.coins i).active = false) := by
  rcases hr : randomCoinLoop M 200
    ({ w with totalCoins := targetCoins w.currentDifficulty }).resetCoins 0 with ⟨w2, k1⟩
  obtain ⟨⟨a1, a2, a3, a4, a5, a6, a7⟩, _, a9⟩ := randomCoinLoop_inv M
    ({ w with totalCoins := targetCoins w.currentDifficulty }).resetCoins 200
    ({ w with totalCoins := targetCoins w.currentDifficulty }).resetCoins 0
    ⟨rfl, rfl, rfl, rfl, by intro i hi; omega, by intro i j _ hj; omega, fun _ _ => rfl⟩
  rw [hr] at a1 a2 a3 a4 a5 a6 a7 a9
  simp only [World.resetCoins] at a1 a2 a3 a4 a5 a6 a7 a9
  have hk1 : k1 ≤ targetCoins w.currentDifficulty := by
    rcases a9 with h | h
    · exact h
    · rw [h]; exact Nat.zero_le _
  have hinact : ∀ i, k1 ≤ i → i < MAX_COINS → (w2.coins i).active = false := by
    intro i hi1 hi2
    rw [a7 i hi1]
    simp [hi2]
  unfold placeCoins
  simp only [hr]
  by_cases hlt : k1 < w2.totalCoins
  · rw [if_pos hlt]
    obtain ⟨r, hbfs, hprop⟩ := bfsLoop_spec w2.spaceMap w2.exitX w2.exitY
      (fun c => w2.spaceMap 1 1 = false → LinkedToStart w2.spaceMap c)
      (by
        intro a b ha b1 b2 b3 hstart
        obtain ⟨l1, l2, l3, l4⟩ := ha hstart
        have hba : (a.1 = b.1 ∧ (a.2 = b.2 - 1 ∨ a.2 = b.2 + 1)) ∨
            (a.2 = b.2 ∧ (a.1 = b.1 + 1 ∨ a.1 = b.1 - 1)) := by omega
        exact ⟨b1, b2, l3.trans (cardinal_step_conn _ a b b1 b2 b3),
          (cardinal_step_conn _ b a l1 l2 hba).trans l4⟩)
      bfsFuel { queue := [(1, 1, -1)], visited := setCell clearGrid 1 1 true } 0
      (by
        refine ⟨by simp, ?_, ?_⟩
        · intro e he
          simp only [List.mem_singleton] at he
          subst he
          exact ⟨by decide, by simp [setCell]⟩
        · intro k e hk
          cases k with
          | zero =>
            simp only [List.get?_cons_zero, Option.some.injEq] at hk
            subst hk
            simp
          | succ k => simp at hk)
      (by
        intro e he hstart
        simp only [List.mem_singleton] at he
        subst he
        exact ⟨by decide, hstart, Conn.here rfl, Conn.here rfl⟩)
      (by simp) (by simp [bfsFuel])
    rw [hbfs]
    cases r with
    | none =>
      simp only
      refine ⟨_, k1, rfl, a1, a2, a3, rfl, le_refl _, hk1, ?_, a6, ?_, hinact⟩
      · intro i hi
        exact a5 i hi
      · intro i h1 h2
        simp only at h2
        omega
    | some path =>
      simp only
      obtain ⟨hhead, hcells⟩ := hprop path rfl
      have hexit : (w2.exitX, w2.exitY) ∈ path := by
        cases path with
        | nil => simp at hhead
        | cons c t =>
          simp only [List.head?_cons, Option.some.injEq] at hhead
          rw [hhead]
          exact List.mem_cons_self _ _
      obtain ⟨p1, p2, p3, p4, p5, p6, p7, p8, p9⟩ := placeAlongPath_inv
        (fun c => w2.spaceMap 1 1 = false →
          LinkedToStart w2.spaceMap c ∧ LinkedToStart w2.spaceMap (w2.exitX, w2.exitY))
        w2 k1 path
        (fun c hc hstart => ⟨hcells c hc hstart, hcells _ hexit hstart⟩) (le_of_lt hlt)
      rcases hpl : placeAlongPath path w2 k1 with ⟨w3, k3⟩
      rw [hpl] at p1 p2 p3 p4 p5 p6 p7 p8 p9
      simp only at p1 p2 p3 p4 p5 p6 p7 p8 p9
      rw [a4] at p6
      refine ⟨_, k1, rfl, by rw [← a1]; exact p1, by rw [← a2]; exact p2,
        by rw [← a3]; exact p3, rfl, p5, p6, ?_, ?_, ?_, ?_⟩
      · intro i hi
        simp only
        rw [p7 i hi]
        exact a5 i hi
      · intro i j hij hj
        simp only
        rw [p7 i (by omega), p7 j hj]
        exact a6 i j hij hj
      · intro i h1 h2
        simp only at h2 ⊢
        obtain ⟨q1, q2⟩ := p8 i h1 h2
        refine ⟨q1, ?_⟩
        intro hstart
        rw [a1, a2, a3] at q2
        exact q2 hstart
      · intro i h1 h2
        simp only at h1 ⊢
        rw [p9 i h1]
        exact hinact i (by omega) h2
  · rw [if_neg hlt]
    refine ⟨_, k1, rfl, a1, a2, a3, rfl, le_refl _, hk1, ?_, a6, ?_, hinact⟩
    · intro i hi
      exact a5 i hi
    · intro i h1 h2
      simp only at h2
      omega

/-! ## Consequences for the collectibles and for the orchestrator -/

theorem Reach.goal_open {grid : Grid} {s c : Int × Int} (h : Reach grid s c) :
    cellOpen grid c = true := by
  cases h with
  | start h0 => exact h0
  | step _ _ h0 => exact h0

theorem pathfindAStar_true_goal_open (M : FloatModel) (grid : Grid)
    (startX startY goalX goalY : Int)
    (h : pathfindAStar M grid startX startY goalX goalY = true) :
    inGrid goalX goalY = true ∧ grid goalY goalX = false := by
  have := (pathfindAStar_sound M grid startX startY goalX goalY h).goal_open
  simpa [cellOpen] using this

/-- A cell linked with `(1,1)` is reached by the pathfinder from `(1,1)`, and reaches
every other such cell. -/
theorem LinkedToStart.pathfind (M : FloatModel) (grid : Grid) (c e : Int × Int)
    (hstart : grid 1 1 = false) (hc : LinkedToStart grid c) (he : LinkedToStart grid e) :
    pathfindAStar M grid 1 1 c.1 c.2 = true ∧ pathfindAStar M grid c.1 c.2 e.1 e.2 = true := by
  obtain ⟨c1, c2, c3, c4⟩ := hc
  obtain ⟨e1, e2, e3, _⟩ := he
  exact ⟨pathfindAStar_complete M grid 1 1 c.1 c.2 (by decide) c3 hstart c1 c2,
    pathfindAStar_complete M grid c.1 c.2 e.1 e.2 c1 (c4.trans e3) c2 e1 e2⟩

theorem attemptWorld_eq (M : FloatModel) (w : World) :
    placeCoins M (findValidExit (generateRandomMap w)) = .ok (attemptWorld M w) := by
  obtain ⟨w1, _, h, _⟩ := placeCoins_spec M (findValidExit (generateRandomMap w))
  unfold attemptWorld
  rw [h]

/-- The attempts of `generateEnvironment`, `n` of them left: the first one whose level
passes verification is returned, and if none does the fallback runs on the state after
`n` attempts. -/
theorem attemptLoop_cases (M : FloatModel) :
    ∀ (n : Nat) (w : World),
      (∃ k, k < n ∧ (∀ j, j < k → verifyAllPathsExist M (afterAttempts M (j + 1) w) = false) ∧
        verifyAllPathsExist M (afterAttempts M (k + 1) w) = true ∧
        attemptLoop M n w = .ok { afterAttempts M (k + 1) w with pathExists := true }) ∨
      ((∀ j, j < n → verifyAllPathsExist M (afterAttempts M (j + 1) w) = false) ∧
        attemptLoop M n w = createGuaranteedPath (afterAttempts M n w)) := by
  intro n
  induction n with
  | zero =>
    intro w
    right
    exact ⟨by intro j hj; omega, rfl⟩
  | succ n ih =>
    intro w
    rw [attemptLoop_succ, attemptWorld_eq]
    simp only
    by_cases hv : verifyAllPathsExist M (attemptWorld M w) = true
    · left
      rw [if_pos hv]
      exact ⟨0, by omega, by intro j hj; omega, hv, rfl⟩
    · rw [if_neg hv]
      have hv2 : verifyAllPathsExist M (attemptWorld M w) = false := by
        simpa using hv
      rcases ih (attemptWorld M w) with ⟨k, hk, h1, h2, h3⟩ | ⟨h1, h2⟩
      · left
        refine ⟨k + 1, by omega, ?_, h2, h3⟩
        intro j hj
        cases j with
        | zero => exact hv2
        | succ j => exact h1 j (by omega)
      · right
        refine ⟨?_, h2⟩
        intro j hj
        cases j with
        | zero => exact hv2
        | succ j => exact h1 j (by omega)

theorem afterAttempts_succ (M : FloatModel) :
    ∀ (n : Nat) (w : World),
      afterAttempts M (n + 1) w = attemptWorld M (afterAttempts M n w) := by
  intro n
  induction n with
  | zero => intro w; rfl
  | succ n ih => intro w; exact ih (attemptWorld M w)

/-! ## The exit draw -/

theorem exitCandidate_far (d : DifficultyLevel) (r1 r2 : Nat) :
    distSq (exitCandidate r1 r2).1 (exitCandidate r1 r2).2 1 1 > minDistance d ^ 2 := by
  obtain ⟨h1, h2, h3, h4⟩ := exitCandidate_range r1 r2
  have h72 : (72 : Int) ≤ distSq (exitCandidate r1 r2).1 (exitCandidate r1 r2).2 1 1 := by
    unfold distSq; nlinarith
  have : minDistance d ^ 2 ≤ 49 := by cases d <;> simp [minDistance, GRID_WIDTH]
  omega

/-- The loop of `findValidExit` with a threshold that no candidate fails: it returns the
first drawn candidate whose cell is open, and nothing when all `n` are blocked. -/
theorem findExitLoop_first_open (d : DifficultyLevel) :
    ∀ (n : Nat) (w : World),
      (∀ k, k < n → w.spaceMap (exitDraw w k).2 (exitDraw w k).1 = false →
        (∀ j, j < k → w.spaceMap (exitDraw w j).2 (exitDraw w j).1 = true) →
        (findExitLoop (minDistance d) n w).1 = some (exitDraw w k) ∧
        (findExitLoop (minDistance d) n w).2.randPos = w.randPos + 2 * (k + 1)) ∧
      ((∀ j, j < n → w.spaceMap (exitDraw w j).2 (exitDraw w j).1 = true) →
        (findExitLoop (minDistance d) n w).1 = none ∧
        (findExitLoop (minDistance d) n w).2.randPos = w.randPos + 2 * n) := by
  intro n
  induction n with
  | zero =>
    intro w
    exact ⟨by intro k hk; omega, fun _ => ⟨rfl, rfl⟩⟩
  | succ n ih =>
    intro w
    have hshift : ∀ k, exitDraw { w with randPos := w.randPos + 1 + 1 } k = exitDraw w (k + 1) := by
      intro k
      simp only [exitDraw]
      have e1 : w.randPos + 1 + 1 + 2 * k = w.randPos + 2 * (k + 1) := by ring
      rw [e1]
    have h0 : exitCandidate (w.rand w.randPos) (w.rand (w.randPos + 1)) = exitDraw w 0 := by
      simp [exitDraw]
    obtain ⟨ih1, ih2⟩ := ih { w with randPos := w.randPos + 1 + 1 }
    rw [findExitLoop_succ, h0]
    constructor
    · intro k hk hopen hblocked
      cases k with
      | zero =>
        rw [if_pos ⟨hopen, exitCandidate_far d _ _⟩]
        exact ⟨rfl, by show w.randPos + 1 + 1 = _; omega⟩
      | succ k =>
        have hb0 := hblocked 0 (by omega)
        have hne : ¬ (({ w with randPos := w.randPos + 1 + 1 } : World).spaceMap
            (exitDraw w 0).2 (exitDraw w 0).1 = false ∧
            distSq (exitDraw w 0).1 (exitDraw w 0).2 1 1 > minDistance d ^ 2) := by
          intro h
          have := h.1
          simp only at this
          rw [hb0] at this
          exact absurd this (by decide)
        rw [if_neg hne]
        have := ih1 k (by omega) (by rw [hshift]; exact hopen)
          (by intro j hj; rw [hshift]; exact hblocked (j + 1) (by omega))
        rw [hshift] at this
        refine ⟨this.1, ?_⟩
        rw [this.2]
        simp only
        omega
    · intro hblocked
      have hb0 := hblocked 0 (by omega)
      have hne : ¬ (({ w with randPos := w.randPos + 1 + 1 } : World).spaceMap
          (exitDraw w 0).2 (exitDraw w 0).1 = false ∧
          distSq (exitDraw w 0).1 (exitDraw w 0).2 1 1 > minDistance d ^ 2) := by
        intro h
        have := h.1
        simp only at this
        rw [hb0] at this
        exact absurd this (by decide)
      rw [if_neg hne]
      have := ih2 (by intro j hj; rw [hshift]; exact hblocked (j + 1) (by omega))
      refine ⟨this.1, ?_⟩
      rw [this.2]
      simp only
      omega

/-! ## Four-connectivity is what the pathfinder decides -/

theorem FourConn.goal_is_open {grid : Grid} {s c : Int × Int} (h : FourConn grid s c) :
    cellOpen grid c = true := by
  cases h with
  | start h0 => exact h0
  | step _ _ h0 => exact h0

theorem FourConn.start_is_open {grid : Grid} {s c : Int × Int} (h : FourConn grid s c) :
    cellOpen grid s = true := by
  induction h with
  | start h0 => exact h0
  | step _ _ _ ih => exact ih

theorem FourConn.transitive {grid : Grid} {a b c : Int × Int} (h1 : FourConn grid a b)
    (h2 : FourConn grid b c) : FourConn grid a c := by
  induction h2 with
  | start _ => exact h1
  | step _ hs ho ih => exact FourConn.step ih hs ho

theorem cardinalStep_symm (a b : Int × Int) (h : cardinalStep a b = true) :
    cardinalStep b a = true := by
  simp only [cardinalStep, decide_eq_true_eq] at h ⊢
  omega

theorem FourConn.symmetric {grid : Grid} {s c : Int × Int} (h : FourConn grid s c) :
    FourConn grid c s := by
  induction h with
  | start h0 => exact FourConn.start h0
  | step hsa hs ho ih =>
    exact FourConn.transitive (FourConn.step (FourConn.start ho) (cardinalStep_symm _ _ hs)
      hsa.goal_is_open) ih

/-- A legal step between open cells joins cells that cardinal steps through open cells
join: a diagonal step has one of its two corner cells open. -/
theorem legalStep_fourConn (grid : Grid) (a b : Int × Int) (ha : cellOpen grid a = true)
    (hb : cellOpen grid b = true) (hs : legalStep grid a b = true) : FourConn grid a b := by
  obtain ⟨a1, a2⟩ := a
  obtain ⟨b1, b2⟩ := b
  simp only [legalStep, decide_eq_true_eq, ne_eq, Prod.mk.injEq] at hs
  obtain ⟨hne, h1, h2, hd⟩ := hs
  have ha0 := ha
  have hb0 := hb
  simp only [cellOpen, inGrid, GRID_WIDTH, GRID_HEIGHT, Bool.and_eq_true, decide_eq_true_eq,
    Bool.not_eq_true'] at ha hb
  by_cases hx : b1 = a1
  · refine FourConn.step (FourConn.start ha0) ?_ hb0
    simp only [cardinalStep, decide_eq_true_eq]
    have : b2 ≠ a2 := fun h => hne ⟨hx.symm, h.symm⟩
    omega
  · by_cases hy : b2 = a2
    · refine FourConn.step (FourConn.start ha0) ?_ hb0
      simp only [cardinalStep, decide_eq_true_eq]
      omega
    · have hcorner := hd ⟨hx, hy⟩
      by_cases hc : grid a2 b1 = true
      · have hc2 : grid b2 a1 = false := by
          cases h : grid b2 a1 with
          | false => rfl
          | true => exact absurd ⟨hc, h⟩ hcorner
        have hmid : cellOpen grid (a1, b2) = true := by
          simp only [cellOpen, inGrid, GRID_WIDTH, GRID_HEIGHT, Bool.and_eq_true,
            decide_eq_true_eq, Bool.not_eq_true']
          exact ⟨⟨ha.1.1, ha.1.2.1, hb.1.2.2.1, hb.1.2.2.2⟩, hc2⟩
        refine FourConn.step (FourConn.step (FourConn.start ha0) ?_ hmid) ?_ hb0
        · simp only [cardinalStep, decide_eq_true_eq, true_and]; omega
        · simp only [cardinalStep, decide_eq_true_eq, true_and]; omega
      · have hc1 : grid a2 b1 = false := by simpa using hc
        have hmid : cellOpen grid (b1, a2) = true := by
          simp only [cellOpen, inGrid, GRID_WIDTH, GRID_HEIGHT, Bool.and_eq_true,
            decide_eq_true_eq, Bool.not_eq_true']
          exact ⟨⟨hb.1.1, hb.1.2.1, ha.1.2.2.1, ha.1.2.2.2⟩, hc1⟩
        refine FourConn.step (FourConn.step (FourConn.start ha0) ?_ hmid) ?_ hb0
        · simp only [cardinalStep, decide_eq_true_eq, true_and]; omega
        · simp only [cardinalStep, decide_eq_true_eq, true_and]; omega

theorem Reach.fourConn {grid : Grid} {s c : Int × Int} (h : Reach grid s c) :
    FourConn grid s c := by
  induction h with
  | start h0 => exact FourConn.start h0
  | step hsa hs ho ih => exact FourConn.transitive ih (legalStep_fourConn grid _ _ ih.goal_is_open ho hs)

theorem FourConn.conn {grid : Grid} {s c : Int × Int} (h : FourConn grid s c) :
    Conn grid clearGrid c s := by
  induction h with
  | start _ => exact Conn.here rfl
  | @step a b _ hs ho ih =>
    have hb : inGrid b.1 b.2 = true ∧ grid b.2 b.1 = false := by
      simpa [cellOpen] using ho
    have hadj : (b.1 = a.1 ∧ (b.2 = a.2 - 1 ∨ b.2 = a.2 + 1)) ∨
        (b.2 = a.2 ∧ (b.1 = a.1 + 1 ∨ b.1 = a.1 - 1)) := by
      simpa [cardinalStep] using hs
    exact Conn.trans ih (cardinal_step_conn grid a b hb.1 hb.2 hadj)

/-- The pathfinder answers true exactly for the pairs of cells that cardinal steps through
open cells join. -/
theorem pathfindAStar_iff_fourConn (M : FloatModel) (grid : Grid) (sx sy gx gy : Int) :
    pathfindAStar M grid sx sy gx gy = true ↔ FourConn grid (sx, sy) (gx, gy) := by
  constructor
  · intro h
    exact (pathfindAStar_sound M grid sx sy gx gy h).fourConn
  · intro h
    have hs : inGrid sx sy = true ∧ grid sy sx = false := by
      simpa [cellOpen] using h.start_is_open
    have hg : inGrid gx gy = true ∧ grid gy gx = false := by
      simpa [cellOpen] using h.goal_is_open
    exact pathfindAStar_complete M grid sx sy gx gy hs.1 h.conn hs.2 hg.1 hg.2

theorem cardinalPath_concat (grid : Grid) (path : List (Int × Int)) (a b : Int × Int)
    (hp : cardinalPath grid path = true) (hl : path.getLast? = some a)
    (hs : cardinalStep a b = true) (hb : cellOpen grid b = true) :
    cardinalPath grid (path ++ [b]) = true := by
  induction path with
  | nil => simp at hl
  | cons c t ih =>
    cases t with
    | nil =>
      simp only [List.getLast?_singleton, Option.some.injEq] at hl
      subst hl
      simp only [cardinalPath] at hp
      simp [cardinalPath, hp, hs, hb]
    | cons d r =>
      simp only [cardinalPath, Bool.and_eq_true] at hp
      have hl1 : (d :: r).getLast? = some a := by
        rw [List.getLast?_cons_cons] at hl
        exact hl
      have := ih hp.2 hl1
      simp only [List.cons_append, cardinalPath, Bool.and_eq_true]
      exact ⟨hp.1, by simpa using this⟩

theorem FourConn.exists_cardinal_path {grid : Grid} {s c : Int × Int} (h : FourConn grid s c) :
    ∃ path : List (Int × Int), path.head? = some s ∧ path.getLast? = some c ∧
      cardinalPath grid path = true := by
  induction h with
  | start ho => exact ⟨[s], rfl, rfl, by simpa [cardinalPath] using ho⟩
  | step _ hs hb ih =>
    obtain ⟨path, h1, h2, h3⟩ := ih
    refine ⟨path ++ [_], ?_, by simp, cardinalPath_concat grid path _ _ h3 h2 hs hb⟩
    cases path with
    | nil => simp at h1
    | cons a t => simpa using h1

theorem fourConn_of_path (grid : Grid) :
    ∀ (path : List (Int × Int)) (s c : Int × Int), path.head? = some s →
      path.getLast? = some c → cardinalPath grid path = true → FourConn grid s c := by
  intro path
  induction path with
  | nil => intro s c h; simp at h
  | cons a t ih =>
    intro s c h1 h2 h3
    simp only [List.head?_cons, Option.some.injEq] at h1
    subst h1
    cases t with
    | nil =>
      simp only [List.getLast?_singleton, Option.some.injEq] at h2
      subst h2
      exact FourConn.start (by simpa [cardinalPath] using h3)
    | cons b r =>
      simp only [cardinalPath, Bool.and_eq_true] at h3
      rw [List.getLast?_cons_cons] at h2
      have hbc := ih b c rfl h2 h3.2
      exact FourConn.transitive (FourConn.step (FourConn.start h3.1.1) h3.1.2 hbc.start_is_open) hbc

/-! ## The passes of the pathfinder's loop -/

theorem aStarTrace_result (M : FloatModel) (grid : Grid) (goalX goalY : Int) :
    ∀ (fuel : Nat) (openSet : List (Node M.F)) (closedSet : Grid),
      (aStarTrace M grid goalX goalY fuel openSet closedSet).map Prod.fst
        = aStarLoop M grid goalX goalY fuel openSet closedSet := by
  intro fuel
  induction fuel with
  | zero => intro _ _; rfl
  | succ fuel ih =>
    intro openSet closedSet
    cases openSet with
    | nil => rfl
    | cons first rest =>
      unfold aStarTrace aStarLoop
      simp only
      split_ifs with hgoal
      · rfl
      · rw [← ih]
        cases aStarTrace M grid goalX goalY fuel _ _ with
        | none => rfl
        | some r => rfl

theorem aStarTrace_more_fuel (M : FloatModel) (grid : Grid) (goalX goalY : Int) :
    ∀ (fuel : Nat) (openSet : List (Node M.F)) (closedSet : Grid)
      (r : Bool × List (Iteration M.F)),
      aStarTrace M grid goalX goalY fuel openSet closedSet = some r →
      aStarTrace M grid goalX goalY (fuel + 1) openSet closedSet = some r := by
  intro fuel
  induction fuel with
  | zero => intro _ _ r h; simp [aStarTrace] at h
  | succ fuel ih =>
    intro openSet closedSet r h
    cases openSet with
    | nil => simpa [aStarTrace] using h
    | cons first rest =>
      unfold aStarTrace at h ⊢
      simp only at h ⊢
      split_ifs at h ⊢ with hgoal
      · exact h
      · cases hrec : aStarTrace M grid goalX goalY fuel
            (expandAll M grid
              (setCell closedSet ((first :: rest).getD (lowestIndex M (first :: rest)) first).posY
                ((first :: rest).getD (lowestIndex M (first :: rest)) first).posX true)
              goalX goalY ((first :: rest).getD (lowestIndex M (first :: rest)) first)
              (removeAt (first :: rest) (lowestIndex M (first :: rest))))
            (setCell closedSet ((first :: rest).getD (lowestIndex M (first :: rest)) first).posY
              ((first :: rest).getD (lowestIndex M (first :: rest)) first).posX true) with
        | none => rw [hrec] at h; simp at h
        | some r1 =>
          rw [hrec] at h
          rw [ih _ _ r1 hrec]
          exact h

theorem aStarTrace_fuel_le (M : FloatModel) (grid : Grid) (goalX goalY : Int)
    (fuel1 fuel2 : Nat) (hle : fuel1 ≤ fuel2) (openSet : List (Node M.F)) (closedSet : Grid)
    (r : Bool × List (Iteration M.F))
    (h : aStarTrace M grid goalX goalY fuel1 openSet closedSet = some r) :
    aStarTrace M grid goalX goalY fuel2 openSet closedSet = some r := by
  induction hle with
  | refl => exact h
  | step _ ih => exact aStarTrace_more_fuel M grid goalX goalY _ _ _ _ ih

theorem openSetAtPass_OpenInv (M : FloatModel) (grid closedSet : Grid) (goalX goalY : Int)
    (current : Node M.F) (openSet1 : List (Node M.F)) (h : OpenInv openSet1 closedSet)
    (i : Nat) :
    OpenInv (openSetAtPass M grid closedSet goalX goalY current openSet1 i) closedSet := by
  unfold openSetAtPass
  have key : ∀ (l : List Nat) (os : List (Node M.F)), OpenInv os closedSet →
      OpenInv (l.foldl (expandNeighbor M grid closedSet goalX goalY current) os) closedSet := by
    intro l
    induction l with
    | nil => intro os hos; exact hos
    | cons j t ih =>
      intro os hos
      exact ih _ (expandNeighbor_OpenInv M grid closedSet goalX goalY current os j hos)
  exact key _ _ h

theorem pass_within_capacity (M : FloatModel) (grid : Grid) (goalX goalY : Int)
    (first : Node M.F) (rest : List (Node M.F)) (closedSet : Grid)
    (hinv : OpenInv (first :: rest) closedSet) :
    PassWithinCapacity M grid goalX goalY
      { openSet := first :: rest, closedSet := closedSet,
        current := (first :: rest).getD (lowestIndex M (first :: rest)) first } := by
  obtain ⟨hg, hc, hpop, _⟩ := OpenInv_pop M first rest closedSet hinv
  have hlt := lowestIndex_lt M first rest
  refine ⟨?_, hinv, ?_, ?_⟩
  · simp only
    rw [List.getD_eq_getElem _ _ hlt, List.get?_eq_get hlt]
    rfl
  · have := hinv.length_le
    have := unclosedCount_le closedSet
    simp only
    omega
  · intro _ i _
    simp only
    have hi := openSetAtPass_OpenInv M grid _ goalX goalY
      ((first :: rest).getD (lowestIndex M (first :: rest)) first) _ hpop i
    have h1 := hi.length_le
    have h2 := unclosedCount_setCell_lt closedSet _ _ hg hc
    have h3 := unclosedCount_le closedSet
    refine ⟨hi, by omega, ?_⟩
    unfold guardDiscards
    have : decide (((openSetAtPass M grid
        (setCell closedSet ((first :: rest).getD (lowestIndex M (first :: rest)) first).posY
          ((first :: rest).getD (lowestIndex M (first :: rest)) first).posX true) goalX goalY
        ((first :: rest).getD (lowestIndex M (first :: rest)) first)
        (removeAt (first :: rest) (lowestIndex M (first :: rest))) i).length : Int)
        < GRID_WIDTH * GRID_HEIGHT) = true := by
      simp only [decide_eq_true_eq, GRID_WIDTH, GRID_HEIGHT]
      omega
    rw [this]
    simp

/-- The run of the loop of `pathfindAStar` from a state in which the open set holds each
position once and no closed cell: it ends, after at most as many passes as there are
cells not closed; no two passes take out the same cell; it answers true exactly when a
pass takes out the goal, which is then the last pass. -/
theorem aStarTrace_spec (M : FloatModel) (grid : Grid) (goalX goalY : Int) :
    ∀ (fuel : Nat) (openSet : List (Node M.F)) (closedSet : Grid),
      OpenInv openSet closedSet → unclosedCount closedSet < fuel →
      ∃ (b : Bool) (passes : List (Iteration M.F)),
        aStarTrace M grid goalX goalY fuel openSet closedSet = some (b, passes) ∧
        passes.length ≤ unclosedCount closedSet ∧
        (∀ pass ∈ passes, inGrid pass.current.posX pass.current.posY = true ∧
          closedSet pass.current.posY pass.current.posX = false) ∧
        (passes.map (fun pass => nodePos pass.current)).Nodup ∧
        (b = true → ∃ last, passes.getLast? = some last ∧ nodePos last.current = (goalX, goalY)) ∧
        (b = false → ∀ pass ∈ passes, nodePos pass.current ≠ (goalX, goalY)) ∧
        (∀ pass ∈ passes.dropLast, nodePos pass.current ≠ (goalX, goalY)) ∧
        ∀ pass ∈ passes, PassWithinCapacity M grid goalX goalY pass := by
  intro fuel
  induction fuel with
  | zero => intro _ _ _ h; omega
  | succ fuel ih =>
    intro openSet closedSet hinv hm
    cases openSet with
    | nil =>
      refine ⟨false, [], rfl, by simp, by simp, by simp, by simp, by simp, by simp, by simp⟩
    | cons first rest =>
      obtain ⟨hg, hc, hnext⟩ := OpenInv_step M grid goalX goalY first rest closedSet hinv
      have hpass := pass_within_capacity M grid goalX goalY first rest closedSet hinv
      have hlt := unclosedCount_setCell_lt closedSet _ _ hg hc
      unfold aStarTrace
      simp only
      split_ifs with hgoal
      · refine ⟨true, _, rfl, ?_, ?_, by simp, ?_, by simp, by simp, ?_⟩
        · simp only [List.length_singleton]; omega
        · intro pass hp
          simp only [List.mem_singleton] at hp
          subst hp
          exact ⟨hg, hc⟩
        · intro _
          refine ⟨Iteration.mk (first :: rest) closedSet
            ((first :: rest).getD (lowestIndex M (first :: rest)) first), rfl, ?_⟩
          simp only [nodePos]
          rw [hgoal.1, hgoal.2]
        · intro pass hp
          simp only [List.mem_singleton] at hp
          subst hp
          exact hpass
      · obtain ⟨b, passes, e, r1, r2, r3, r4, r5, r6, r7⟩ := ih _ _ hnext (by omega)
        rw [e]
        simp only
        have hcur : nodePos ((first :: rest).getD (lowestIndex M (first :: rest)) first)
            ≠ (goalX, goalY) := by
          intro h
          simp only [nodePos, Prod.mk.injEq] at h
          exact hgoal h
        refine ⟨b, _, rfl, ?_, ?_, ?_, ?_, ?_, ?_, ?_⟩
        · simp only [List.length_cons]; omega
        · intro pass hp
          rcases List.mem_cons.mp hp with rfl | hp
          · exact ⟨hg, hc⟩
          · obtain ⟨q1, q2⟩ := r2 pass hp
            refine ⟨q1, ?_⟩
            by_contra hne
            have hcl : closedSet pass.current.posY pass.current.posX = true := by
              simpa using hne
            have : setCell closedSet
                ((first :: rest).getD (lowestIndex M (first :: rest)) first).posY
                ((first :: rest).getD (lowestIndex M (first :: rest)) first).posX true
                pass.current.posY pass.current.posX = true := by
              unfold setCell
              split_ifs
              · rfl
              · exact hcl
            rw [this] at q2
            exact absurd q2 (by decide)
        · simp only [List.map_cons, List.nodup_cons]
          refine ⟨?_, r3⟩
          intro hmem
          obtain ⟨pass, hp, he⟩ := List.mem_map.mp hmem
          have q2 := (r2 pass hp).2
          simp only [nodePos, Prod.mk.injEq] at he
          rw [he.1, he.2, setCell_same] at q2
          exact absurd q2 (by decide)
        · intro hb
          obtain ⟨last, hl, hp⟩ := r4 hb
          refine ⟨last, ?_, hp⟩
          cases passes with
          | nil => simp at hl
          | cons p ps => rw [List.getLast?_cons_cons]; exact hl
        · intro hb pass hp
          rcases List.mem_cons.mp hp with rfl | hp
          · exact hcur
          · exact r5 hb pass hp
        · intro pass hp
          cases passes with
          | nil => simp at hp
          | cons p ps =>
            rw [List.dropLast_cons₂] at hp
            rcases List.mem_cons.mp hp with rfl | hp
            · exact hcur
            · exact r6 pass hp
        · intro pass hp
          rcases List.mem_cons.mp hp with rfl | hp
          · exact hpass
          · exact r7 pass hp

/-- The run of `pathfindAStar` with any bound of at least `searchFuel` on its loop: the
result is that of `pathfindAStar`, with the facts of `aStarTrace_spec` about its passes. -/
theorem pathfindTrace_spec (M : FloatModel) (grid : Grid) (startX startY goalX goalY : Int)
    (fuel : Nat) (hfuel : searchFuel ≤ fuel) :
    ∃ passes : List (Iteration M.F),
      pathfindTrace M fuel grid startX startY goalX goalY
        = some (pathfindAStar M grid startX startY goalX goalY, passes) ∧
      passes.length ≤ 225 ∧
      (passes.map (fun pass => nodePos pass.current)).Nodup ∧
      (pathfindAStar M grid startX startY goalX goalY = true →
        ∃ last, passes.getLast? = some last ∧ nodePos last.current = (goalX, goalY)) ∧
      (pathfindAStar M grid startX startY goalX goalY = false →
        ∀ pass ∈ passes, nodePos pass.current ≠ (goalX, goalY)) ∧
      (∀ pass ∈ passes.dropLast, nodePos pass.current ≠ (goalX, goalY)) ∧
      ∀ pass ∈ passes, PassWithinCapacity M grid goalX goalY pass := by
  have hres := pathfindAStar_eq_some M grid startX startY goalX goalY
  unfold pathfindAStarFuel at hres
  unfold pathfindTrace
  by_cases hv : endpointsInvalid grid startX startY goalX goalY = true
  · rw [if_pos hv] at hres ⊢
    simp only [Option.some.injEq] at hres
    rw [← hres]
    exact ⟨[], rfl, by simp, by simp, by simp, by simp, by simp, by simp⟩
  · rw [if_neg hv] at hres ⊢
    have hinv : OpenInv [startNode M startX startY goalX goalY] clearGrid := by
      simp only [endpointsInvalid, decide_eq_true_eq, not_or, not_lt, not_le,
        Bool.not_eq_true] at hv
      obtain ⟨a1, a2, a3, a4, _⟩ := hv
      refine ⟨by simp, ?_⟩
      intro p hp
      simp only [List.map_cons, List.map_nil, List.mem_singleton, nodePos, startNode] at hp
      subst hp
      refine ⟨?_, rfl⟩
      simp only [inGrid, decide_eq_true_eq]
      exact ⟨a1, a2, a3, a4⟩
    have hcount := unclosedCount_le clearGrid
    obtain ⟨b, passes, e, r1, _, r3, r4, r5, r6, r7⟩ := aStarTrace_spec M grid goalX goalY
      searchFuel _ clearGrid hinv (by simp only [searchFuel]; omega)
    have hb : b = pathfindAStar M grid startX startY goalX goalY := by
      have := aStarTrace_result M grid goalX goalY searchFuel
        [startNode M startX startY goalX goalY] clearGrid
      rw [e, hres] at this
      simpa using this
    subst hb
    rw [aStarTrace_fuel_le M grid goalX goalY searchFuel fuel hfuel _ _ _ e]
    exact ⟨passes, rfl, by omega, r3, r4, r5, r6, r7⟩

/-! ## The path of the breadth-first search -/

theorem reversePath_eq_reverse (path : List (Int × Int)) :
    reversePath path = path.reverse := by
  unfold reversePath
  have key := forLoop_induction
    (fun (i : Int) (p : List (Int × Int)) => p.length = path.length ∧
      ∀ j : Nat, j < path.length →
        p[j]? = if (j : Int) < i ∨ (path.length : Int) - i ≤ j
          then path[path.length - 1 - j]? else path[j]?)
    0 ((path.length / 2 : Nat) : Int) (by omega)
    (fun i p =>
      let a := p.getD i.toNat (0, 0)
      let b := p.getD (path.length - i.toNat - 1) (0, 0)
      (p.set i.toNat b).set (path.length - i.toNat - 1) a) path
    ⟨rfl, by
      intro j hj
      rw [if_neg]
      omega⟩
    (by
      intro i p h0 hi ⟨hl, hp⟩
      lift i to ℕ using h0
      have hi2 : i < path.length / 2 := by exact_mod_cast hi
      have hlt : i < path.length - i - 1 := by omega
      simp only [Int.toNat_natCast]
      refine ⟨by simp [hl], ?_⟩
      intro j hj
      have hi1 : i < p.length := by omega
      have hi3 : path.length - i - 1 < p.length := by omega
      have ha : p.getD i (0, 0) = p[i] := List.getD_eq_getElem _ _ hi1
      have hb : p.getD (path.length - i - 1) (0, 0) = p[path.length - i - 1] :=
        List.getD_eq_getElem _ _ hi3
      rw [ha, hb, List.getElem?_set]
      by_cases e1 : path.length - i - 1 = j
      · rw [if_pos e1, if_pos (by simp only [List.length_set]; omega)]
        have := hp i (by omega)
        rw [if_neg (by omega)] at this
        rw [if_pos (by omega), ← List.getElem?_eq_getElem]
        rw [this]
        congr 1
        omega
      · rw [if_neg e1, List.getElem?_set]
        by_cases e2 : i = j
        · rw [if_pos e2, if_pos (by omega)]
          have := hp (path.length - i - 1) (by omega)
          rw [if_neg (by omega)] at this
          rw [if_pos (by omega), ← List.getElem?_eq_getElem]
          rw [this]
          congr 1
          omega
        · rw [if_neg e2, hp j hj]
          by_cases c : (j : Int) < i ∨ (path.length : Int) - i ≤ j
          · rw [if_pos c, if_pos (by omega)]
          · rw [if_neg c, if_neg (by omega)])
  obtain ⟨hl, hp⟩ := key
  apply List.ext_getElem?
  intro j
  by_cases hj : j < path.length
  · rw [hp j hj, List.getElem?_reverse hj]
    by_cases c : (j : Int) < ((path.length / 2 : Nat) : Int) ∨
        (path.length : Int) - ((path.length / 2 : Nat) : Int) ≤ j
    · rw [if_pos c]
    · rw [if_neg c]
      congr 1
      omega
  · rw [List.getElem?_eq_none (by omega), List.getElem?_eq_none (by simp; omega)]

theorem foldlM_except_ok {σ : Type} (f : σ → Nat → Except Fault σ) (I : σ → Prop) :
    ∀ (l : List Nat), (∀ s i s1, i ∈ l → I s → f s i = .ok s1 → I s1) →
      ∀ s s1, I s → l.foldlM f s = .ok s1 → I s1 := by
  intro l
  induction l with
  | nil =>
    intro _ s s1 hs h
    simp only [List.foldlM_nil] at h
    cases h
    exact hs
  | cons i t ih =>
    intro hstep s s1 hs h
    rw [List.foldlM_cons] at h
    cases hf : f s i with
    | error e => rw [hf] at h; cases h
    | ok s2 =>
      rw [hf] at h
      exact ih (fun s i s1 hi => hstep s i s1 (List.mem_cons_of_mem _ hi)) s2 s1
        (hstep s i s2 (List.mem_cons_self _ _) hs hf) h

theorem bfsNeighbor_linked (grid : Grid) (x y par : Int) (qf : Nat) (s s1 : BfsState) (i : Nat)
    (hi : i < 4) (h : BfsLinked grid s.queue ∧ s.queue.get? qf = some (x, y, par))
    (hok : bfsNeighbor grid x y (qf : Int) s i = .ok s1) :
    BfsLinked grid s1.queue ∧ s1.queue.get? qf = some (x, y, par) := by
  obtain ⟨hl, hq⟩ := h
  unfold bfsNeighbor at hok
  simp only at hok
  by_cases hc : inGrid (x + dx.getD i 0) (y + dy.getD i 0) = true ∧
      grid (y + dy.getD i 0) (x + dx.getD i 0) = false ∧
      s.visited (y + dy.getD i 0) (x + dx.getD i 0) = false
  · rw [if_pos hc] at hok
    by_cases hcap : (s.queue.length : Int) < GRID_WIDTH * GRID_HEIGHT
    · rw [if_pos hcap] at hok
      simp only [Except.ok.injEq] at hok
      subst hok
      simp only
      have hqf : qf < s.queue.length := by
        by_contra hn
        rw [List.get?_eq_none.mpr (by omega)] at hq
        cases hq
      constructor
      · intro k e hk
        by_cases hlt : k < s.queue.length
        · rw [List.get?_eq_getElem?, List.getElem?_append_left hlt, ← List.get?_eq_getElem?] at hk
          rcases hl k e hk with h0 | ⟨a1, a2, a3, p, a4, a5⟩
          · exact Or.inl h0
          · refine Or.inr ⟨a1, a2, a3, p, ?_, a5⟩
            rw [List.get?_eq_getElem?, List.getElem?_append_left (by omega),
              ← List.get?_eq_getElem?]
            exact a4
        · have hk2 : k = s.queue.length := by
            by_contra hne
            rw [List.get?_eq_none.mpr (by simp; omega)] at hk
            cases hk
          subst hk2
          rw [List.get?_eq_getElem?, List.getElem?_append_right (le_refl _)] at hk
          simp only [Nat.sub_self, List.getElem?_cons_zero, Option.some.injEq] at hk
          subst hk
          right
          refine ⟨by simp, by simp only; exact_mod_cast hqf, ?_, (x, y, par), ?_, ?_⟩
          · simp only [entryCell, cellOpen, Bool.and_eq_true, Bool.not_eq_true']
            exact ⟨hc.1, hc.2.1⟩
          · simp only [Int.toNat_natCast]
            rw [List.get?_eq_getElem?, List.getElem?_append_left hqf, ← List.get?_eq_getElem?]
            exact hq
          · simp only [entryCell, cardinalStep, decide_eq_true_eq]
            have : i = 0 ∨ i = 1 ∨ i = 2 ∨ i = 3 := by omega
            rcases this with rfl | rfl | rfl | rfl <;> simp [dx, dy] <;> omega
      · rw [List.get?_eq_getElem?, List.getElem?_append_left hqf, ← List.get?_eq_getElem?]
        exact hq
    · rw [if_neg hcap] at hok
      cases hok
  · rw [if_neg hc] at hok
    simp only [Except.ok.injEq] at hok
    subst hok
    exact ⟨hl, hq⟩

/-- A path that the breadth-first search returns was copied from the parent chain of a
queue entry that holds the exit cell, in a queue whose parent indices are as `BfsLinked`
says. -/
theorem bfsLoop_path_source (grid : Grid) (exitX exitY : Int) :
    ∀ (fuel : Nat) (s : BfsState) (qf : Nat) (path : List (Int × Int)),
      BfsLinked grid s.queue →
      bfsLoop grid exitX exitY fuel s qf = .ok (some path) →
      ∃ (queue : List (Int × Int × Int)) (k : Nat) (par : Int),
        BfsLinked grid queue ∧ queue.get? k = some (exitX, exitY, par) ∧
        reconstructPath queue (queue.length + 1) (k : Int) [] = .ok path := by
  intro fuel
  induction fuel with
  | zero => intro s qf path _ h; simp [bfsLoop] at h
  | succ fuel ih =>
    intro s qf path hl h
    unfold bfsLoop at h
    by_cases hq : qf < s.queue.length
    · rw [if_pos hq] at h
      cases hget : s.queue.get? qf with
      | none => rw [hget] at h; cases h
      | some e =>
        obtain ⟨x, y, par⟩ := e
        rw [hget] at h
        simp only at h
        by_cases hexit : x = exitX ∧ y = exitY
        · rw [if_pos hexit] at h
          refine ⟨s.queue, qf, par, hl, by rw [hget, hexit.1, hexit.2], ?_⟩
          cases hr : reconstructPath s.queue (s.queue.length + 1) (qf : Int) [] with
          | error e => rw [hr] at h; cases h
          | ok r =>
            rw [hr] at h
            simp only [Except.map, Except.ok.injEq, Option.some.injEq] at h
            rw [h]
        · rw [if_neg hexit] at h
          cases hfold : (List.range 4).foldlM (bfsNeighbor grid x y (qf : Int)) s with
          | error e => rw [hfold] at h; cases h
          | ok s1 =>
            rw [hfold] at h
            simp only at h
            have hinv := foldlM_except_ok (bfsNeighbor grid x y (qf : Int))
              (fun t => BfsLinked grid t.queue ∧ t.queue.get? qf = some (x, y, par))
              (List.range 4)
              (fun t i t1 hi ht hok =>
                bfsNeighbor_linked grid x y par qf t t1 i (List.mem_range.mp hi) ht hok)
              s s1 ⟨hl, hget⟩ hfold
            exact ih s1 (qf + 1) path hinv.1 h
    · rw [if_neg hq] at h
      cases h

/-- The parent chain that `reconstructPath` copies, from an entry of a queue whose parent
indices are as `BfsLinked` says: it starts at the cell of the entry, ends at `(1,1)`,
goes by cardinal steps through open cells, and is no longer than the index allows. -/
theorem reconstructPath_chain (grid : Grid) (queue : List (Int × Int × Int))
    (hl : BfsLinked grid queue) (hstart : cellOpen grid (1, 1) = true) :
    ∀ (fuel : Nat) (current : Nat) (path r : List (Int × Int)),
      reconstructPath queue fuel (current : Int) path = .ok r →
      ∃ rest e, r = path ++ rest ∧ queue.get? current = some e ∧
        rest.head? = some (entryCell e) ∧ rest.getLast? = some (1, 1) ∧
        List.Chain' (fun a b => cardinalStep a b = true) rest ∧
        (∀ c ∈ rest, cellOpen grid c = true) ∧ rest.length ≤ current + 1 := by
  intro fuel
  induction fuel with
  | zero => intro current path r h; simp [reconstructPath] at h
  | succ fuel ih =>
    intro current path r h
    unfold reconstructPath at h
    rw [if_neg (by omega)] at h
    by_cases hp : ¬ ((path.length : Int) < GRID_WIDTH * GRID_HEIGHT)
    · rw [if_pos hp] at h; cases h
    · rw [if_neg hp, if_neg (by omega)] at h
      simp only [Int.toNat_natCast] at h
      cases hget : queue.get? current with
      | none => rw [hget] at h; cases h
      | some e =>
        obtain ⟨x, y, parent⟩ := e
        rw [hget] at h
        simp only at h
        rcases hl current _ hget with h0 | ⟨a1, a2, a3, p, a4, a5⟩
        · simp only [Prod.mk.injEq] at h0
          obtain ⟨rfl, rfl, rfl⟩ := h0
          cases fuel with
          | zero => simp [reconstructPath] at h
          | succ fuel =>
            unfold reconstructPath at h
            rw [if_pos rfl] at h
            simp only [Except.ok.injEq] at h
            refine ⟨[(1, 1)], (1, 1, -1), h.symm, rfl, rfl, rfl, by simp, ?_, by simp⟩
            intro c hc
            simp only [List.mem_singleton] at hc
            rw [hc]; exact hstart
        · simp only at a1 a2 a4
          lift parent to ℕ using a1
          simp only [Int.toNat_natCast] at a4
          obtain ⟨rest, e1, r1, r2, r3, r4, r5, r6, r7⟩ := ih parent _ r h
          rw [a4] at r2
          simp only [Option.some.injEq] at r2
          subst r2
          refine ⟨(x, y) :: rest, (x, y, (parent : Int)), by rw [r1]; simp, rfl, rfl, ?_, ?_,
            ?_, ?_⟩
          · cases rest with
            | nil => simp at r3
            | cons c t => rw [List.getLast?_cons_cons]; exact r4
          · cases rest with
            | nil => simp at r3
            | cons c t =>
              simp only [List.head?_cons, Option.some.injEq] at r3
              rw [List.chain'_cons]
              refine ⟨?_, r5⟩
              rw [r3]
              exact cardinalStep_symm _ _ a5
          · intro c hc
            rcases List.mem_cons.mp hc with rfl | hc
            · exact a3
            · exact r6 c hc
          · simp only [List.length_cons]
            have : parent < current := by exact_mod_cast a2
            omega

theorem cardinalPath_iff (grid : Grid) (l : List (Int × Int)) :
    cardinalPath grid l = true ↔
      (∀ c ∈ l, cellOpen grid c = true) ∧ List.Chain' (fun a b => cardinalStep a b = true) l := by
  induction l with
  | nil => simp [cardinalPath]
  | cons a t ih =>
    cases t with
    | nil => simp [cardinalPath]
    | cons b r =>
      simp only [cardinalPath, Bool.and_eq_true, ih, List.chain'_cons, List.mem_cons,
        forall_eq_or_imp]
      tauto

/-- The path that the breadth-first search of `placeCoins` returns from its initial state,
on a grid whose cell `(1,1)` is open: read backwards it starts at `(1,1)`, ends at the
exit, and goes by cardinal steps through open cells; it has at most 225 cells. -/
theorem bfsLoop_path (grid : Grid) (exitX exitY : Int) (hstart : grid 1 1 = false)
    (path : List (Int × Int))
    (h : bfsLoop grid exitX exitY bfsFuel
      { queue := [(1, 1, -1)], visited := setCell clearGrid 1 1 true } 0 = .ok (some path)) :
    path.reverse.head? = some (1, 1) ∧ path.reverse.getLast? = some (exitX, exitY) ∧
    cardinalPath grid path.reverse = true ∧ 0 < path.length := by
  have hopen : cellOpen grid (1, 1) = true := by
    simp only [cellOpen, Bool.and_eq_true, Bool.not_eq_true']
    exact ⟨by decide, hstart⟩
  have hl0 : BfsLinked grid [(1, 1, -1)] := by
    intro k e hk
    cases k with
    | zero =>
      simp only [List.get?_cons_zero, Option.some.injEq] at hk
      exact Or.inl hk.symm
    | succ k => simp at hk
  obtain ⟨queue, k, par, q1, q2, q3⟩ :=
    bfsLoop_path_source grid exitX exitY bfsFuel _ 0 path hl0 h
  obtain ⟨rest, e, r1, r2, r3, r4, r5, r6, _⟩ :=
    reconstructPath_chain grid queue q1 hopen _ k [] path q3
  simp only [List.nil_append] at r1
  subst r1
  rw [q2] at r2
  simp only [Option.some.injEq] at r2
  subst r2
  refine ⟨by rw [List.head?_reverse]; exact r4, by rw [List.getLast?_reverse]; exact r3, ?_, ?_⟩
  · rw [cardinalPath_iff]
    refine ⟨fun c hc => r6 c (List.mem_reverse.mp hc), ?_⟩
    rw [List.chain'_reverse]
    exact r5.imp (fun a b hab => cardinalStep_symm a b hab)
  · cases path with
    | nil => simp at r3
    | cons c t => simp

theorem reconstructPath_length (queue : List (Int × Int × Int)) :
    ∀ (fuel : Nat) (current : Int) (path r : List (Int × Int)),
      reconstructPath queue fuel current path = .ok r → path.length ≤ 225 → r.length ≤ 225 := by
  intro fuel
  induction fuel with
  | zero => intro current path r h; simp [reconstructPath] at h
  | succ fuel ih =>
    intro current path r h hlen
    unfold reconstructPath at h
    by_cases hc : current = -1
    · rw [if_pos hc] at h
      simp only [Except.ok.injEq] at h
      rw [← h]; exact hlen
    · rw [if_neg hc] at h
      by_cases hp : ¬ ((path.length : Int) < GRID_WIDTH * GRID_HEIGHT)
      · rw [if_pos hp] at h; cases h
      · rw [if_neg hp] at h
        by_cases hneg : current < 0
        · rw [if_pos hneg] at h; cases h
        · rw [if_neg hneg] at h
          cases hget : queue.get? current.toNat with
          | none => rw [hget] at h; cases h
          | some e =>
            obtain ⟨x, y, parent⟩ := e
            rw [hget] at h
            simp only at h
            apply ih parent _ r h
            simp only [GRID_WIDTH, GRID_HEIGHT, not_not] at hp
            simp only [List.length_append, List.length_singleton]
            omega

/-- The breadth-first search of `placeCoins` returns from its initial state for every
grid and exit, neither overrunning the queue or the path nor reading past the queue. -/
theorem bfsLoop_total (grid : Grid) (exitX exitY : Int) :
    ∃ r, bfsLoop grid exitX exitY bfsFuel
      { queue := [(1, 1, -1)], visited := setCell clearGrid 1 1 true } 0 = .ok r := by
  obtain ⟨r, hr, _⟩ := bfsLoop_spec grid exitX exitY (fun _ => True)
    (fun _ _ _ _ _ _ => trivial)
    bfsFuel { queue := [(1, 1, -1)], visited := setCell clearGrid 1 1 true } 0
    (by
      refine ⟨by simp, ?_, ?_⟩
      · intro e he
        simp only [List.mem_singleton] at he
        subst he
        exact ⟨by decide, by simp [setCell]⟩
      · intro k e hk
        cases k with
        | zero =>
          simp only [List.get?_cons_zero, Option.some.injEq] at hk
          subst hk
          simp
        | succ k => simp at hk)
    (fun _ _ => trivial) (by simp) (by simp [bfsFuel])
  exact ⟨r, hr⟩

theorem bfsLoop_path_length (grid : Grid) (exitX exitY : Int) (path : List (Int × Int))
    (h : bfsLoop grid exitX exitY bfsFuel
      { queue := [(1, 1, -1)], visited := setCell clearGrid 1 1 true } 0 = .ok (some path)) :
    path.length ≤ 225 := by
  have hl0 : BfsLinked grid [(1, 1, -1)] := by
    intro k e hk
    cases k with
    | zero =>
      simp only [List.get?_cons_zero, Option.some.injEq] at hk
      exact Or.inl hk.symm
    | succ k => simp at hk
  obtain ⟨queue, k, par, _, _, q3⟩ :=
    bfsLoop_path_source grid exitX exitY bfsFuel _ 0 path hl0 h
  exact reconstructPath_length queue _ _ [] path q3 (by simp)

theorem foldl_range_congr {σ : Type} (f g : σ → Nat → σ) (I : Nat → σ → Prop) :
    ∀ (n : Nat) (s : σ), I 0 s →
      (∀ j t, j < n → I j t → f t j = g t j ∧ I (j + 1) (g t j)) →
      (List.range n).foldl f s = (List.range n).foldl g s ∧ I n ((List.range n).foldl g s) := by
  intro n
  induction n with
  | zero => intro s h0 _; exact ⟨rfl, h0⟩
  | succ n ih =>
    intro s h0 hstep
    obtain ⟨e, hi⟩ := ih s h0 (fun j t hj => hstep j t (by omega))
    rw [List.range_succ, List.foldl_append, List.foldl_append, e]
    simp only [List.foldl_cons, List.foldl_nil]
    obtain ⟨e2, hi2⟩ := hstep n _ (by omega) hi
    exact ⟨e2, hi2⟩

/-- The block of `placeCoins` that places collectibles along the path found by the search
(given in exit-to-start order): with at most four cells on the path it places nothing,
and with more it does what `placeEvenlySpec` says on the reversed path. -/
theorem placeAlongPath_eq (path : List (Int × Int)) (w : World) (coinsPlaced : Nat) :
    (path.length ≤ 4 → placeAlongPath path w coinsPlaced = (w, coinsPlaced)) ∧
    (4 < path.length →
      placeAlongPath path w coinsPlaced = placeEvenlySpec path.reverse w coinsPlaced) := by
  constructor
  · intro h
    unfold placeAlongPath
    by_cases h0 : path.length > 0
    · rw [if_pos h0]
      simp only
      rw [if_neg]
      rw [reversePath_eq_reverse, List.length_reverse]
      omega
    · rw [if_neg h0]
  · intro h
    unfold placeAlongPath placeEvenlySpec
    rw [if_pos (by omega)]
    simp only
    rw [reversePath_eq_reverse, List.length_reverse]
    by_cases hleft : w.totalCoins - coinsPlaced > 0
    · rw [if_pos ⟨hleft, h⟩]
      unfold forLoop
      have hn : (((w.totalCoins - coinsPlaced : Nat) : Int) + 1 - 1).toNat
          = w.totalCoins - coinsPlaced := by simp
      rw [hn]
      have hint : (if path.length / (w.totalCoins - coinsPlaced + 1) < 1 then 1
          else path.length / (w.totalCoins - coinsPlaced + 1))
          = max 1 (path.length / (w.totalCoins - coinsPlaced + 1)) := by
        split_ifs with hc
        · rw [max_eq_left (by omega)]
        · rw [max_eq_right (by omega)]
      rw [hint]
      refine (foldl_range_congr _ _
        (fun j (t : World × Nat) => t.1.totalCoins = w.totalCoins ∧ t.2 ≤ coinsPlaced + j)
        (w.totalCoins - coinsPlaced) (w, coinsPlaced) ⟨rfl, le_refl _⟩ ?_).1
      intro j t hj ⟨t1, t2⟩
      obtain ⟨tw, tk⟩ := t
      simp only at t1 t2
      have hk : tk < tw.totalCoins := by omega
      have hidx : ((1 : Int) + (j : Int)).toNat = j + 1 := by omega
      simp only [placeOnPath, if_pos hk, hidx, isFree]
      cases hget : path.reverse.get? ((j + 1) *
          max 1 (path.length / (w.totalCoins - coinsPlaced + 1))) with
      | none =>
        have hlen : ¬ (j + 1) * max 1 (path.length / (w.totalCoins - coinsPlaced + 1))
            < path.reverse.length := by
          rw [List.get?_eq_none] at hget
          omega
        rw [if_neg hlen]
        refine ⟨rfl, t1, ?_⟩
        show tk ≤ coinsPlaced + (j + 1)
        omega
      | some c =>
        obtain ⟨x, y⟩ := c
        have hlen : (j + 1) * max 1 (path.length / (w.totalCoins - coinsPlaced + 1))
            < path.reverse.length := by
          by_contra hn
          rw [List.get?_eq_none.mpr (by omega)] at hget
          cases hget
        have hd : path.reverse.getD ((j + 1) *
            max 1 (path.length / (w.totalCoins - coinsPlaced + 1))) (0, 0) = (x, y) := by
          rw [List.getD_eq_getElem?_getD, ← List.get?_eq_getElem?, hget]
          rfl
        rw [if_pos hlen, hd]
        simp only
        cases hany : (List.range tk).any
            (fun j_1 => (tw.coins j_1).active &&
              decide ((tw.coins j_1).x = x ∧ (tw.coins j_1).y = y)) with
        | true =>
          simp only [Bool.not_true, Bool.false_eq_true, if_false, if_true]
          exact ⟨trivial, t1, by omega⟩
        | false =>
          simp only [Bool.not_false, Bool.false_eq_true, if_false, if_true]
          exact ⟨trivial, by simp only [World.putCoin]; exact t1, by omega⟩
    · rw [if_neg (by intro hc; exact hleft hc.1)]
      have : w.totalCoins - coinsPlaced = 0 := by omega
      rw [this]
      rfl

/-! ## The two phases of `placeCoins` together -/

theorem afterRandomPhase_spec (M : FloatModel) (w : World) :
    (afterRandomPhase M w).1.spaceMap = w.spaceMap ∧
    (afterRandomPhase M w).1.exitX = w.exitX ∧ (afterRandomPhase M w).1.exitY = w.exitY ∧
    (afterRandomPhase M w).1.totalCoins = targetCoins w.currentDifficulty := by
  obtain ⟨⟨a1, a2, a3, a4, _⟩, _, _⟩ := randomCoinLoop_inv M
    ({ w with totalCoins := targetCoins w.currentDifficulty }).resetCoins 200
    ({ w with totalCoins := targetCoins w.currentDifficulty }).resetCoins 0
    ⟨rfl, rfl, rfl, rfl, by intro i hi; omega, by intro i j _ hj; omega, fun _ _ => rfl⟩
  exact ⟨a1, a2, a3, a4⟩

/-- The result of `placeCoins` when the randomized phase under-fills and the search finds
a path. -/
theorem placeCoins_of_path (M : FloatModel) (w : World) (path : List (Int × Int))
    (hunder : (afterRandomPhase M w).2 < targetCoins w.currentDifficulty)
    (hbfs : bfsLoop w.spaceMap w.exitX w.exitY bfsFuel bfsStart 0 = .ok (some path)) :
    placeCoins M w = .ok
      { (placeAlongPath path (afterRandomPhase M w).1 (afterRandomPhase M w).2).1 with
        totalCoins := (placeAlongPath path (afterRandomPhase M w).1 (afterRandomPhase M w).2).2 } := by
  obtain ⟨a1, a2, a3, a4⟩ := afterRandomPhase_spec M w
  unfold afterRandomPhase at a1 a2 a3 a4 hunder ⊢
  unfold bfsStart at hbfs
  unfold placeCoins
  simp only
  rw [if_pos (by rw [a4]; exact hunder), a1, a2, a3, hbfs]

theorem toOption_eq_some {α : Type} (r : Except Fault α) (a : α)
    (h : r.toOption = some a) : r = .ok a := by
  cases r with
  | error e => simp [Except.toOption] at h
  | ok b =>
    simp only [Except.toOption, Option.some.injEq] at h
    rw [h]

theorem findValidExit_keeps_start_open (w : World) (h : w.spaceMap 1 1 = false) :
    (findValidExit w).spaceMap 1 1 = false := by
  rcases findValidExit_cases w with ⟨_, _, _, _, _, hm, _⟩ | ⟨_, _, _, _, hm⟩
  · rw [hm]; exact h
  · rw [hm 1 1 (by omega)]; exact h

/-! ## The waypoint loop and the capacity of its buffer -/

theorem advance_progress (current exitGrid : Int) (w : World) :
    (current < exitGrid → current + 1 ≤ (advance current exitGrid w).1 ∧
      (advance current exitGrid w).1 ≤ current + 2) ∧
    (exitGrid ≤ current → (advance current exitGrid w).1 = current) := by
  unfold advance
  constructor
  · intro h
    rw [if_pos h]
    simp only [World.nextRand]
    omega
  · intro h
    rw [if_neg (by omega)]

theorem nextWaypoint_eq_advanceBoth (exitGridX exitGridY currentX currentY : Int) (w : World) :
    nextWaypoint exitGridX exitGridY currentX currentY w =
      (cmin (advanceBoth exitGridX exitGridY currentX currentY w).1 (GRID_WIDTH - 2),
       cmin (advanceBoth exitGridX exitGridY currentX currentY w).2.1 (GRID_HEIGHT - 2),
       (advanceBoth exitGridX exitGridY currentX currentY w).2.2) := by
  unfold nextWaypoint advanceBoth
  simp only [World.nextRand]

theorem advanceBoth_spec (currentX currentY : Int) (w : World) :
    ((currentX < 12 → currentX + 1 ≤ (advanceBoth 12 12 currentX currentY w).1 ∧
        (advanceBoth 12 12 currentX currentY w).1 ≤ currentX + 2) ∧
      (12 ≤ currentX → (advanceBoth 12 12 currentX currentY w).1 = currentX)) ∧
    ((currentY < 12 → currentY + 1 ≤ (advanceBoth 12 12 currentX currentY w).2.1 ∧
        (advanceBoth 12 12 currentX currentY w).2.1 ≤ currentY + 2) ∧
      (12 ≤ currentY → (advanceBoth 12 12 currentX currentY w).2.1 = currentY)) := by
  unfold advanceBoth
  simp only [World.nextRand]
  by_cases hm : decide (w.rand w.randPos % 2 = 0) = true
  · rw [if_pos hm]
    exact ⟨advance_progress currentX 12 _, advance_progress currentY 12 _⟩
  · rw [if_neg hm]
    exact ⟨advance_progress currentX 12 _, advance_progress currentY 12 _⟩

/-- In the waypoint loop the clamp to `GRID_WIDTH - 2 = GRID_HEIGHT - 2 = 13` changes
nothing: from coordinates of at most 13 the advances give at most 13. -/
theorem nextWaypoint_unclamped (currentX currentY : Int) (w : World)
    (hx : currentX ≤ 13) (hy : currentY ≤ 13) :
    nextWaypoint 12 12 currentX currentY w = advanceBoth 12 12 currentX currentY w ∧
    (advanceBoth 12 12 currentX currentY w).1 ≤ 13 ∧
    (advanceBoth 12 12 currentX currentY w).2.1 ≤ 13 := by
  obtain ⟨⟨x1, x2⟩, ⟨y1, y2⟩⟩ := advanceBoth_spec currentX currentY w
  have hx13 : (advanceBoth 12 12 currentX currentY w).1 ≤ 13 := by
    by_cases h : currentX < 12
    · have := x1 h; omega
    · rw [x2 (by omega)]; exact hx
  have hy13 : (advanceBoth 12 12 currentX currentY w).2.1 ≤ 13 := by
    by_cases h : currentY < 12
    · have := y1 h; omega
    · rw [y2 (by omega)]; exact hy
  refine ⟨?_, hx13, hy13⟩
  rw [nextWaypoint_eq_advanceBoth]
  have e1 : cmin (advanceBoth 12 12 currentX currentY w).1 (GRID_WIDTH - 2)
      = (advanceBoth 12 12 currentX currentY w).1 := by
    unfold cmin
    simp only [GRID_WIDTH]
    split_ifs <;> omega
  have e2 : cmin (advanceBoth 12 12 currentX currentY w).2.1 (GRID_HEIGHT - 2)
      = (advanceBoth 12 12 currentX currentY w).2.1 := by
    unfold cmin
    simp only [GRID_HEIGHT]
    split_ifs <;> omega
  rw [e1, e2]

theorem waypointLoop_succ (exitGridX exitGridY : Int) (fuel : Nat) (c : Corridor) :
    waypointLoop exitGridX exitGridY (fuel + 1) c =
      if (c.currentX < exitGridX ∨ c.currentY < exitGridY) ∧
          c.pathPoints.length < MAX_PATH_LENGTH - 1 then
        waypointLoop exitGridX exitGridY fuel
          { world := scatterNear
              (nextWaypoint exitGridX exitGridY c.currentX c.currentY c.world).1
              (nextWaypoint exitGridX exitGridY c.currentX c.currentY c.world).2.1
              (nextWaypoint exitGridX exitGridY c.currentX c.currentY c.world).2.2,
            currentX := (nextWaypoint exitGridX exitGridY c.currentX c.currentY c.world).1,
            currentY := (nextWaypoint exitGridX exitGridY c.currentX c.currentY c.world).2.1,
            pathPoints := c.pathPoints ++
              [((nextWaypoint exitGridX exitGridY c.currentX c.currentY c.world).1,
                (nextWaypoint exitGridX exitGridY c.currentX c.currentY c.world).2.1)] }
      else some c := rfl

theorem corridorLoop_succ (exitGridX exitGridY : Int) (fuel : Nat) (c : Corridor) :
    corridorLoop exitGridX exitGridY (fuel + 1) c =
      if (c.currentX < exitGridX ∨ c.currentY < exitGridY) ∧
          c.pathPoints.length < MAX_PATH_LENGTH - 1 then
        match pushPoint c.pathPoints
            (nextWaypoint exitGridX exitGridY c.currentX c.currentY c.world).1
            (nextWaypoint exitGridX exitGridY c.currentX c.currentY c.world).2.1 with
        | .error e => .error e
        | .ok pathPoints =>
          corridorLoop exitGridX exitGridY fuel
            { world := scatterNear
                (nextWaypoint exitGridX exitGridY c.currentX c.currentY c.world).1
                (nextWaypoint exitGridX exitGridY c.currentX c.currentY c.world).2.1
                (nextWaypoint exitGridX exitGridY c.currentX c.currentY c.world).2.2,
              currentX := (nextWaypoint exitGridX exitGridY c.currentX c.currentY c.world).1,
              currentY := (nextWaypoint exitGridX exitGridY c.currentX c.currentY c.world).2.1,
              pathPoints := pathPoints }
      else .ok c := rfl

theorem waypointLoop_length_le (exitGridX exitGridY : Int) :
    ∀ (fuel : Nat) (c c1 : Corridor), waypointLoop exitGridX exitGridY fuel c = some c1 →
      c.pathPoints.length ≤ c1.pathPoints.length := by
  intro fuel
  induction fuel with
  | zero => intro c c1 h; simp [waypointLoop] at h
  | succ fuel ih =>
    intro c c1 h
    rw [waypointLoop_succ] at h
    split_ifs at h
    · have := ih _ _ h
      simp only [List.length_append, List.length_singleton] at this
      omega
    · simp only [Option.some.injEq] at h
      rw [h]

/-- The waypoint loop with the buffer `pathPoints[MAX_COINS]`: it ends as the control flow
does when no more than `MAX_COINS` points are recorded, and otherwise it writes past the
end of the buffer. -/
theorem corridorLoop_of_waypointLoop (exitGridX exitGridY : Int) :
    ∀ (fuel : Nat) (c c1 : Corridor), waypointLoop exitGridX exitGridY fuel c = some c1 →
      c.pathPoints.length ≤ MAX_COINS →
      (c1.pathPoints.length ≤ MAX_COINS → corridorLoop exitGridX exitGridY fuel c = .ok c1) ∧
      (MAX_COINS < c1.pathPoints.length →
        corridorLoop exitGridX exitGridY fuel c = .error Fault.bufferOverflow) := by
  intro fuel
  induction fuel with
  | zero => intro c c1 h; simp [waypointLoop] at h
  | succ fuel ih =>
    intro c c1 h hlen
    rw [waypointLoop_succ] at h
    rw [corridorLoop_succ]
    by_cases hc : (c.currentX < exitGridX ∨ c.currentY < exitGridY) ∧
        c.pathPoints.length < MAX_PATH_LENGTH - 1
    · rw [if_pos hc] at h ⊢
      have hmono := waypointLoop_length_le exitGridX exitGridY fuel _ _ h
      simp only [List.length_append, List.length_singleton] at hmono
      by_cases hcap : c.pathPoints.length < MAX_COINS
      · have hpush : pushPoint c.pathPoints
            (nextWaypoint exitGridX exitGridY c.currentX c.currentY c.world).1
            (nextWaypoint exitGridX exitGridY c.currentX c.currentY c.world).2.1
            = .ok (c.pathPoints ++
              [((nextWaypoint exitGridX exitGridY c.currentX c.currentY c.world).1,
                (nextWaypoint exitGridX exitGridY c.currentX c.currentY c.world).2.1)]) := by
          unfold pushPoint
          rw [if_pos hcap]
        rw [hpush]
        exact ih _ _ h (by simp only [List.length_append, List.length_singleton]; omega)
      · have hpush : pushPoint c.pathPoints
            (nextWaypoint exitGridX exitGridY c.currentX c.currentY c.world).1
            (nextWaypoint exitGridX exitGridY c.currentX c.currentY c.world).2.1
            = .error Fault.bufferOverflow := by
          unfold pushPoint
          rw [if_neg hcap]
        rw [hpush]
        exact ⟨by intro h1; omega, fun _ => rfl⟩
    · rw [if_neg hc] at h ⊢
      simp only [Option.some.injEq] at h
      subst h
      exact ⟨fun _ => rfl, by intro h1; omega⟩

theorem waypointLoop_spec :
    ∀ (fuel : Nat) (c : Corridor), WaypointInv c → 13 ≤ fuel + c.pathPoints.length →
      ∃ c1, waypointLoop 12 12 fuel c = some c1 ∧ WaypointInv c1 ∧
        12 ≤ c1.currentX ∧ 12 ≤ c1.currentY := by
  intro fuel
  induction fuel with
  | zero =>
    intro c hinv hf
    have := hinv.2.2.2.2.2.2.2
    omega
  | succ fuel ih =>
    intro c hinv hf
    obtain ⟨i1, i2, i3, i4, ⟨x1, x2, x3⟩, ⟨y1, y2, y3⟩, i7, i8⟩ := hinv
    rw [waypointLoop_succ]
    by_cases hc : (c.currentX < 12 ∨ c.currentY < 12) ∧
        c.pathPoints.length < MAX_PATH_LENGTH - 1
    · rw [if_pos hc]
      obtain ⟨hun, hx13, hy13⟩ := nextWaypoint_unclamped c.currentX c.currentY c.world x3 y3
      obtain ⟨⟨ax1, ax2⟩, ⟨ay1, ay2⟩⟩ := advanceBoth_spec c.currentX c.currentY c.world
      rw [hun]
      have hcur : (c.currentX, c.currentY) ∈ c.pathPoints := List.mem_of_getLast?_eq_some i1
      have hb := i3 _ hcur
      simp only at hb
      have hn11 : c.pathPoints.length ≤ 11 := by
        rcases hc.1 with h | h
        · rcases x1 with h1 | h1 <;> omega
        · rcases y1 with h1 | h1 <;> omega
      have hxle : c.currentX ≤ (advanceBoth 12 12 c.currentX c.currentY c.world).1 := by
        by_cases h : c.currentX < 12
        · have := ax1 h; omega
        · rw [ax2 (by omega)]
      have hyle : c.currentY ≤ (advanceBoth 12 12 c.currentX c.currentY c.world).2.1 := by
        by_cases h : c.currentY < 12
        · have := ay1 h; omega
        · rw [ay2 (by omega)]
      apply ih
      · refine ⟨by simp, ?_, ?_, ?_, ⟨?_, ?_, hx13⟩, ⟨?_, ?_, hy13⟩, ?_, ?_⟩
        · cases hpts : c.pathPoints with
          | nil => rw [hpts] at i2; simp at i2
          | cons a t => rw [hpts] at i2; simpa using i2
        · intro p hp
          rcases List.mem_append.mp hp with h | h
          · exact i3 p h
          · simp only [List.mem_singleton] at h
            subst h
            simp only
            exact ⟨by omega, hx13, by omega, hy13⟩
        · rw [List.chain'_append]
          refine ⟨i4, by simp, ?_⟩
          intro a ha b hb2
          rw [i1] at ha
          simp only [Option.mem_def, Option.some.injEq] at ha
          simp only [List.head?_cons, Option.mem_def, Option.some.injEq] at hb2
          subst ha
          subst hb2
          exact ⟨hxle, hyle⟩
        · simp only [List.length_append, List.length_singleton]
          push_cast
          by_cases h : c.currentX < 12
          · have := ax1 h
            rcases x1 with h1 | h1
            · left; omega
            · omega
          · right; rw [ax2 (by omega)]; omega
        · simp only [List.length_append, List.length_singleton]
          push_cast
          by_cases h : c.currentX < 12
          · have := ax1 h; omega
          · rw [ax2 (by omega)]; omega
        · simp only [List.length_append, List.length_singleton]
          push_cast
          by_cases h : c.currentY < 12
          · have := ay1 h
            rcases y1 with h1 | h1
            · left; omega
            · omega
          · right; rw [ay2 (by omega)]; omega
        · simp only [List.length_append, List.length_singleton]
          push_cast
          by_cases h : c.currentY < 12
          · have := ay1 h; omega
          · rw [ay2 (by omega)]; omega
        · simp
        · simp only [List.length_append, List.length_singleton]
          omega
      · simp only [List.length_append, List.length_singleton]
        omega
    · rw [if_neg hc]
      refine ⟨c, rfl, ⟨i1, i2, i3, i4, ⟨x1, x2, x3⟩, ⟨y1, y2, y3⟩, i7, i8⟩, ?_, ?_⟩
      · by_contra hlt
        exact hc ⟨Or.inl (by omega), by simp only [MAX_PATH_LENGTH]; omega⟩
      · by_contra hlt
        exact hc ⟨Or.inr (by omega), by simp only [MAX_PATH_LENGTH]; omega⟩

/-- The waypoints of `createGuaranteedPath` for every state and random stream: the loop,
its buffer left out of account, ends after 6 to 11 passes with both coordinates at least
12, short of the bound `MAX_PATH_LENGTH - 1`; with the exit that makes 8 to 13 waypoints.
With the buffer `pathPoints[MAX_COINS]` the waypoints are recorded when they are at most
`MAX_COINS`, and otherwise a waypoint is written past the end of the buffer. -/
theorem waypoints_spec (w : World) :
    ∃ c, waypointLoop 12 12 MAX_PATH_LENGTH (corridorStart w) = some c ∧ WaypointInv c ∧
      12 ≤ c.currentX ∧ 12 ≤ c.currentY ∧
      7 ≤ c.pathPoints.length ∧ c.pathPoints.length ≤ 12 ∧
      (c.pathPoints.length + 1 ≤ MAX_COINS →
        recordWaypoints w = .ok (c.pathPoints ++ [(12, 12)], c.world)) ∧
      (MAX_COINS < c.pathPoints.length + 1 →
        recordWaypoints w = .error Fault.bufferOverflow) := by
  have h0 : WaypointInv (corridorStart w) := by
    refine ⟨rfl, rfl, ?_, by simp [corridorStart], ?_, ?_, by simp [corridorStart],
      by simp [corridorStart]⟩
    · intro p hp
      simp only [corridorStart, List.mem_singleton] at hp
      subst hp
      simp
    · simp [corridorStart]
    · simp [corridorStart]
  obtain ⟨c, hc, hinv, hx, hy⟩ := waypointLoop_spec MAX_PATH_LENGTH (corridorStart w) h0
    (by simp only [MAX_PATH_LENGTH]; omega)
  have hinv0 := hinv
  obtain ⟨_, _, _, _, ⟨_, x2, _⟩, _, _, i8⟩ := hinv
  have h7 : 7 ≤ c.pathPoints.length := by omega
  obtain ⟨k1, k2⟩ := corridorLoop_of_waypointLoop 12 12 MAX_PATH_LENGTH (corridorStart w) c hc
    (by simp [corridorStart, MAX_COINS])
  have hp0 : pushPoint [] 1 1 = .ok [(1, 1)] := rfl
  have e12 : GRID_WIDTH - 3 = (12 : Int) := rfl
  have e12h : GRID_HEIGHT - 3 = (12 : Int) := rfl
  refine ⟨c, hc, hinv0, hx, hy, h7, i8, ?_, ?_⟩
  · intro hle
    unfold recordWaypoints
    simp only [hp0, e12, e12h]
    have := k1 (by omega)
    unfold corridorStart at this
    simp only [e12, e12h] at this
    rw [this]
    simp only
    unfold pushPoint
    rw [if_pos (by omega)]
  · intro hgt
    unfold recordWaypoints
    simp only [hp0, e12, e12h]
    by_cases hlen : c.pathPoints.length ≤ MAX_COINS
    · have := k1 hlen
      unfold corridorStart at this
      simp only [e12, e12h] at this
      rw [this]
      simp only
      unfold pushPoint
      rw [if_neg (by omega)]
    · have := k2 (by omega)
      unfold corridorStart at this
      simp only [e12, e12h] at this
      rw [this]

/-! ## The validation as C evaluates it, and the state handed to `placeCoins` -/

/-- The validation at the head of `pathfindAStar`, evaluated operand by operand, reads the
array only at indices inside it, and gives what `endpointsInvalid` gives. -/
theorem validateEndpoints_eq (grid : Grid) (startX startY goalX goalY : Int) :
    validateEndpoints grid startX startY goalX goalY
      = .ok (endpointsInvalid grid startX startY goalX goalY) := by
  unfold validateEndpoints endpointsInvalid
  by_cases h1 : startX < 0
  · rw [if_pos h1]; simp [h1]
  rw [if_neg h1]
  by_cases h2 : startX ≥ GRID_WIDTH
  · rw [if_pos h2]; simp [h2]
  rw [if_neg h2]
  by_cases h3 : startY < 0
  · rw [if_pos h3]; simp [h3]
  rw [if_neg h3]
  by_cases h4 : startY ≥ GRID_HEIGHT
  · rw [if_pos h4]; simp [h4]
  rw [if_neg h4]
  by_cases h5 : goalX < 0
  · rw [if_pos h5]; simp [h5]
  rw [if_neg h5]
  by_cases h6 : goalX ≥ GRID_WIDTH
  · rw [if_pos h6]; simp [h6]
  rw [if_neg h6]
  by_cases h7 : goalY < 0
  · rw [if_pos h7]; simp [h7]
  rw [if_neg h7]
  by_cases h8 : goalY ≥ GRID_HEIGHT
  · rw [if_pos h8]; simp [h8]
  rw [if_neg h8]
  have r1 : readCell grid startY startX = .ok (grid startY startX) := by
    unfold readCell
    rw [if_pos ⟨by omega, by omega, by omega, by omega⟩]
  have r2 : readCell grid goalY goalX = .ok (grid goalY goalX) := by
    unfold readCell
    rw [if_pos ⟨by omega, by omega, by omega, by omega⟩]
  rw [r1, r2]
  cases hs : grid startY startX with
  | true => simp
  | false =>
    cases hg : grid goalY goalX with
    | true => simp
    | false => simp [h1, h2, h3, h4, h5, h6, h7, h8]

theorem pipelineState_spec (w : World) :
    (pipelineState w).spaceMap 1 1 = false ∧
    7 ≤ (pipelineState w).exitX ∧ 7 ≤ (pipelineState w).exitY := by
  unfold pipelineState
  refine ⟨findValidExit_keeps_start_open _ (generateRandomMap_protected w 1 1 (by decide)), ?_⟩
  rcases findValidExit_cases (generateRandomMap w) with
    ⟨x, y, _, ex, ey, _, hr, _⟩ | ⟨_, ex, ey, _⟩
  · rw [ex, ey]; exact ⟨hr.1, hr.2.2.1⟩
  · rw [ex, ey]; exact ⟨by decide, by decide⟩

/-- A sequence of cells joined by cardinal steps has at least as many cells as its ends
are apart in the two coordinates together, and one more. -/
theorem cardinalPath_length (grid : Grid) :
    ∀ (path : List (Int × Int)) (a b : Int × Int), path.head? = some a →
      path.getLast? = some b → cardinalPath grid path = true →
      Int.natAbs (b.1 - a.1) + Int.natAbs (b.2 - a.2) + 1 ≤ path.length := by
  intro path
  induction path with
  | nil => intro a b h; simp at h
  | cons c t ih =>
    intro a b h1 h2 h3
    simp only [List.head?_cons, Option.some.injEq] at h1
    subst h1
    cases t with
    | nil =>
      simp only [List.getLast?_singleton, Option.some.injEq] at h2
      subst h2
      simp
    | cons d r =>
      simp only [cardinalPath, Bool.and_eq_true] at h3
      rw [List.getLast?_cons_cons] at h2
      have := ih d b rfl h2 h3.2
      have hs := h3.1.2
      simp only [cardinalStep, decide_eq_true_eq] at hs
      simp only [List.length_cons] at this ⊢
      omega

theorem generateEnvironment_first_attempt (M : FloatModel) (w : World)
    (h : verifyAllPathsExist M (attemptWorld M w) = true) :
    generateEnvironment M false w = .ok { attemptWorld M w with pathExists := true } := by
  unfold generateEnvironment
  rw [if_neg (by decide), attemptLoop_succ, attemptWorld_eq]
  simp only
  rw [if_pos h]

theorem bitLength_spec :
    ∀ (fuel n : Nat), n ≤ fuel → 0 < n →
      2 ^ (bitLength fuel n - 1) ≤ n ∧ n < 2 ^ bitLength fuel n := by
  intro fuel
  induction fuel with
  | zero => intro n h1 h2; omega
  | succ fuel ih =>
    intro n h1 h2
    unfold bitLength
    rw [if_neg (by omega)]
    by_cases h : n / 2 = 0
    · have hn : n = 1 := by omega
      subst hn
      cases fuel with
      | zero => simp [bitLength]
      | succ f => simp [bitLength]
    · obtain ⟨a, b⟩ := ih (n / 2) (by omega) (by omega)
      have hpos : 0 < bitLength fuel (n / 2) := by
        by_contra hz
        have : bitLength fuel (n / 2) = 0 := by omega
        rw [this] at b
        simp at b
        exact h b
      simp only [Nat.add_sub_cancel]
      constructor
      · have e : bitLength fuel (n / 2) = (bitLength fuel (n / 2) - 1) + 1 := by omega
        rw [e, pow_succ]
        omega
      · rw [pow_succ]
        omega

/-- The leading binary digit of a positive `n` is at position `floorLog2 n`. -/
theorem floorLog2_spec (n : Nat) (h : 0 < n) :
    2 ^ floorLog2 n ≤ n ∧ n < 2 ^ (floorLog2 n + 1) := by
  obtain ⟨a, b⟩ := bitLength_spec n n (le_refl _) h
  unfold floorLog2
  have hpos : 0 < bitLength n n := by
    by_contra hz
    have : bitLength n n = 0 := by omega
    rw [this] at b
    simp at b
    omega
  refine ⟨a, ?_⟩
  have e : bitLength n n - 1 + 1 = bitLength n n := by omega
  rw [e]
  exact b

/-! ## The run on `twoCoinStream` -/

theorem twoCoinState_random_phase : (afterRandomPhase exactCost twoCoinState).2 = 2 := by
  decide!

theorem twoCoinState_search :
    (bfsLoop twoCoinState.spaceMap twoCoinState.exitX twoCoinState.exitY bfsFuel bfsStart
      0).toOption
      = some (some [(7, 7), (7, 6), (7, 5), (7, 4), (7, 3), (7, 2), (7, 1), (6, 1), (5, 1),
          (4, 1), (3, 1), (2, 1), (1, 1)]) := by
  decide!

theorem twoCoinState_placeCoins :
    levelSatisfies (placeCoins exactCost twoCoinState)
      (fun w1 => decide (w1.totalCoins = 6) &&
        (w1.coins 0).active && decide ((w1.coins 0).x = 5 ∧ (w1.coins 0).y = 1) &&
        (w1.coins 2).active && decide ((w1.coins 2).x = 3 ∧ (w1.coins 2).y = 1) &&
        decide ((w1.coins 3).x = 7 ∧ (w1.coins 3).y = 1) &&
        decide (w1.exitX = 7 ∧ w1.exitY = 7)) = true := by
  decide!

theorem twoCoinStream_verifies :
    verifyAllPathsExist exactCost
      (attemptWorld exactCost (initialWorld DIFFICULTY_EASY twoCoinStream)) = true := by
  decide!

/-! ## The rounding of the binary32 model -/

/-- A number of fewer than 25 significant bits is its own rounding; a longer one is
rounded to a mantissa of 24 bits (or to `2 ^ 24`), at most half a unit of the last place
away, the unit being `2 ^ s` with `s` the number of bits dropped. -/
theorem roundMant_spec (n : Int) (expo : Int) :
    (n.natAbs < 2 ^ 24 → roundMant n expo = { mant := n, expo := expo }) ∧
    (2 ^ 24 ≤ n.natAbs →
      (roundMant n expo).expo = expo + ((floorLog2 n.natAbs + 1 - 24 : Nat) : Int) ∧
      1 ≤ floorLog2 n.natAbs + 1 - 24 ∧
      2 ^ 23 ≤ (roundMant n expo).mant.natAbs ∧ (roundMant n expo).mant.natAbs ≤ 2 ^ 24 ∧
      2 * (((n.natAbs : Int) -
        ((roundMant n expo).mant.natAbs : Int) * 2 ^ (floorLog2 n.natAbs + 1 - 24)).natAbs)
        ≤ 2 ^ (floorLog2 n.natAbs + 1 - 24)) := by
  constructor
  · intro h
    unfold roundMant
    simp only
    rw [if_pos h]
  · intro h
    have hpos : 0 < n.natAbs := lt_of_lt_of_le (by norm_num) h
    obtain ⟨l1, l2⟩ := floorLog2_spec n.natAbs hpos
    have hL : 24 ≤ floorLog2 n.natAbs := by
      by_contra hlt
      have : floorLog2 n.natAbs + 1 ≤ 24 := by omega
      have := Nat.pow_le_pow_right (show 0 < 2 by norm_num) this
      omega
    generalize hs : floorLog2 n.natAbs + 1 - 24 = s
    have hs1 : 1 ≤ s := by omega
    have e1 : floorLog2 n.natAbs = 23 + s := by omega
    have e2 : floorLog2 n.natAbs + 1 = 24 + s := by omega
    rw [e1, pow_add] at l1
    rw [e2, pow_add] at l2
    have hp : 0 < 2 ^ s := Nat.two_pow_pos s
    have hq1 : 2 ^ 23 ≤ n.natAbs / 2 ^ s := (Nat.le_div_iff_mul_le hp).mpr l1
    have hq2 : n.natAbs / 2 ^ s < 2 ^ 24 := (Nat.div_lt_iff_lt_mul hp).mpr l2
    have hdm := Nat.div_add_mod n.natAbs (2 ^ s)
    have hr := Nat.mod_lt n.natAbs hp
    have hmant : (roundMant n expo).mant.natAbs =
        if 2 * (n.natAbs % 2 ^ s) > 2 ^ s ∨
            (2 * (n.natAbs % 2 ^ s) = 2 ^ s ∧ n.natAbs / 2 ^ s % 2 = 1)
        then n.natAbs / 2 ^ s + 1 else n.natAbs / 2 ^ s := by
      unfold roundMant
      simp only
      rw [if_neg (by omega), hs]
      by_cases hn : n < 0
      · simp only [if_pos hn, Int.natAbs_neg, Int.natAbs_ofNat]
      · simp only [if_neg hn, Int.natAbs_ofNat]
    have hexpo : (roundMant n expo).expo = expo + (s : Int) := by
      unfold roundMant
      simp only
      rw [if_neg (by omega), hs]
    refine ⟨hexpo, hs1, ?_, ?_, ?_⟩
    · rw [hmant]; split_ifs <;> omega
    · rw [hmant]; split_ifs <;> omega
    · rw [hmant]
      have hcast : ((2 ^ s : Nat) : Int) = (2 : Int) ^ s := by push_cast; rfl
      have hdm2 : (n.natAbs : Int) = (2 : Int) ^ s * ((n.natAbs / 2 ^ s : Nat) : Int)
          + ((n.natAbs % 2 ^ s : Nat) : Int) := by
        rw [← hcast]; exact_mod_cast hdm.symm
      have hrr : ((n.natAbs % 2 ^ s : Nat) : Int) < (2 : Int) ^ s := by
        rw [← hcast]; exact_mod_cast hr
      have hr0 : (0 : Int) ≤ ((n.natAbs % 2 ^ s : Nat) : Int) := Int.natCast_nonneg _
      split_ifs with hc
      · have hc2 : 2 ^ s ≤ 2 * (n.natAbs % 2 ^ s) := by
          rcases hc with h1 | h1
          · omega
          · omega
        have hc3 : (2 : Int) ^ s ≤ 2 * ((n.natAbs % 2 ^ s : Nat) : Int) := by
          rw [← hcast]; exact_mod_cast hc2
        have : (n.natAbs : Int) - ((n.natAbs / 2 ^ s + 1 : Nat) : Int) * 2 ^ s
            = ((n.natAbs % 2 ^ s : Nat) : Int) - 2 ^ s := by
          rw [hdm2]; push_cast; ring
        have h3 : ((n.natAbs % 2 ^ s : Nat) : Int) - 2 ^ s
            = -(((2 ^ s - n.natAbs % 2 ^ s : Nat)) : Int) := by
          rw [Nat.cast_sub hr.le]; push_cast; ring
        rw [this, h3, Int.natAbs_neg, Int.natAbs_ofNat]
        omega
      · have hc2 : 2 * (n.natAbs % 2 ^ s) ≤ 2 ^ s := by
          by_contra hgt
          exact hc (Or.inl (by omega))
        have hc3 : 2 * ((n.natAbs % 2 ^ s : Nat) : Int) ≤ (2 : Int) ^ s := by
          rw [← hcast]; exact_mod_cast hc2
        have : (n.natAbs : Int) - ((n.natAbs / 2 ^ s : Nat) : Int) * 2 ^ s
            = ((n.natAbs % 2 ^ s : Nat) : Int) := by
          rw [hdm2]; push_cast; ring
        rw [this, Int.natAbs_ofNat]
        exact hc2

/-! ## The claims -/

/-- C1 (code defect): `generateEnvironment` is claimed to return, for every difficulty,
random stream and value of `guaranteePath`, a level whose exit the pathfinder reaches
from `(1,1)`.  On `DIFFICULTY_EASY` with the stream `sealedStream` and
`guaranteePath = false` all five attempts fail verification and the fallback
`createGuaranteedPath` writes `pathPoints[10]`, past the end of
`int pathPoints[MAX_COINS][2]`: no level is returned.  The same happens with
`guaranteePath = true` on the constant stream `4`.  Whenever a level is returned, the
pathfinder does reach its exit from `(1,1)`. -/
theorem generateEnvironment_overflows_pathPoints :
    faultOf (generateEnvironment exactCost false (initialWorld DIFFICULTY_EASY sealedStream))
      = some Fault.bufferOverflow ∧
    faultOf (generateEnvironment exactCost true (initialWorld DIFFICULTY_EASY (fun _ => 4)))
      = some Fault.bufferOverflow ∧
    ∀ (M : FloatModel) (guaranteePath : Bool) (w w1 : World),
      generateEnvironment M guaranteePath w = .ok w1 →
      pathfindAStar M w1.spaceMap 1 1 w1.exitX w1.exitY = true := by
  refine ⟨?_, ?_, generateEnvironment_ok_exit_reachable⟩
  · decide!
  · decide!

/-- C2: for every grid and all integer endpoints, `pathfindAStar` returns false when the
start or the goal lies outside the grid or on a blocked cell; the validation answers
before the search loop is entered, whatever the iteration bound.  Evaluated as C does,
operand by operand with the two reads of `spaceMap` last (`validateEndpoints`), the
validation returns true there without reading `spaceMap` at an index outside the array;
for all arguments it reads only inside the array and gives the test `pathfindAStar`
branches on. -/
theorem pathfindAStar_fails_closed (M : FloatModel) (grid : Grid)
    (startX startY goalX goalY : Int)
    (h : inGrid startX startY = false ∨ inGrid goalX goalY = false ∨
      grid startY startX = true ∨ grid goalY goalX = true) :
    pathfindAStar M grid startX startY goalX goalY = false ∧
    (∀ fuel, pathfindAStarFuel M fuel grid startX startY goalX goalY = some false) ∧
    validateEndpoints grid startX startY goalX goalY = .ok true ∧
    ∀ (g : Grid) (a b c d : Int),
      validateEndpoints g a b c d = .ok (endpointsInvalid g a b c d) := by
  have hf : ∀ fuel, pathfindAStarFuel M fuel grid startX startY goalX goalY = some false := by
    intro fuel
    unfold pathfindAStarFuel
    rw [if_pos (endpointsInvalid_of grid startX startY goalX goalY h)]
  refine ⟨?_, hf, ?_, validateEndpoints_eq⟩
  · unfold pathfindAStar
    rw [hf]
    rfl
  · rw [validateEndpoints_eq, endpointsInvalid_of grid startX startY goalX goalY h]

theorem pathfindAStar_fails_closed_witness :
    (inGrid (-1) 3 = false ∨ inGrid 4 4 = false ∨ clearGrid 3 (-1) = true ∨
      clearGrid 4 4 = true) ∧
    readCell clearGrid 3 (-1) = .error Fault.bufferOverflow ∧
    (pathfindAStar exactCost clearGrid (-1) 3 4 4 = false ∧
      (∀ fuel, pathfindAStarFuel exactCost fuel clearGrid (-1) 3 4 4 = some false) ∧
      validateEndpoints clearGrid (-1) 3 4 4 = .ok true ∧
      ∀ (g : Grid) (a b c d : Int),
        validateEndpoints g a b c d = .ok (endpointsInvalid g a b c d)) :=
  ⟨Or.inl (by decide), rfl,
    pathfindAStar_fails_closed exactCost clearGrid (-1) 3 4 4 (Or.inl (by decide))⟩

/-- C3: `verifyAllPathsExist` returns true exactly when the pathfinder reaches the exit
from `(1,1)` and, for every active collectible with index below `totalCoins`, reaches
the collectible from `(1,1)` and the exit from the collectible; so putting an active
collectible with index below `totalCoins` on a cell the pathfinder does not reach from
`(1,1)` makes it return false. -/
theorem verifyAllPathsExist_iff (M : FloatModel) (w : World) :
    (verifyAllPathsExist M w = true ↔
      pathfindAStar M w.spaceMap 1 1 w.exitX w.exitY = true ∧
      ∀ i, i < w.totalCoins → (w.coins i).active = true →
        pathfindAStar M w.spaceMap 1 1 (w.coins i).x (w.coins i).y = true ∧
        pathfindAStar M w.spaceMap (w.coins i).x (w.coins i).y w.exitX w.exitY = true) ∧
    (∀ i x y, i < w.totalCoins → pathfindAStar M w.spaceMap 1 1 x y = false →
      verifyAllPathsExist M (w.putCoin i x y) = false) := by
  refine ⟨verify_all_iff M w, ?_⟩
  intro i x y hi hxy
  cases hv : verifyAllPathsExist M (w.putCoin i x y) with
  | false => rfl
  | true =>
    have h := ((verify_all_iff M (w.putCoin i x y)).mp hv).2 i hi
    simp only [World.putCoin, if_true] at h
    have h1 := (h trivial).1
    rw [hxy] at h1
    exact absurd h1 (by simp)

/-- C4 (code defect): the level left by `createGuaranteedPath` is claimed to pass
`verifyAllPathsExist` for every random stream.  On the constant stream `0` every
waypoint advances by one cell, the loop wants eleven waypoints after the start, and the
tenth of them is written to `pathPoints[10]`, past the end of the buffer of `MAX_COINS`
entries: no level is left to verify.  Whenever the buffer is not overrun the level does
pass `verifyAllPathsExist`, and the loop never stops for any other reason. -/
theorem createGuaranteedPath_overflows_pathPoints :
    faultOf (createGuaranteedPath (initialWorld DIFFICULTY_MEDIUM (fun _ => 0)))
      = some Fault.bufferOverflow ∧
    (∀ (M : FloatModel) (w w1 : World), createGuaranteedPath w = .ok w1 →
      verifyAllPathsExist M w1 = true) ∧
    ∀ w : World, faultOf (createGuaranteedPath w) ≠ some Fault.outOfFuel := by
  refine ⟨?_, fun M w w1 h => (createGuaranteedPath_ok_verifies M w w1 h).1,
    createGuaranteedPath_fuel⟩
  decide!

/-- C5: whenever `pathfindAStar` returns true there is a sequence of open cells of the
grid from the start to the goal whose consecutive cells are 8-neighbours, no diagonal
step of which has both of its orthogonally adjacent cells blocked. -/
theorem pathfindAStar_true_has_legal_path (M : FloatModel) (grid : Grid)
    (startX startY goalX goalY : Int)
    (h : pathfindAStar M grid startX startY goalX goalY = true) :
    ∃ path : List (Int × Int), path.head? = some (startX, startY) ∧
      path.getLast? = some (goalX, goalY) ∧ legalPath grid path = true :=
  (pathfindAStar_sound M grid startX startY goalX goalY h).exists_path

theorem pathfindAStar_true_has_legal_path_witness :
    pathfindAStar exactCost oneBlockedBelow 1 1 2 3 = true ∧
    ∃ path : List (Int × Int), path.head? = some (1, 1) ∧
      path.getLast? = some (2, 3) ∧ legalPath oneBlockedBelow path = true :=
  ⟨by decide, pathfindAStar_true_has_legal_path exactCost oneBlockedBelow 1 1 2 3 (by decide)⟩

/-- C7: for every difficulty and random stream, every cell `(x, y)` with `x ≤ 3` and
`y ≤ 3` is open in the grid made by `generateRandomMap`, and already after the cluster
phase and after the scatter phase. -/
theorem generateRandomMap_start_area_open (w : World) (x y : Int) (hx : x ≤ 3) (hy : y ≤ 3) :
    (clusterPhase { w with spaceMap := clearGrid }).spaceMap y x = false ∧
    (scatterPhase (clusterPhase { w with spaceMap := clearGrid })).spaceMap y x = false ∧
    (generateRandomMap w).spaceMap y x = false := by
  have hz : outsideProtectedZones x y = false := by
    simp only [outsideProtectedZones, decide_eq_false_iff_not]
    intro h
    exact h.1 ⟨hx, hy⟩
  refine ⟨?_, ?_, generateRandomMap_protected w x y hz⟩
  · rw [clusterPhase_frame _ _ _ hz]; rfl
  · rw [scatterPhase_frame _ _ _ hz, clusterPhase_frame _ _ _ hz]; rfl

theorem generateRandomMap_start_area_open_witness :
    (1 : Int) ≤ 3 ∧ (2 : Int) ≤ 3 ∧
    ((clusterPhase { initialWorld DIFFICULTY_HARD (fun n => 7 * n + 3) with
        spaceMap := clearGrid }).spaceMap 2 1 = false ∧
      (scatterPhase (clusterPhase { initialWorld DIFFICULTY_HARD (fun n => 7 * n + 3) with
        spaceMap := clearGrid })).spaceMap 2 1 = false ∧
      (generateRandomMap (initialWorld DIFFICULTY_HARD (fun n => 7 * n + 3))).spaceMap 2 1
        = false) :=
  ⟨by decide, by decide,
    generateRandomMap_start_area_open (initialWorld DIFFICULTY_HARD (fun n => 7 * n + 3)) 1 2
      (by decide) (by decide)⟩

/-- C8: for every difficulty and random stream, every cell `(x, y)` with
`x ≥ GRID_WIDTH - 4` and `y ≥ GRID_HEIGHT - 4` is open in the grid made by
`generateRandomMap`; and from any state, neither the cluster phase nor the scatter phase
changes a cell of either protected zone. -/
theorem generateRandomMap_exit_area_open (w : World) (x y : Int)
    (hx : x ≥ GRID_WIDTH - 4) (hy : y ≥ GRID_HEIGHT - 4) :
    (generateRandomMap w).spaceMap y x = false ∧
    ∀ (v : World) (a b : Int), outsideProtectedZones a b = false →
      (clusterPhase v).spaceMap b a = v.spaceMap b a ∧
      (scatterPhase v).spaceMap b a = v.spaceMap b a := by
  have hz : outsideProtectedZones x y = false := by
    simp only [outsideProtectedZones, decide_eq_false_iff_not]
    intro h
    exact h.2 ⟨hx, hy⟩
  exact ⟨generateRandomMap_protected w x y hz,
    fun v a b hab => ⟨clusterPhase_frame v a b hab, scatterPhase_frame v a b hab⟩⟩

theorem generateRandomMap_exit_area_open_witness :
    (12 : Int) ≥ GRID_WIDTH - 4 ∧ (11 : Int) ≥ GRID_HEIGHT - 4 ∧
    ((generateRandomMap (initialWorld DIFFICULTY_EASY (fun n => n * n))).spaceMap 11 12 = false ∧
      ∀ (v : World) (a b : Int), outsideProtectedZones a b = false →
        (clusterPhase v).spaceMap b a = v.spaceMap b a ∧
        (scatterPhase v).spaceMap b a = v.spaceMap b a) :=
  ⟨by decide, by decide,
    generateRandomMap_exit_area_open (initialWorld DIFFICULTY_EASY (fun n => n * n)) 12 11
      (by decide) (by decide)⟩

/-- C9: for every grid, difficulty and random stream, after `findValidExit` the exit
cell is in the grid, is open in the resulting grid, and its Euclidean distance from
`(1,1)` is greater than `GRID_WIDTH / 3` on easy, `GRID_WIDTH / 2.5` on medium and
`GRID_WIDTH / 2` on hard (as real quotients, hence also than the values 5, 6 and 7 that
the code compares with). -/
theorem findValidExit_exit_valid (w : World) :
    inGrid (findValidExit w).exitX (findValidExit w).exitY = true ∧
    (findValidExit w).spaceMap (findValidExit w).exitY (findValidExit w).exitX = false ∧
    (match w.currentDifficulty with
      | DIFFICULTY_EASY => ((GRID_WIDTH : Int) : ℝ) / 3
      | DIFFICULTY_MEDIUM => ((GRID_WIDTH : Int) : ℝ) / 2.5
      | DIFFICULTY_HARD => ((GRID_WIDTH : Int) : ℝ) / 2)
      < Real.sqrt ((distSq (findValidExit w).exitX (findValidExit w).exitY 1 1 : Int) : ℝ) ∧
    minDistance w.currentDifficulty ^ 2
      < distSq (findValidExit w).exitX (findValidExit w).exitY 1 1 := by
  have hcells : (7 ≤ (findValidExit w).exitX ∧ (findValidExit w).exitX ≤ 12 ∧
      7 ≤ (findValidExit w).exitY ∧ (findValidExit w).exitY ≤ 12) ∧
      (findValidExit w).spaceMap (findValidExit w).exitY (findValidExit w).exitX = false := by
    rcases findValidExit_cases w with ⟨x, y, _, ex, ey, hm, hb, ho, _⟩ | ⟨_, ex, ey, hc, _⟩
    · rw [ex, ey, hm]
      exact ⟨⟨hb.1, by omega, hb.2.2.1, by omega⟩, ho⟩
    · rw [ex, ey]
      exact ⟨by omega, hc 12 12 (by omega) (by omega) (by omega) (by omega)⟩
  obtain ⟨⟨b1, b2, b3, b4⟩, ho⟩ := hcells
  have hd : (72 : Int) ≤ distSq (findValidExit w).exitX (findValidExit w).exitY 1 1 := by
    unfold distSq
    nlinarith
  refine ⟨?_, ho, ?_, ?_⟩
  · simp only [inGrid, decide_eq_true_eq, GRID_WIDTH, GRID_HEIGHT]
    omega
  · have hr : ((72 : Int) : ℝ) ≤
        ((distSq (findValidExit w).exitX (findValidExit w).exitY 1 1 : Int) : ℝ) :=
      Int.cast_le.mpr hd
    have h8 : (8 : ℝ) < Real.sqrt
        ((distSq (findValidExit w).exitX (findValidExit w).exitY 1 1 : Int) : ℝ) := by
      rw [Real.lt_sqrt (by norm_num)]
      push_cast at hr
      linarith
    cases w.currentDifficulty <;> simp only [GRID_WIDTH] <;> push_cast <;> norm_num <;> linarith
  · have : minDistance w.currentDifficulty ^ 2 ≤ 49 := by
      cases w.currentDifficulty <;> simp [minDistance, GRID_WIDTH]
    omega

/-- C10: when none of the 100 draws of `findValidExit` is accepted the exit becomes the
cell `(GRID_WIDTH - 3, GRID_HEIGHT - 3) = (12, 12)`, every cell of `[11,13] × [11,13]` is
open afterwards and every other cell keeps its state; when a draw is accepted it is the
exit cell and the grid is unchanged. -/
theorem findValidExit_fallback_clears_exit_area (w : World) :
    ((findExitLoop (minDistance w.currentDifficulty) 100 w).1 = none →
      (findValidExit w).exitX = GRID_WIDTH - 3 ∧ (findValidExit w).exitY = GRID_HEIGHT - 3 ∧
      (findValidExit w).exitX = 12 ∧ (findValidExit w).exitY = 12 ∧
      (∀ x y, 11 ≤ x → x ≤ 13 → 11 ≤ y → y ≤ 13 → (findValidExit w).spaceMap y x = false) ∧
      (∀ x y, ¬ (11 ≤ x ∧ x ≤ 13 ∧ 11 ≤ y ∧ y ≤ 13) →
        (findValidExit w).spaceMap y x = w.spaceMap y x)) ∧
    (∀ c, (findExitLoop (minDistance w.currentDifficulty) 100 w).1 = some c →
      ((findValidExit w).exitX, (findValidExit w).exitY) = c ∧
      (findValidExit w).spaceMap = w.spaceMap) := by
  rcases findValidExit_cases w with ⟨x, y, hs, ex, ey, hm, _⟩ | ⟨hn, ex, ey, hc, hf⟩
  · constructor
    · intro h; rw [hs] at h; simp at h
    · intro c hc
      rw [hs] at hc
      simp only [Option.some.injEq] at hc
      subst hc
      exact ⟨by rw [ex, ey], hm⟩
  · constructor
    · intro _
      exact ⟨by rw [ex]; decide, by rw [ey]; decide, ex, ey, hc, hf⟩
    · intro c h; rw [hn] at h; simp at h

theorem findValidExit_fallback_clears_exit_area_witness :
    (findExitLoop (minDistance DIFFICULTY_HARD) 100
      { initialWorld DIFFICULTY_HARD (fun n => n) with spaceMap := allBlocked }).1 = none ∧
    (findValidExit { initialWorld DIFFICULTY_HARD (fun n => n) with
      spaceMap := allBlocked }).exitX = 12 ∧
    (findValidExit { initialWorld DIFFICULTY_HARD (fun n => n) with
      spaceMap := allBlocked }).spaceMap 13 11 = false ∧
    (findValidExit { initialWorld DIFFICULTY_HARD (fun n => n) with
      spaceMap := allBlocked }).spaceMap 10 12 = true := by
  have hn : (findExitLoop (minDistance DIFFICULTY_HARD) 100
      { initialWorld DIFFICULTY_HARD (fun n => n) with spaceMap := allBlocked }).1 = none := by
    decide
  have h := (findValidExit_fallback_clears_exit_area
    { initialWorld DIFFICULTY_HARD (fun n => n) with spaceMap := allBlocked }).1 hn
  refine ⟨hn, h.2.2.1, h.2.2.2.2.1 11 13 (by decide) (by decide) (by decide) (by decide), ?_⟩
  rw [h.2.2.2.2.2 12 10 (by omega)]
  rfl

/-- C11 (counterexample): the cell `(12, 12)` of the claimed quadrant `[7,12] × [7,12]` is
the candidate for no pair of `rand()` values. -/
theorem exitCandidate_never_twelve : ¬ ∃ r1 r2 : Nat, exitCandidate r1 r2 = (12, 12) := by
  rintro ⟨r1, r2, h⟩
  have := (exitCandidate_range r1 r2).2.1
  rw [h] at this
  omega

/-- C11 (amended): the candidate cells that the draw of `findValidExit` can produce are
exactly those of `[7,11] × [7,11]`: every candidate the loop accepts is computed from two
`rand()` values and lies in it, and every cell of it is drawn, and accepted as the exit on
the empty grid, for some random stream. -/
theorem exitCandidate_set :
    (∀ r1 r2 : Nat, 7 ≤ (exitCandidate r1 r2).1 ∧ (exitCandidate r1 r2).1 ≤ 11 ∧
      7 ≤ (exitCandidate r1 r2).2 ∧ (exitCandidate r1 r2).2 ≤ 11) ∧
    (∀ (minD : Int) (n : Nat) (w : World) (c : Int × Int),
      (findExitLoop minD n w).1 = some c → ∃ r1 r2, c = exitCandidate r1 r2) ∧
    (∀ x y : Int, 7 ≤ x → x ≤ 11 → 7 ≤ y → y ≤ 11 →
      exitCandidate (x - 7).toNat (y - 7).toNat = (x, y) ∧
      ∀ d : DifficultyLevel,
        (findValidExit (initialWorld d
            (fun n => if n = 0 then (x - 7).toNat else (y - 7).toNat))).exitX = x ∧
        (findValidExit (initialWorld d
            (fun n => if n = 0 then (x - 7).toNat else (y - 7).toNat))).exitY = y) := by
  refine ⟨exitCandidate_range, findExitLoop_candidate, ?_⟩
  intro x y hx1 hx2 hy1 hy2
  have hc : exitCandidate (x - 7).toNat (y - 7).toNat = (x, y) := by
    simp only [exitCandidate, GRID_WIDTH, GRID_HEIGHT, Prod.mk.injEq]
    omega
  refine ⟨hc, ?_⟩
  intro d
  have hd : distSq x y 1 1 > minDistance d ^ 2 := by
    have h72 : (72 : Int) ≤ distSq x y 1 1 := by unfold distSq; nlinarith
    have : minDistance d ^ 2 ≤ 49 := by cases d <;> simp [minDistance, GRID_WIDTH]
    omega
  have hl : findExitLoop (minDistance d) 100
      (initialWorld d (fun n => if n = 0 then (x - 7).toNat else (y - 7).toNat)) =
      (some (x, y), { initialWorld d
        (fun n => if n = 0 then (x - 7).toNat else (y - 7).toNat) with randPos := 0 + 1 + 1 }) := by
    rw [findExitLoop_succ]
    simp only [initialWorld, if_true, Nat.zero_add, Nat.one_ne_zero, if_false, hc]
    rw [if_pos ⟨rfl, hd⟩]
  unfold findValidExit
  simp only [initialWorld] at hl ⊢
  rw [hl]
  exact ⟨rfl, rfl⟩

/-- C12: for every grid, exit, difficulty and random stream, the collectibles placed by
the randomized phase of `placeCoins` (the loop started with `coinsPlaced = 0`, for any
number of attempts) are pairwise at squared distance at least 9, and each is at squared
distance more than 4 from `(1,1)` and from the exit cell. -/
theorem randomCoinLoop_spacing (M : FloatModel) (n : Nat) (w : World) :
    (∀ i j, i < j → j < (randomCoinLoop M n w 0).2 →
      distSq ((randomCoinLoop M n w 0).1.coins j).x ((randomCoinLoop M n w 0).1.coins j).y
        ((randomCoinLoop M n w 0).1.coins i).x ((randomCoinLoop M n w 0).1.coins i).y ≥ 9) ∧
    (∀ i, i < (randomCoinLoop M n w 0).2 →
      ((randomCoinLoop M n w 0).1.coins i).active = true ∧
      distSq ((randomCoinLoop M n w 0).1.coins i).x ((randomCoinLoop M n w 0).1.coins i).y 1 1
        > 4 ∧
      distSq ((randomCoinLoop M n w 0).1.coins i).x ((randomCoinLoop M n w 0).1.coins i).y
        (randomCoinLoop M n w 0).1.exitX (randomCoinLoop M n w 0).1.exitY > 4) := by
  obtain ⟨⟨h1, h2, h3, h4, h5, h6, h7⟩, _, _⟩ := randomCoinLoop_inv M w n w 0
    ⟨rfl, rfl, rfl, rfl, by intro i hi; omega, by intro i j _ hj; omega, fun _ _ => rfl⟩
  constructor
  · intro i j hij hj
    have := h6 i j hij hj
    norm_num at this
    exact this
  · intro i hi
    obtain ⟨a1, a2, a3, _, _⟩ := h5 i hi
    rw [h2, h3]
    norm_num at a2 a3
    exact ⟨a1, a2, a3⟩

/-- C13 (counterexample): on easy difficulty with every `rand()` value 0,
`generateEnvironment(false)` returns a level (its first attempt passes verification) in
which the collectibles 0 and 1, placed by the path phase of `placeCoins` on `(2,1)` and
`(3,1)`, are less than 3 apart and collectible 0 is within 2 of the start `(1,1)`; and
with every `rand()` value 1, `generateEnvironment(true)` returns a level whose
collectibles 0 and 1, on the waypoints `(3,3)` and `(5,5)`, are less than 3 apart. -/
theorem generateEnvironment_collectibles_too_close :
    levelSatisfies
      (generateEnvironment exactCost true (initialWorld DIFFICULTY_EASY (fun _ => 1)))
      (fun w => (w.coins 0).active && (w.coins 1).active && decide (1 < w.totalCoins) &&
        decide (distSq (w.coins 1).x (w.coins 1).y (w.coins 0).x (w.coins 0).y < 9)) = true ∧
    levelSatisfies
      (generateEnvironment exactCost false (initialWorld DIFFICULTY_EASY (fun _ => 0)))
      (fun w => (w.coins 0).active && (w.coins 1).active && decide (1 < w.totalCoins) &&
        decide (distSq (w.coins 1).x (w.coins 1).y (w.coins 0).x (w.coins 0).y < 9) &&
        decide (distSq (w.coins 0).x (w.coins 0).y 1 1 ≤ 4)) = true := by
  constructor
  · decide!
  · decide!

/-- C13 (amended): a level `w1` returned by `generateEnvironment` comes about in one of
three ways.  With `guaranteePath` set it is the result of `createGuaranteedPath`.  After
five attempts that fail verification it is the result of `createGuaranteedPath` on the
state they left.  Otherwise it is the level of the first attempt `k + 1` that passes
verification, the result of `placeCoins` on the state left by `generateRandomMap` and
`findValidExit` in that attempt; then the collectibles that the randomized phase of that
call placed, which are the first `coinsPlaced` entries of the array for the value of
`coinsPlaced` at the end of the randomized loop, are active in `w1`, pairwise at squared
distance at least 9, and each at squared distance more than 4 from `(1,1)` and from the
exit of `w1`.  Nothing of the kind holds of the collectibles placed by the path phase or
by `createGuaranteedPath`. -/
theorem generateEnvironment_random_phase_spacing (M : FloatModel) (guaranteePath : Bool)
    (w w1 : World) (h : generateEnvironment M guaranteePath w = .ok w1) :
    (guaranteePath = true ∧ createGuaranteedPath w = .ok w1) ∨
    (guaranteePath = false ∧
      (∀ j, j < 5 → verifyAllPathsExist M (afterAttempts M (j + 1) w) = false) ∧
      createGuaranteedPath (afterAttempts M 5 w) = .ok w1) ∨
    (guaranteePath = false ∧ ∃ k, k < 5 ∧
      (∀ j, j < k → verifyAllPathsExist M (afterAttempts M (j + 1) w) = false) ∧
      verifyAllPathsExist M (afterAttempts M (k + 1) w) = true ∧
      placeCoins M (pipelineState (afterAttempts M k w)) = .ok (afterAttempts M (k + 1) w) ∧
      w1 = { afterAttempts M (k + 1) w with pathExists := true } ∧
      (afterRandomPhase M (pipelineState (afterAttempts M k w))).2 ≤ w1.totalCoins ∧
      (∀ i, i < (afterRandomPhase M (pipelineState (afterAttempts M k w))).2 →
        (w1.coins i).active = true ∧
        distSq (w1.coins i).x (w1.coins i).y 1 1 > 4 ∧
        distSq (w1.coins i).x (w1.coins i).y w1.exitX w1.exitY > 4) ∧
      ∀ i j, i < j → j < (afterRandomPhase M (pipelineState (afterAttempts M k w))).2 →
        distSq (w1.coins j).x (w1.coins j).y (w1.coins i).x (w1.coins i).y ≥ 9) := by
  unfold generateEnvironment at h
  by_cases hg : guaranteePath = true
  · rw [if_pos hg] at h
    exact Or.inl ⟨hg, h⟩
  · rw [if_neg hg] at h
    have hgf : guaranteePath = false := by simpa using hg
    right
    rcases attemptLoop_cases M 5 w with ⟨k, hk, h1, h2, h3⟩ | ⟨h1, h2⟩
    · right
      rw [h3] at h
      simp only [Except.ok.injEq] at h
      have hsucc := afterAttempts_succ M k w
      have hplace : placeCoins M (pipelineState (afterAttempts M k w))
          = .ok (afterAttempts M (k + 1) w) := by
        rw [hsucc]
        exact attemptWorld_eq M (afterAttempts M k w)
      obtain ⟨w3, k1, s0, _, s2, s3, s4, s5, _, s7, s8, _⟩ := placeCoins_spec M
        (pipelineState (afterAttempts M k w))
      rw [hplace] at s0
      simp only [Except.ok.injEq] at s0
      have hk1 : k1 = (afterRandomPhase M (pipelineState (afterAttempts M k w))).2 := s4
      subst s0
      subst h
      refine ⟨hgf, k, hk, h1, h2, hplace, rfl, ?_, ?_, ?_⟩
      · rw [← hk1]
        exact s5
      · intro i hi
        rw [← hk1] at hi
        obtain ⟨a1, a2, a3, _, _⟩ := s7 i hi
        norm_num at a2 a3
        refine ⟨a1, a2, ?_⟩
        show distSq _ _ (afterAttempts M (k + 1) w).exitX (afterAttempts M (k + 1) w).exitY > 4
        rw [s2, s3]
        exact a3
      · intro i j hij hj
        rw [← hk1] at hj
        have := s8 i j hij hj
        norm_num at this
        exact this
    · left
      rw [h2] at h
      exact ⟨hgf, h1, h⟩

theorem generateEnvironment_random_phase_spacing_witness :
    generateEnvironment exactCost false (initialWorld DIFFICULTY_EASY twoCoinStream)
      = .ok { attemptWorld exactCost (initialWorld DIFFICULTY_EASY twoCoinStream) with
              pathExists := true } ∧
    verifyAllPathsExist exactCost
      (attemptWorld exactCost (initialWorld DIFFICULTY_EASY twoCoinStream)) = true ∧
    (afterRandomPhase exactCost twoCoinState).2 = 2 ∧
    distSq
      ((attemptWorld exactCost (initialWorld DIFFICULTY_EASY twoCoinStream)).coins 1).x
      ((attemptWorld exactCost (initialWorld DIFFICULTY_EASY twoCoinStream)).coins 1).y
      ((attemptWorld exactCost (initialWorld DIFFICULTY_EASY twoCoinStream)).coins 0).x
      ((attemptWorld exactCost (initialWorld DIFFICULTY_EASY twoCoinStream)).coins 0).y ≥ 9 ∧
    distSq
      ((attemptWorld exactCost (initialWorld DIFFICULTY_EASY twoCoinStream)).coins 0).x
      ((attemptWorld exactCost (initialWorld DIFFICULTY_EASY twoCoinStream)).coins 0).y
      1 1 > 4 := by
  have hpass := twoCoinStream_verifies
  have hk1 := twoCoinState_random_phase
  have hgen := generateEnvironment_first_attempt exactCost
    (initialWorld DIFFICULTY_EASY twoCoinStream) hpass
  have hfirst : ∀ w : World, afterAttempts exactCost (0 + 1) w = attemptWorld exactCost w :=
    fun _ => rfl
  refine ⟨hgen, hpass, hk1, ?_⟩
  rcases generateEnvironment_random_phase_spacing exactCost false
    (initialWorld DIFFICULTY_EASY twoCoinStream) _ hgen with
    ⟨hg, _⟩ | ⟨_, hfail, _⟩ | ⟨_, k, _, hbefore, _, _, _, _, hnear, hpair⟩
  · exact absurd hg (by decide)
  · have := hfail 0 (by decide)
    rw [hfirst, hpass] at this
    exact absurd this (by decide)
  · have hk0 : k = 0 := by
      by_contra hne
      have := hbefore 0 (by omega)
      rw [hfirst, hpass] at this
      exact absurd this (by decide)
    subst hk0
    have e : pipelineState (afterAttempts exactCost 0
        (initialWorld DIFFICULTY_EASY twoCoinStream)) = twoCoinState := rfl
    rw [e, hk1] at hnear hpair
    dsimp only at hnear hpair
    exact ⟨hpair 0 1 (by decide) (by decide), (hnear 0 (by decide)).2.1⟩

/-- C14: on every grid whose start cell `(1,1)` is open, for every exit, difficulty and
random stream, `placeCoins` returns, leaves the grid and the exit as they were, and
every active collectible of its array lies on an open cell of the grid, with
`pathfindAStar` true from `(1,1)` to the collectible and from the collectible to the
exit, whichever of the two phases placed it. -/
theorem placeCoins_collectibles_reachable (M : FloatModel) (w : World)
    (hstart : w.spaceMap 1 1 = false) :
    ∃ w1, placeCoins M w = .ok w1 ∧
      w1.spaceMap = w.spaceMap ∧ w1.exitX = w.exitX ∧ w1.exitY = w.exitY ∧
      ∀ i, i < MAX_COINS → (w1.coins i).active = true →
        inGrid (w1.coins i).x (w1.coins i).y = true ∧
        w1.spaceMap (w1.coins i).y (w1.coins i).x = false ∧
        pathfindAStar M w1.spaceMap 1 1 (w1.coins i).x (w1.coins i).y = true ∧
        pathfindAStar M w1.spaceMap (w1.coins i).x (w1.coins i).y w1.exitX w1.exitY = true := by
  obtain ⟨w1, k1, s0, s1, s2, s3, _, _, _, s7, _, s9, s10⟩ := placeCoins_spec M w
  refine ⟨w1, s0, s1, s2, s3, ?_⟩
  intro i hi hact
  rw [s1, s2, s3]
  by_cases h1 : i < k1
  · obtain ⟨_, _, _, p1, p2⟩ := s7 i h1
    obtain ⟨g1, g2⟩ := pathfindAStar_true_goal_open M _ _ _ _ _ p1
    exact ⟨g1, g2, p1, p2⟩
  · by_cases h2 : i < w1.totalCoins
    · obtain ⟨_, hl⟩ := s9 i (by omega) h2
      obtain ⟨lc, le⟩ := hl hstart
      obtain ⟨p1, p2⟩ := LinkedToStart.pathfind M w.spaceMap _ _ hstart lc le
      exact ⟨lc.1, lc.2.1, p1, p2⟩
    · have := s10 i (by omega) hi
      rw [this] at hact
      exact absurd hact (by decide)

theorem placeCoins_collectibles_reachable_witness :
    twoCoinState.spaceMap 1 1 = false ∧
    (afterRandomPhase exactCost twoCoinState).2 = 2 ∧
    levelSatisfies (placeCoins exactCost twoCoinState)
      (fun w1 => decide (w1.totalCoins = 6) &&
        (w1.coins 0).active && decide ((w1.coins 0).x = 5 ∧ (w1.coins 0).y = 1) &&
        (w1.coins 2).active && decide ((w1.coins 2).x = 3 ∧ (w1.coins 2).y = 1) &&
        decide ((w1.coins 3).x = 7 ∧ (w1.coins 3).y = 1) &&
        decide (w1.exitX = 7 ∧ w1.exitY = 7)) = true ∧
    pathfindAStar exactCost twoCoinState.spaceMap 1 1 5 1 = true ∧
    pathfindAStar exactCost twoCoinState.spaceMap 5 1 7 7 = true ∧
    twoCoinState.spaceMap 1 3 = false ∧
    pathfindAStar exactCost twoCoinState.spaceMap 1 1 3 1 = true ∧
    pathfindAStar exactCost twoCoinState.spaceMap 3 1 7 7 = true := by
  have hs : twoCoinState.spaceMap 1 1 = false := (pipelineState_spec _).1
  have hk1 := twoCoinState_random_phase
  have hev := twoCoinState_placeCoins
  obtain ⟨w1, h0, h1, _, _, hall⟩ := placeCoins_collectibles_reachable exactCost twoCoinState hs
  have hev1 := hev
  rw [h0] at hev1
  simp only [levelSatisfies, Bool.and_eq_true, decide_eq_true_eq] at hev1
  obtain ⟨⟨⟨⟨⟨⟨_, a0⟩, ⟨x0, y0⟩⟩, a2⟩, ⟨x2, y2⟩⟩, _⟩, ⟨ex, ey⟩⟩ := hev1
  have c0 := hall 0 (by decide) a0
  have c2 := hall 2 (by decide) a2
  rw [x0, y0, ex, ey, h1] at c0
  rw [x2, y2, ex, ey, h1] at c2
  exact ⟨hs, hk1, hev, c0.2.2.1, c0.2.2.2, c2.2.1, c2.2.2.1, c2.2.2.2⟩

/-- C15: for every grid, exit, difficulty and random stream, `placeCoins` returns; of
the entries of the collectible array exactly those with index below `totalCoins` are
active; and `totalCoins` is at most the target of the difficulty, which is 7 on easy,
9 on medium and 10 on hard, hence at most the capacity `MAX_COINS = 10`. -/
theorem placeCoins_totalCoins_counts_placed (M : FloatModel) (w : World) :
    ∃ w1, placeCoins M w = .ok w1 ∧
      (∀ i, i < MAX_COINS → ((w1.coins i).active = true ↔ i < w1.totalCoins)) ∧
      w1.totalCoins ≤ targetCoins w.currentDifficulty ∧
      targetCoins w.currentDifficulty ≤ MAX_COINS ∧
      targetCoins DIFFICULTY_EASY = 7 ∧ targetCoins DIFFICULTY_MEDIUM = 9 ∧
      targetCoins DIFFICULTY_HARD = 10 ∧ MAX_COINS = 10 := by
  obtain ⟨w1, k1, s0, _, _, _, _, s5, s6, s7, _, s9, s10⟩ := placeCoins_spec M w
  refine ⟨w1, s0, ?_, s6, ?_, rfl, rfl, rfl, rfl⟩
  · intro i hi
    constructor
    · intro hact
      by_contra hn
      have := s10 i (by omega) hi
      rw [this] at hact
      exact absurd hact (by decide)
    · intro hlt
      by_cases h1 : i < k1
      · exact (s7 i h1).1
      · exact (s9 i (by omega) hlt).1
  · cases w.currentDifficulty <;> decide

/-- C16 (code defect): `createGuaranteedPath` is claimed, for every random stream, to set
`totalCoins = min(waypointCount - 2, 10)` and to put exactly the collectibles of index
below `totalCoins`, each on an interior waypoint.  On the constant stream `2` every
waypoint advances by one cell and the tenth waypoint of the loop is written to
`pathPoints[10]`, past the end of the buffer: no waypoint count is left.  Whenever the
waypoints are recorded without overrunning the buffer, the claim holds. -/
theorem createGuaranteedPath_coins_or_overflow :
    waypointFault (recordWaypoints (initialWorld DIFFICULTY_HARD (fun _ => 2)))
      = some Fault.bufferOverflow ∧
    faultOf (createGuaranteedPath (initialWorld DIFFICULTY_HARD (fun _ => 2)))
      = some Fault.bufferOverflow ∧
    ∀ (w w1 : World), createGuaranteedPath w = .ok w1 →
      ∃ (pts : List (Int × Int)) (cw : World), recordWaypoints w = .ok (pts, cw) ∧
        w1.totalCoins = (cmin ((pts.length : Int) - 2) MAX_COINS).toNat ∧
        (w1.totalCoins : Int) = min ((pts.length : Int) - 2) 10 ∧
        (∀ i, i < MAX_COINS → ((w1.coins i).active = true ↔ i < w1.totalCoins)) ∧
        ∀ i, i < w1.totalCoins →
          ∃ k : Nat, 1 ≤ k ∧ k + 2 ≤ pts.length ∧
            pts.get? k = some ((w1.coins i).x, (w1.coins i).y) := by
  refine ⟨by decide!, by decide!, ?_⟩
  intro w w1 h
  rw [createGuaranteedPath_eq] at h
  cases hr : recordWaypoints w with
  | error e => rw [hr] at h; simp at h
  | ok r =>
    obtain ⟨pts, cw⟩ := r
    rw [hr] at h
    simp only [Except.ok.injEq] at h
    subst h
    obtain ⟨l1, l2, _⟩ := recordWaypoints_spec w pts cw hr
    obtain ⟨f1, f2, f3⟩ := finishPath_coins pts cw l1
    refine ⟨pts, cw, rfl, f1, ?_, f2, f3⟩
    rw [f1]
    simp only [cmin, MAX_COINS] at l2 ⊢
    split_ifs <;> omega

/-- C17 (code defect): after `createGuaranteedPath` the exit is claimed to be `(12,12)`
and the 3×3 neighbourhood of every waypoint open, for every random stream and prior
grid.  On the constant stream `6` (every waypoint advances by one cell and scatters
obstacles) the tenth waypoint of the loop is written to `pathPoints[10]`, past the end of
the buffer, so the clearing loop is never reached.  Whenever the waypoints are recorded
without overrunning the buffer, the claim holds. -/
theorem createGuaranteedPath_corridor_or_overflow :
    faultOf (createGuaranteedPath
      { initialWorld DIFFICULTY_EASY (fun _ => 6) with spaceMap := allBlocked })
      = some Fault.bufferOverflow ∧
    ∀ (w w1 : World), createGuaranteedPath w = .ok w1 →
      w1.exitX = GRID_WIDTH - 3 ∧ w1.exitY = GRID_HEIGHT - 3 ∧ w1.exitX = 12 ∧ w1.exitY = 12 ∧
      ∃ (pts : List (Int × Int)) (cw : World), recordWaypoints w = .ok (pts, cw) ∧
        pts.head? = some (1, 1) ∧ pts.getLast? = some (12, 12) ∧
        ∀ p ∈ pts, ∀ x y, p.1 - 1 ≤ x → x ≤ p.1 + 1 → p.2 - 1 ≤ y → y ≤ p.2 + 1 →
          inGrid x y = true ∧ w1.spaceMap y x = false := by
  refine ⟨by decide!, ?_⟩
  intro w w1 h
  have hx := (createGuaranteedPath_ok_verifies exactCost w w1 h).2
  rw [createGuaranteedPath_eq] at h
  cases hr : recordWaypoints w with
  | error e => rw [hr] at h; simp at h
  | ok r =>
    obtain ⟨pts, cw⟩ := r
    rw [hr] at h
    simp only [Except.ok.injEq] at h
    subst h
    obtain ⟨l1, l2, l3, l4, l5, l6, l7, l8⟩ := recordWaypoints_spec w pts cw hr
    obtain ⟨hblocks, _, _⟩ := clearPath_spec pts cw l6
    obtain ⟨f1, _, _, _⟩ := finishPath_spec pts cw l1
    refine ⟨by rw [hx.1]; rfl, by rw [hx.2]; rfl, hx.1, hx.2, pts, cw, rfl, l3, l4, ?_⟩
    intro p hp x y a1 a2 a3 a4
    rw [f1]
    exact hblocks p hp x y a1 a2 a3 a4

/-- C18: every run of the pipeline `generateRandomMap`, `findValidExit`, `placeCoins`
returns, and its result is `attemptWorld`; each attempt starts from the state, random
stream included, that the previous one left.  `generateEnvironment(false)` then does one
of two things.  Either some attempt `k + 1` with `k < 5` is the first whose level passes
`verifyAllPathsExist`, and the result is that level with `pathExists` set, nothing
further being run; or all five attempts fail verification and the result is that of
`createGuaranteedPath` on the state after the fifth attempt (a fault of
`createGuaranteedPath` included). -/
theorem generateEnvironment_attempts (M : FloatModel) (w : World) :
    (∀ v, placeCoins M (findValidExit (generateRandomMap v)) = .ok (attemptWorld M v)) ∧
    (∀ n, afterAttempts M (n + 1) w = attemptWorld M (afterAttempts M n w)) ∧
    afterAttempts M 0 w = w ∧
    ((∃ k, k < 5 ∧
        (∀ j, j < k → verifyAllPathsExist M (afterAttempts M (j + 1) w) = false) ∧
        verifyAllPathsExist M (afterAttempts M (k + 1) w) = true ∧
        generateEnvironment M false w
          = .ok { afterAttempts M (k + 1) w with pathExists := true }) ∨
      ((∀ j, j < 5 → verifyAllPathsExist M (afterAttempts M (j + 1) w) = false) ∧
        generateEnvironment M false w = createGuaranteedPath (afterAttempts M 5 w))) := by
  refine ⟨attemptWorld_eq M, fun n => afterAttempts_succ M n w, rfl, ?_⟩
  have h : generateEnvironment M false w = attemptLoop M 5 w := by
    unfold generateEnvironment
    rw [if_neg (by decide)]
  rw [h]
  exact attemptLoop_cases M 5 w

/-- C19 (counterexample): the cost that the expansion of `(1,1)` adds for the diagonal
move to `(2,2)` is 1.414 (141400 in units of 1/100000), not 1.41421 (141421). -/
theorem diagonal_cost_is_not_1_41421 :
    moveCost 5 ≠ 141421 ∧
    (show List Int from (expandNeighbor exactCost clearGrid (setCell clearGrid 1 1 true) 5 5
      (startNode exactCost 1 1 5 5) [] 5).map (fun n => n.g)) = [141400] := by
  decide

/-- C19 (amended): the cost `pathfindAStar` adds to the accumulated cost `g` is the float
for 1.0 in each of the four cardinal directions and the float for 1.414 in each of the
four diagonal directions: every node that a pass of the neighbour loop puts into the open
set, or updates there, has `g = current.g + moveCost i`. -/
theorem moveCost_values :
    (∀ i, i < 4 → moveCost i = 100000) ∧ (∀ i, 4 ≤ i → moveCost i = 141400) ∧
    ∀ (M : FloatModel) (grid closedSet : Grid) (goalX goalY : Int) (current : Node M.F)
      (openSet : List (Node M.F)) (i : Nat),
      ∀ n ∈ expandNeighbor M grid closedSet goalX goalY current openSet i,
        n ∈ openSet ∨ n.g = M.add current.g (M.ofScaled (moveCost i)) := by
  refine ⟨fun i hi => by simp [moveCost, hi], fun i hi => ?_, ?_⟩
  · have : ¬ i < 4 := by omega
    simp [moveCost, this]
  · intro M grid closedSet goalX goalY current openSet i n hn
    unfold expandNeighbor at hn
    simp only at hn
    by_cases h1 : neighborSkipped grid closedSet (current.posX + dx_path.getD i 0)
        (current.posY + dy_path.getD i 0) = true
    · rw [if_pos h1] at hn; exact Or.inl hn
    · rw [if_neg h1] at hn
      by_cases h2 : diagonalRejected grid current.posX current.posY i = true
      · rw [if_pos h2] at hn; exact Or.inl hn
      · rw [if_neg h2] at hn
        cases hidx : openIndexOf (current.posX + dx_path.getD i 0)
            (current.posY + dy_path.getD i 0) openSet with
        | some openIndex =>
          rw [hidx] at hn
          simp only at hn
          cases hold : openSet.get? openIndex with
          | some old =>
            rw [hold] at hn
            simp only at hn
            split_ifs at hn
            · rcases List.mem_or_eq_of_mem_set hn with h | h
              · exact Or.inl h
              · right; rw [h]
            · exact Or.inl hn
          | none => rw [hold] at hn; exact Or.inl hn
        | none =>
          rw [hidx] at hn
          simp only at hn
          split_ifs at hn
          · rcases List.mem_append.mp hn with h | h
            · exact Or.inl h
            · right
              simp only [List.mem_singleton] at h
              rw [h]
          · exact Or.inl hn

/-- C20: on easy difficulty with no blocked cell in the grid, for every random stream
`findValidExit` accepts a drawn candidate (the fallback is not reached), the exit is that
candidate, and its Euclidean distance from `(1,1)` is greater than 5. -/
theorem findValidExit_easy_open_grid (w : World) (hd : w.currentDifficulty = DIFFICULTY_EASY)
    (hopen : ∀ x y, inGrid x y = true → w.spaceMap y x = false) :
    ∃ c : Int × Int, (findExitLoop (minDistance DIFFICULTY_EASY) 100 w).1 = some c ∧
      ((findValidExit w).exitX, (findValidExit w).exitY) = c ∧
      c = exitCandidate (w.rand w.randPos) (w.rand (w.randPos + 1)) ∧
      (findValidExit w).spaceMap = w.spaceMap ∧
      25 < distSq (findValidExit w).exitX (findValidExit w).exitY 1 1 ∧
      (5 : ℝ) < Real.sqrt
        ((distSq (findValidExit w).exitX (findValidExit w).exitY 1 1 : Int) : ℝ) := by
  obtain ⟨r1, r2, r3, r4⟩ := exitCandidate_range (w.rand w.randPos) (w.rand (w.randPos + 1))
  have h72 : (72 : Int) ≤ distSq (exitCandidate (w.rand w.randPos) (w.rand (w.randPos + 1))).1
      (exitCandidate (w.rand w.randPos) (w.rand (w.randPos + 1))).2 1 1 := by
    unfold distSq; nlinarith
  have hl : findExitLoop (minDistance DIFFICULTY_EASY) 100 w =
      (some (exitCandidate (w.rand w.randPos) (w.rand (w.randPos + 1))),
        { w with randPos := w.randPos + 1 + 1 }) := by
    rw [findExitLoop_succ, if_pos]
    refine ⟨hopen _ _ ?_, ?_⟩
    · simp only [inGrid, decide_eq_true_eq, GRID_WIDTH, GRID_HEIGHT]
      omega
    · simp only [minDistance, GRID_WIDTH]
      omega
  have hvx : (findValidExit w).exitX
      = (exitCandidate (w.rand w.randPos) (w.rand (w.randPos + 1))).1 := by
    unfold findValidExit
    rw [hd, hl]
  have hvy : (findValidExit w).exitY
      = (exitCandidate (w.rand w.randPos) (w.rand (w.randPos + 1))).2 := by
    unfold findValidExit
    rw [hd, hl]
  have hvm : (findValidExit w).spaceMap = w.spaceMap := by
    unfold findValidExit
    rw [hd, hl]
  refine ⟨_, by rw [hl], ?_, rfl, hvm, ?_, ?_⟩
  · rw [hvx, hvy]
  · rw [hvx, hvy]; omega
  · rw [hvx, hvy]
    rw [Real.lt_sqrt (by norm_num)]
    have : ((72 : Int) : ℝ) ≤ ((distSq
        (exitCandidate (w.rand w.randPos) (w.rand (w.randPos + 1))).1
        (exitCandidate (w.rand w.randPos) (w.rand (w.randPos + 1))).2 1 1 : Int) : ℝ) :=
      Int.cast_le.mpr h72
    push_cast at this
    linarith

theorem findValidExit_easy_open_grid_witness :
    (initialWorld DIFFICULTY_EASY (fun n => 3 * n + 1)).currentDifficulty = DIFFICULTY_EASY ∧
    (∀ x y, inGrid x y = true →
      (initialWorld DIFFICULTY_EASY (fun n => 3 * n + 1)).spaceMap y x = false) ∧
    ∃ c : Int × Int, (findExitLoop (minDistance DIFFICULTY_EASY) 100
        (initialWorld DIFFICULTY_EASY (fun n => 3 * n + 1))).1 = some c ∧
      ((findValidExit (initialWorld DIFFICULTY_EASY (fun n => 3 * n + 1))).exitX,
        (findValidExit (initialWorld DIFFICULTY_EASY (fun n => 3 * n + 1))).exitY) = c ∧
      c = exitCandidate ((initialWorld DIFFICULTY_EASY (fun n => 3 * n + 1)).rand
            (initialWorld DIFFICULTY_EASY (fun n => 3 * n + 1)).randPos)
          ((initialWorld DIFFICULTY_EASY (fun n => 3 * n + 1)).rand
            ((initialWorld DIFFICULTY_EASY (fun n => 3 * n + 1)).randPos + 1)) ∧
      (findValidExit (initialWorld DIFFICULTY_EASY (fun n => 3 * n + 1))).spaceMap
        = (initialWorld DIFFICULTY_EASY (fun n => 3 * n + 1)).spaceMap ∧
      25 < distSq (findValidExit (initialWorld DIFFICULTY_EASY (fun n => 3 * n + 1))).exitX
        (findValidExit (initialWorld DIFFICULTY_EASY (fun n => 3 * n + 1))).exitY 1 1 ∧
      (5 : ℝ) < Real.sqrt
        ((distSq (findValidExit (initialWorld DIFFICULTY_EASY (fun n => 3 * n + 1))).exitX
          (findValidExit (initialWorld DIFFICULTY_EASY (fun n => 3 * n + 1))).exitY 1 1 : Int) : ℝ) :=
  ⟨rfl, fun _ _ _ => rfl,
    findValidExit_easy_open_grid (initialWorld DIFFICULTY_EASY (fun n => 3 * n + 1)) rfl
      (fun _ _ _ => rfl)⟩

/-- C21 (code defect): `createGuaranteedPath` is claimed to record at most 10 waypoints, so
that every index into `pathPoints[MAX_COINS]` is within the buffer.  On the constant
stream `0` every waypoint advances by one cell: the loop wants the twelve points `(1,1)`,
`(2,2)`, ..., `(12,12)` and the exit makes thirteen, so the point `(11,11)` is written to
`pathPoints[10]`, past the end of the buffer.  For every state and stream the buffer is
overrun exactly when the waypoints, exit included, are more than `MAX_COINS`, which the
waypoint loop allows (it is bounded by `MAX_PATH_LENGTH - 1`, not by `MAX_COINS`); with
at most `MAX_COINS` waypoints the function returns. -/
theorem pathPoints_capacity_exceeded :
    (waypointLoop 12 12 MAX_PATH_LENGTH
        (corridorStart (initialWorld DIFFICULTY_HARD (fun _ => 0)))).map (fun c => c.pathPoints)
      = some [(1, 1), (2, 2), (3, 3), (4, 4), (5, 5), (6, 6), (7, 7), (8, 8), (9, 9), (10, 10),
          (11, 11), (12, 12)] ∧
    waypointFault (recordWaypoints (initialWorld DIFFICULTY_HARD (fun _ => 0)))
      = some Fault.bufferOverflow ∧
    ∀ w : World, ∃ c, waypointLoop 12 12 MAX_PATH_LENGTH (corridorStart w) = some c ∧
      (faultOf (createGuaranteedPath w) = some Fault.bufferOverflow ↔
        MAX_COINS < c.pathPoints.length + 1) ∧
      (c.pathPoints.length + 1 ≤ MAX_COINS →
        createGuaranteedPath w = .ok (finishPath (c.pathPoints ++ [(12, 12)]) c.world)) := by
  refine ⟨by decide!, by decide!, ?_⟩
  intro w
  obtain ⟨c, hc, _, _, _, _, _, k1, k2⟩ := waypoints_spec w
  refine ⟨c, hc, ⟨?_, ?_⟩, ?_⟩
  · intro hf
    by_contra hle
    rw [createGuaranteedPath_eq, k1 (by omega)] at hf
    simp [faultOf] at hf
  · intro hgt
    rw [createGuaranteedPath_eq, k2 hgt]
    rfl
  · intro hle
    rw [createGuaranteedPath_eq, k1 hle]

/-- C22: on the grid with no blocked cell `pathfindAStar(0,0,4,4)` returns true, in
binary32 arithmetic (`float32`) as in exact arithmetic; its loop takes out `(0,0)`,
`(1,1)`, `(2,2)`, `(3,3)` and then the goal `(4,4)`.  In binary32 the accumulated cost
`g` of the goal is then `11861492 * 2 ^ (-21)` (four times the binary32 nearest to 1.414,
`11861492 * 2 ^ (-23)`, within half a unit of the last place of it, each sum being exact),
about 5.65600014, which is at most 4 × 1.41421; in exact arithmetic it is 4 × 1.414. -/
theorem pathfindAStar_open_grid_diagonal_cost :
    pathfindAStar float32 clearGrid 0 0 4 4 = true ∧
    (show Option (Bool × List (Int × Int × Binary32)) from
      (pathfindTrace float32 searchFuel clearGrid 0 0 4 4).map
        (fun r => (r.1, r.2.map (fun pass => (pass.current.posX, pass.current.posY,
          pass.current.g)))))
      = some (true, [(0, 0, { mant := 0, expo := 0 }),
          (1, 1, { mant := 11861492, expo := -23 }),
          (2, 2, { mant := 11861492, expo := -22 }),
          (3, 3, { mant := 8896119, expo := -21 }),
          (4, 4, { mant := 11861492, expo := -21 })]) ∧
    Binary32.leRatio { mant := 11861492, expo := -21 } (4 * 141421) 100000 = true ∧
    (11861492 : Int) * 100000 ≤ 4 * 141421 * 2 ^ 21 ∧
    (show Binary32 from float32.ofScaled (moveCost 4)) = { mant := 11861492, expo := -23 } ∧
    2 * Int.natAbs ((11861492 : Int) * 100000 - 141400 * 2 ^ 23) ≤ 100000 ∧
    pathfindAStar exactCost clearGrid 0 0 4 4 = true ∧
    (show Option (Bool × List (Int × Int × Int)) from
      (pathfindTrace exactCost searchFuel clearGrid 0 0 4 4).map
        (fun r => (r.1, r.2.map (fun pass => (pass.current.posX, pass.current.posY,
          pass.current.g)))))
      = some (true, [(0, 0, 0), (1, 1, 141400), (2, 2, 282800), (3, 3, 424200),
          (4, 4, 565600)]) ∧
    (565600 : Int) ≤ 4 * 141421 := by
  refine ⟨by decide!, by decide!, by decide, by decide, by decide!, by decide, by decide,
    by decide, by decide⟩

/-- C23: for every grid and all cells, `pathfindAStar` returns true if and only if there
is a sequence of open cells of the grid from the start to the goal whose consecutive
cells are cardinal neighbours (so start and goal are open cells of the grid); in
particular every diagonal move the search accepts joins two cells that cardinal moves
through open cells join, and no goal so joined to the start is missed. -/
theorem pathfindAStar_iff_cardinal_path (M : FloatModel) (grid : Grid)
    (startX startY goalX goalY : Int) :
    (pathfindAStar M grid startX startY goalX goalY = true ↔
      ∃ path : List (Int × Int), path.head? = some (startX, startY) ∧
        path.getLast? = some (goalX, goalY) ∧ cardinalPath grid path = true) ∧
    (pathfindAStar M grid startX startY goalX goalY = true →
      cellOpen grid (startX, startY) = true ∧ cellOpen grid (goalX, goalY) = true) ∧
    ∀ (a b : Int × Int), cellOpen grid a = true → moveAccepted grid a b →
      ∃ path : List (Int × Int), path.head? = some a ∧ path.getLast? = some b ∧
        cardinalPath grid path = true := by
  refine ⟨⟨?_, ?_⟩, ?_, ?_⟩
  · intro h
    exact ((pathfindAStar_iff_fourConn M grid startX startY goalX goalY).mp h).exists_cardinal_path
  · rintro ⟨path, h1, h2, h3⟩
    exact (pathfindAStar_iff_fourConn M grid startX startY goalX goalY).mpr
      (fourConn_of_path grid path _ _ h1 h2 h3)
  · intro h
    have := (pathfindAStar_iff_fourConn M grid startX startY goalX goalY).mp h
    exact ⟨this.start_is_open, this.goal_is_open⟩
  · intro a b ha hm
    obtain ⟨i, hi, hb, hg, ho, hd⟩ := hm
    have hskip : neighborSkipped grid clearGrid (a.1 + dx_path.getD i 0)
        (a.2 + dy_path.getD i 0) = false := by
      rw [hb] at hg ho
      simp only [inGrid, decide_eq_true_eq] at hg
      simp only [neighborSkipped, clearGrid, decide_eq_false_iff_not, not_or, not_lt, not_le,
        Bool.not_eq_true]
      simp only at ho
      exact ⟨hg.1, hg.2.1, hg.2.2.1, hg.2.2.2, ho, trivial⟩
    obtain ⟨c1, c2⟩ := accepted_move_legal grid clearGrid a.1 a.2 i hi hskip hd
    rw [← hb] at c1 c2
    exact (legalStep_fourConn grid a b ha c1 c2).exists_cardinal_path

/-- C24: for every grid and all integer cells `a = (ax, ay)` and `b = (bx, bY)`,
`pathfindAStar(a, b)` and `pathfindAStar(b, a)` return the same value. -/
theorem pathfindAStar_symmetric (M : FloatModel) (grid : Grid) (ax ay bx bY : Int) :
    pathfindAStar M grid ax ay bx bY = pathfindAStar M grid bx bY ax ay := by
  rw [Bool.eq_iff_iff, pathfindAStar_iff_fourConn, pathfindAStar_iff_fourConn]
  exact ⟨FourConn.symmetric, FourConn.symmetric⟩

/-- C25: `pathfindAStar` terminates for every grid, start and goal: with any bound of at
least `searchFuel` on its loop the run ends with the result of `pathfindAStar` after at
most 225 passes of the loop body; no two passes take out the same cell; a neighbour in
the closed set is never put into the open set; the result is true exactly when a pass
takes out the goal, which then is the last pass, and false when the open set runs empty
with no pass having taken out the goal. -/
theorem pathfindAStar_terminates (M : FloatModel) (grid : Grid)
    (startX startY goalX goalY : Int) :
    (∀ fuel, searchFuel ≤ fuel →
      ∃ passes : List (Iteration M.F),
        pathfindTrace M fuel grid startX startY goalX goalY
          = some (pathfindAStar M grid startX startY goalX goalY, passes) ∧
        pathfindAStarFuel M fuel grid startX startY goalX goalY
          = some (pathfindAStar M grid startX startY goalX goalY) ∧
        (passes.length : Int) ≤ GRID_WIDTH * GRID_HEIGHT ∧ passes.length ≤ 225 ∧
        (passes.map (fun pass => nodePos pass.current)).Nodup ∧
        (pathfindAStar M grid startX startY goalX goalY = true →
          ∃ last, passes.getLast? = some last ∧ nodePos last.current = (goalX, goalY)) ∧
        (pathfindAStar M grid startX startY goalX goalY = false →
          ∀ pass ∈ passes, nodePos pass.current ≠ (goalX, goalY)) ∧
        ∀ pass ∈ passes.dropLast, nodePos pass.current ≠ (goalX, goalY)) ∧
    ∀ (closedSet : Grid) (current : Node M.F) (openSet : List (Node M.F)) (i : Nat),
      closedSet (current.posY + dy_path.getD i 0) (current.posX + dx_path.getD i 0) = true →
      expandNeighbor M grid closedSet goalX goalY current openSet i = openSet := by
  constructor
  · intro fuel hfuel
    obtain ⟨passes, e, r1, r2, r3, r4, r5, _⟩ :=
      pathfindTrace_spec M grid startX startY goalX goalY fuel hfuel
    refine ⟨passes, e, ?_, ?_, r1, r2, r3, r4, r5⟩
    · have h := e
      unfold pathfindTrace at h
      unfold pathfindAStarFuel
      by_cases hv : endpointsInvalid grid startX startY goalX goalY = true
      · rw [if_pos hv] at h ⊢
        simp only [Option.some.injEq, Prod.mk.injEq] at h
        rw [← h.1]
      · rw [if_neg hv] at h ⊢
        rw [← aStarTrace_result, h]
        rfl
    · simp only [GRID_WIDTH, GRID_HEIGHT]
      omega
  · intro closedSet current openSet i hc
    unfold expandNeighbor
    simp only
    rw [if_pos]
    simp only [neighborSkipped, decide_eq_true_eq]
    right; right; right; right; right
    exact hc

/-- C26: working storage stays within its capacity of 225 entries.  In every run of
`pathfindAStar`, at every pass of its loop the open set holds no position twice and no
closed cell, so at most 225 nodes, and while the neighbours of `current` are visited the
open set stays below 225 nodes, so the capacity test never drops a neighbour
(`PassWithinCapacity`).  The queue of the breadth-first search of `placeCoins` starts
with no cell twice and every pass of its neighbour loop keeps it so (`BfsShape`), without
writing past the end of the queue, which therefore holds at most 225 entries; the search
returns for every grid and exit without writing past the end of `queue` or `path` or
reading past the queue, a path it returns has at most 225 cells, and `placeCoins` as a
whole returns for every state. -/
theorem search_storage_within_capacity (M : FloatModel) (grid : Grid)
    (startX startY goalX goalY : Int) :
    (∃ passes : List (Iteration M.F),
      pathfindTrace M searchFuel grid startX startY goalX goalY
        = some (pathfindAStar M grid startX startY goalX goalY, passes) ∧
      ∀ pass ∈ passes, PassWithinCapacity M grid goalX goalY pass) ∧
    (BfsShape bfsStart ∧
      ∀ (s : BfsState) (x y : Int) (queueFront i : Nat), BfsShape s →
        queueFront < s.queue.length → i < 4 →
        ∃ s1, bfsNeighbor grid x y (queueFront : Int) s i = .ok s1 ∧ BfsShape s1 ∧
          s1.queue.length ≤ 225) ∧
    (∃ r, bfsLoop grid goalX goalY bfsFuel bfsStart 0 = .ok r ∧
      ∀ path, r = some path →
        path.length ≤ 225 ∧ (path.length : Int) ≤ GRID_WIDTH * GRID_HEIGHT) ∧
    ∀ w : World, ∃ w1, placeCoins M w = .ok w1 := by
  refine ⟨?_, ⟨?_, ?_⟩, ?_, ?_⟩
  · obtain ⟨passes, e, _, _, _, _, _, r7⟩ :=
      pathfindTrace_spec M grid startX startY goalX goalY searchFuel (le_refl _)
    exact ⟨passes, e, r7⟩
  · refine ⟨by simp [bfsStart], ?_, ?_⟩
    · intro e he
      simp only [bfsStart, List.mem_singleton] at he
      subst he
      exact ⟨by decide, by simp [bfsStart, setCell]⟩
    · intro k e hk
      cases k with
      | zero =>
        simp only [bfsStart, List.get?_cons_zero, Option.some.injEq] at hk
        subst hk
        simp
      | succ k => simp [bfsStart] at hk
  · intro s x y queueFront i hs hq hi
    obtain ⟨s1, h1, h2, _, _⟩ := bfsNeighbor_spec grid x y queueFront (fun _ => True)
      (fun _ _ _ _ => trivial) s i hi ⟨hs, hq, fun _ _ => trivial⟩
    refine ⟨s1, h1, h2, ?_⟩
    have := nodup_cells_length_le (s1.queue.map entryCell) h2.1
      (by
        intro p hp
        obtain ⟨e, he, rfl⟩ := List.mem_map.mp hp
        exact (h2.2.1 e he).1)
    rw [List.length_map] at this
    exact this
  · obtain ⟨r, hr⟩ := bfsLoop_total grid goalX goalY
    refine ⟨r, hr, ?_⟩
    intro path hp
    subst hp
    have := bfsLoop_path_length grid goalX goalY path hr
    refine ⟨this, ?_⟩
    simp only [GRID_WIDTH, GRID_HEIGHT]
    omega
  · intro w
    obtain ⟨w1, _, h, _⟩ := placeCoins_spec M w
    exact ⟨w1, h⟩

/-- C27: for every difficulty and random stream, on the state left by `generateRandomMap`,
`findValidExit` and `placeCoins` in sequence (which always return),
`verifyAllPathsExist` returns what `pathfindAStar` returns from `(1,1)` to the exit; and
when that is false, no collectible has been placed: `totalCoins` is 0 and no entry of the
collectible array is active. -/
theorem verifyAllPathsExist_after_pipeline (M : FloatModel) (w : World) :
    ∃ w1, placeCoins M (findValidExit (generateRandomMap w)) = .ok w1 ∧
      verifyAllPathsExist M w1 = pathfindAStar M w1.spaceMap 1 1 w1.exitX w1.exitY ∧
      (pathfindAStar M w1.spaceMap 1 1 w1.exitX w1.exitY = false →
        w1.totalCoins = 0 ∧ ∀ i, i < MAX_COINS → (w1.coins i).active = false) := by
  have hstart : (findValidExit (generateRandomMap w)).spaceMap 1 1 = false :=
    findValidExit_keeps_start_open _ (generateRandomMap_protected w 1 1 (by decide))
  obtain ⟨w1, k1, s0, s1, s2, s3, _, s5, _, s7, _, s9, s10⟩ :=
    placeCoins_spec M (findValidExit (generateRandomMap w))
  refine ⟨w1, s0, ?_, ?_⟩
  · unfold verifyAllPathsExist
    cases hp : pathfindAStar M w1.spaceMap 1 1 w1.exitX w1.exitY with
    | false => simp
    | true =>
      simp only [Bool.true_eq_false, if_false]
      rw [List.all_eq_true]
      intro i hi
      have hi2 := List.mem_range.mp hi
      by_cases hact : (w1.coins i).active = true
      · rw [if_pos hact, s1, s2, s3]
        by_cases h1 : i < k1
        · obtain ⟨_, _, _, p1, p2⟩ := s7 i h1
          simp [p1, p2]
        · obtain ⟨_, hl⟩ := s9 i (by omega) hi2
          obtain ⟨lc, le⟩ := hl hstart
          obtain ⟨p1, p2⟩ := LinkedToStart.pathfind M _ _ _ hstart lc le
          simp only at p1 p2
          simp [p1, p2]
      · rw [if_neg hact]
  · intro hp
    rw [s1, s2, s3] at hp
    have hk1 : k1 = 0 := by
      by_contra hne
      obtain ⟨_, _, _, p1, p2⟩ := s7 0 (by omega)
      have c1 := (pathfindAStar_iff_fourConn M _ _ _ _ _).mp p1
      have c2 := (pathfindAStar_iff_fourConn M _ _ _ _ _).mp p2
      have := (pathfindAStar_iff_fourConn M _ _ _ _ _).mpr (c1.transitive c2)
      rw [this] at hp
      exact absurd hp (by decide)
    have htot : w1.totalCoins = 0 := by
      by_contra hne
      obtain ⟨_, hl⟩ := s9 k1 (le_refl _) (by omega)
      obtain ⟨_, le⟩ := hl hstart
      obtain ⟨p1, _⟩ := LinkedToStart.pathfind M _ _ _ hstart le le
      simp only at p1
      rw [p1] at hp
      exact absurd hp (by decide)
    refine ⟨htot, ?_⟩
    intro i hi
    exact s10 i (by omega) hi

/-- C28: in every state in which `placeCoins` is called (the state left by
`generateRandomMap` and `findValidExit`, whose start cell is open), when the randomized
phase under-fills and the breadth-first search finds the exit, the path it returns,
reversed (which is what the in-place reversal computes), begins at `(1,1)`, ends at the
exit cell, and goes by cardinal steps through open cells; it has at least 13 cells.  The
remaining collectibles are then placed as `placeEvenlySpec` says: at the indices
`i * interval` for `i = 1 .. remaining` with `interval = max(1, pathLength /
(remaining + 1))`, skipping an index of `pathLength` or more and a cell that already
holds a placed collectible; every collectible so placed lies on a cell of the path. -/
theorem placeCoins_path_phase (M : FloatModel) (w0 : World) (path : List (Int × Int))
    (hunder : (afterRandomPhase M (pipelineState w0)).2
      < targetCoins (pipelineState w0).currentDifficulty)
    (hbfs : bfsLoop (pipelineState w0).spaceMap (pipelineState w0).exitX
      (pipelineState w0).exitY bfsFuel bfsStart 0 = .ok (some path)) :
    (pipelineState w0).spaceMap 1 1 = false ∧
    reversePath path = path.reverse ∧
    path.reverse.head? = some (1, 1) ∧
    path.reverse.getLast? = some ((pipelineState w0).exitX, (pipelineState w0).exitY) ∧
    cardinalPath (pipelineState w0).spaceMap path.reverse = true ∧
    13 ≤ path.length ∧
    placeCoins M (pipelineState w0) = .ok
      { (placeAlongPath path (afterRandomPhase M (pipelineState w0)).1
          (afterRandomPhase M (pipelineState w0)).2).1 with
        totalCoins := (placeAlongPath path (afterRandomPhase M (pipelineState w0)).1
          (afterRandomPhase M (pipelineState w0)).2).2 } ∧
    placeAlongPath path (afterRandomPhase M (pipelineState w0)).1
        (afterRandomPhase M (pipelineState w0)).2
      = placeEvenlySpec path.reverse (afterRandomPhase M (pipelineState w0)).1
        (afterRandomPhase M (pipelineState w0)).2 ∧
    ∀ i, (afterRandomPhase M (pipelineState w0)).2 ≤ i →
      i < (placeAlongPath path (afterRandomPhase M (pipelineState w0)).1
        (afterRandomPhase M (pipelineState w0)).2).2 →
      (((placeAlongPath path (afterRandomPhase M (pipelineState w0)).1
          (afterRandomPhase M (pipelineState w0)).2).1.coins i).active = true ∧
        (((placeAlongPath path (afterRandomPhase M (pipelineState w0)).1
            (afterRandomPhase M (pipelineState w0)).2).1.coins i).x,
          ((placeAlongPath path (afterRandomPhase M (pipelineState w0)).1
            (afterRandomPhase M (pipelineState w0)).2).1.coins i).y) ∈ path.reverse) := by
  obtain ⟨hstart, hx, hy⟩ := pipelineState_spec w0
  obtain ⟨p1, p2, p3, _⟩ := bfsLoop_path (pipelineState w0).spaceMap (pipelineState w0).exitX
    (pipelineState w0).exitY hstart path hbfs
  have hlen := cardinalPath_length (pipelineState w0).spaceMap path.reverse _ _ p1 p2 p3
  simp only [List.length_reverse] at hlen
  have h13 : 13 ≤ path.length := by omega
  obtain ⟨_, e2⟩ := placeAlongPath_eq path (afterRandomPhase M (pipelineState w0)).1
    (afterRandomPhase M (pipelineState w0)).2
  obtain ⟨_, _, _, a4⟩ := afterRandomPhase_spec M (pipelineState w0)
  have hinv := placeAlongPath_inv (fun c => c ∈ path.reverse)
    (afterRandomPhase M (pipelineState w0)).1 (afterRandomPhase M (pipelineState w0)).2 path
    (fun c hc => List.mem_reverse.mpr hc) (by rw [a4]; omega)
  obtain ⟨_, _, _, _, _, _, _, h8, _⟩ := hinv
  exact ⟨hstart, reversePath_eq_reverse path, p1, p2, p3, h13,
    placeCoins_of_path M (pipelineState w0) path hunder hbfs, e2 (by omega), h8⟩

theorem placeCoins_path_phase_witness :
    (afterRandomPhase exactCost (pipelineState (initialWorld DIFFICULTY_EASY twoCoinStream))).2
      < targetCoins (pipelineState (initialWorld DIFFICULTY_EASY twoCoinStream)).currentDifficulty ∧
    (bfsLoop (pipelineState (initialWorld DIFFICULTY_EASY twoCoinStream)).spaceMap
      (pipelineState (initialWorld DIFFICULTY_EASY twoCoinStream)).exitX
      (pipelineState (initialWorld DIFFICULTY_EASY twoCoinStream)).exitY bfsFuel bfsStart
      0).toOption
      = some (some [(7, 7), (7, 6), (7, 5), (7, 4), (7, 3), (7, 2), (7, 1), (6, 1), (5, 1),
          (4, 1), (3, 1), (2, 1), (1, 1)]) ∧
    cardinalPath (pipelineState (initialWorld DIFFICULTY_EASY twoCoinStream)).spaceMap
      [(7, 7), (7, 6), (7, 5), (7, 4), (7, 3), (7, 2), (7, 1), (6, 1), (5, 1),
        (4, 1), (3, 1), (2, 1), (1, 1)].reverse = true ∧
    placeAlongPath [(7, 7), (7, 6), (7, 5), (7, 4), (7, 3), (7, 2), (7, 1), (6, 1), (5, 1),
        (4, 1), (3, 1), (2, 1), (1, 1)]
        (afterRandomPhase exactCost (pipelineState (initialWorld DIFFICULTY_EASY twoCoinStream))).1
        (afterRandomPhase exactCost (pipelineState (initialWorld DIFFICULTY_EASY twoCoinStream))).2
      = placeEvenlySpec [(7, 7), (7, 6), (7, 5), (7, 4), (7, 3), (7, 2), (7, 1), (6, 1), (5, 1),
        (4, 1), (3, 1), (2, 1), (1, 1)].reverse
        (afterRandomPhase exactCost (pipelineState (initialWorld DIFFICULTY_EASY twoCoinStream))).1
        (afterRandomPhase exactCost (pipelineState (initialWorld DIFFICULTY_EASY twoCoinStream))).2 := by
  have hunder : (afterRandomPhase exactCost
      (pipelineState (initialWorld DIFFICULTY_EASY twoCoinStream))).2
      < targetCoins (pipelineState (initialWorld DIFFICULTY_EASY twoCoinStream)).currentDifficulty := by
    have h2 : (afterRandomPhase exactCost
        (pipelineState (initialWorld DIFFICULTY_EASY twoCoinStream))).2 = 2 :=
      twoCoinState_random_phase
    have hd : (pipelineState (initialWorld DIFFICULTY_EASY twoCoinStream)).currentDifficulty
        = DIFFICULTY_EASY := by decide!
    rw [h2, hd]
    decide
  have hopt : (bfsLoop (pipelineState (initialWorld DIFFICULTY_EASY twoCoinStream)).spaceMap
      (pipelineState (initialWorld DIFFICULTY_EASY twoCoinStream)).exitX
      (pipelineState (initialWorld DIFFICULTY_EASY twoCoinStream)).exitY bfsFuel bfsStart
      0).toOption
      = some (some [(7, 7), (7, 6), (7, 5), (7, 4), (7, 3), (7, 2), (7, 1), (6, 1), (5, 1),
          (4, 1), (3, 1), (2, 1), (1, 1)]) := twoCoinState_search
  have h := placeCoins_path_phase exactCost (initialWorld DIFFICULTY_EASY twoCoinStream)
    [(7, 7), (7, 6), (7, 5), (7, 4), (7, 3), (7, 2), (7, 1), (6, 1), (5, 1),
      (4, 1), (3, 1), (2, 1), (1, 1)] hunder (toOption_eq_some _ _ hopt)
  exact ⟨hunder, hopt, h.2.2.2.2.1, h.2.2.2.2.2.2.2.1⟩

/-- C29: for every difficulty, every candidate cell that the draw of `findValidExit` can
produce is farther from `(1,1)` than the minimum distance of the difficulty, so the
distance test rejects no candidate: the exit is the first of the 100 drawn candidates
whose cell is open (and the grid is left as it was), and the loop ends without a
candidate, so that the fallback runs, exactly when all 100 drawn candidates are blocked. -/
theorem findValidExit_takes_first_open_candidate (w : World) :
    (∀ (d : DifficultyLevel) (r1 r2 : Nat),
      distSq (exitCandidate r1 r2).1 (exitCandidate r1 r2).2 1 1 > minDistance d ^ 2) ∧
    (∀ k, k < 100 → w.spaceMap (exitDraw w k).2 (exitDraw w k).1 = false →
      (∀ j, j < k → w.spaceMap (exitDraw w j).2 (exitDraw w j).1 = true) →
      (findExitLoop (minDistance w.currentDifficulty) 100 w).1 = some (exitDraw w k) ∧
      (findValidExit w).exitX = (exitDraw w k).1 ∧ (findValidExit w).exitY = (exitDraw w k).2 ∧
      (findValidExit w).spaceMap = w.spaceMap ∧
      (findValidExit w).randPos = w.randPos + 2 * (k + 1)) ∧
    ((findExitLoop (minDistance w.currentDifficulty) 100 w).1 = none ↔
      ∀ j, j < 100 → w.spaceMap (exitDraw w j).2 (exitDraw w j).1 = true) := by
  obtain ⟨h1, h2⟩ := findExitLoop_first_open w.currentDifficulty 100 w
  refine ⟨exitCandidate_far, ?_, ?_, ?_⟩
  · intro k hk hopen hblocked
    obtain ⟨e1, e2⟩ := h1 k hk hopen hblocked
    refine ⟨e1, ?_⟩
    obtain ⟨hmap, _, _⟩ := findExitLoop_spec (minDistance w.currentDifficulty) 100 w
    unfold findValidExit
    rcases hres : findExitLoop (minDistance w.currentDifficulty) 100 w with ⟨c, w1⟩
    rw [hres] at e1 e2 hmap
    simp only at e1 e2 hmap
    subst e1
    exact ⟨rfl, rfl, hmap, e2⟩
  · intro hnone
    by_contra hex
    push_neg at hex
    have hex2 : ∃ j, j < 100 ∧ w.spaceMap (exitDraw w j).2 (exitDraw w j).1 = false := by
      obtain ⟨j, hj, hne⟩ := hex
      exact ⟨j, hj, by simpa using hne⟩
    classical
    have hmin := Nat.find_spec hex2
    have hbefore : ∀ j, j < Nat.find hex2 →
        w.spaceMap (exitDraw w j).2 (exitDraw w j).1 = true := by
      intro j hj
      have := Nat.find_min hex2 hj
      have hj100 : j < 100 := by omega
      by_contra hne
      exact this ⟨hj100, by simpa using hne⟩
    have := (h1 _ hmin.1 hmin.2 hbefore).1
    rw [hnone] at this
    cases this
  · intro hall
    exact (h2 hall).1

/-- C30 (code defect): the waypoint loop of `createGuaranteedPath` is claimed to end, for
every random stream, after 6 to 11 passes with both coordinates at least 12, having
recorded 8 to 13 waypoints with the start and the exit.  That is how its control flow
runs when the writes to `pathPoints` are left out of account (`waypointLoop`): 6 to 11
passes, every coordinate in `[1,13]` and never decreasing, the clamp never changing a
value, the bound `MAX_PATH_LENGTH - 1` never reached, 8 waypoints on the constant stream
`1` and 13 on the constant stream `0`.  But the buffer `pathPoints` has `MAX_COINS = 10`
entries: whenever more than 8 passes are needed, a pass writes its waypoint past the end
of the buffer and the loop as written (`corridorLoop`) does not complete; on the constant
stream `0` that is the pass that records `(11,11)`. -/
theorem waypointLoop_passes_or_overflow :
    (∀ w : World, ∃ c, waypointLoop 12 12 MAX_PATH_LENGTH (corridorStart w) = some c ∧
      6 ≤ c.pathPoints.length - 1 ∧ c.pathPoints.length - 1 ≤ 11 ∧
      12 ≤ c.currentX ∧ 12 ≤ c.currentY ∧
      c.pathPoints.getLast? = some (c.currentX, c.currentY) ∧
      (∀ p ∈ c.pathPoints, 1 ≤ p.1 ∧ p.1 ≤ 13 ∧ 1 ≤ p.2 ∧ p.2 ≤ 13) ∧
      List.Chain' (fun p q : Int × Int => p.1 ≤ q.1 ∧ p.2 ≤ q.2) c.pathPoints ∧
      c.pathPoints.length < MAX_PATH_LENGTH - 1 ∧
      8 ≤ c.pathPoints.length + 1 ∧ c.pathPoints.length + 1 ≤ 13 ∧
      (c.pathPoints.length - 1 ≤ 8 →
        recordWaypoints w = .ok (c.pathPoints ++ [(12, 12)], c.world)) ∧
      (8 < c.pathPoints.length - 1 → recordWaypoints w = .error Fault.bufferOverflow)) ∧
    (∀ (x y : Int) (w : World), x ≤ 13 → y ≤ 13 →
      nextWaypoint 12 12 x y w = advanceBoth 12 12 x y w) ∧
    (waypointLoop 12 12 MAX_PATH_LENGTH
        (corridorStart (initialWorld DIFFICULTY_EASY (fun _ => 1)))).map (fun c => c.pathPoints)
      = some [(1, 1), (3, 3), (5, 5), (7, 7), (9, 9), (11, 11), (13, 13)] ∧
    (waypointLoop 12 12 MAX_PATH_LENGTH
        (corridorStart (initialWorld DIFFICULTY_EASY (fun _ => 0)))).map (fun c => c.pathPoints)
      = some [(1, 1), (2, 2), (3, 3), (4, 4), (5, 5), (6, 6), (7, 7), (8, 8), (9, 9), (10, 10),
          (11, 11), (12, 12)] ∧
    (show Option Fault from
      match corridorLoop 12 12 MAX_PATH_LENGTH
          (corridorStart (initialWorld DIFFICULTY_EASY (fun _ => 0))) with
      | .ok _ => none
      | .error e => some e) = some Fault.bufferOverflow := by
  refine ⟨?_, fun x y w hx hy => (nextWaypoint_unclamped x y w hx hy).1, by decide!,
    by decide!, by decide!⟩
  intro w
  obtain ⟨c, hc, hinv, hx, hy, h7, h12, k1, k2⟩ := waypoints_spec w
  obtain ⟨i1, _, i3, i4, _⟩ := hinv
  refine ⟨c, hc, by omega, by omega, hx, hy, i1, i3, i4, by simp only [MAX_PATH_LENGTH]; omega,
    by omega, by omega, ?_, ?_⟩
  · intro h
    exact k1 (by simp only [MAX_COINS]; omega)
  · intro h
    exact k2 (by simp only [MAX_COINS]; omega)

end CosmicLightWeaver
